import Mathlib

/-!
Verification development for the `pypibt` repository: an EPIBT (Enhanced
Priority-Inherited Backtracking) multi-agent path-finding planner with
rotation-aware multi-action operations, a lazy-BFS distance oracle, and a
MAPD (multi-agent pickup and delivery) dispatcher.

The definitions below are a shallow embedding of the Python source:
  * `src/pypibt/mapf_utils.py`  (grid, coordinate validity, neighbors)
  * `src/pypibt/dist_table.py`  (lazy BFS distance oracle)
  * `src/pypibt/pibt.py`        (operation catalog, trajectory evaluation,
                                 reservation table, EPIBT selection, step/run)
  * `src/pypibt/simulation.py`  (MAPD dispatcher)

Modelling conventions:
  * Python ints are `Int`/`Nat`; Python float priorities are `Rat`
    (every arithmetic operation performed on them in the source — adding 1,
    subtracting the floor, dividing a small int by the grid size — is exact
    on the values that occur, so rationals are a faithful carrier).
  * numpy arrays indexed by coordinates become total functions; numpy's
    negative-index wrapping is not modelled (all claims concern in-bounds
    coordinates, where the two agree).
  * `np.random` draws are abstracted as explicit oracle functions (draw
    streams); the Python generator is a deterministic function of the seed,
    so any fixed oracle instantiates it.
  * the recursive `_epibt_select` is defined with an explicit fuel
    parameter (structural recursion); `selectF_total` below proves that the
    fuel bound used by `step` never runs out, so the fuel-free behaviour is
    total exactly as in the source.
-/

namespace PyPIBT

/-- Coordinate `(y, x)`, as `mapf_utils.Coord`. -/
abbrev Coord := Int × Int

/-- Grid of `H × W` booleans, `True` = traversable (`mapf_utils.Grid`). -/
structure Grid where
  H : Nat
  W : Nat
  free : Nat → Nat → Bool

/-- numpy `grid.size` = number of cells. -/
def Grid.size (g : Grid) : Nat := g.H * g.W

/-- `mapf_utils.is_valid_coord`: in bounds and traversable. -/
def is_valid_coord (g : Grid) (c : Coord) : Bool :=
  if c.1 < 0 ∨ (g.H : Int) ≤ c.1 ∨ c.2 < 0 ∨ (g.W : Int) ≤ c.2 ∨
      g.free c.1.toNat c.2.toNat = false then
    false
  else true

/-- `mapf_utils.get_neighbors`: the traversable 4-neighbors of a valid cell,
in the source's order (left, right, up, down); `[]` for an invalid cell. -/
def get_neighbors (g : Grid) (c : Coord) : List Coord :=
  if ¬ is_valid_coord g c then []
  else
    let y := c.1
    let x := c.2
    (if 0 < x ∧ g.free y.toNat (x - 1).toNat then [(y, x - 1)] else []) ++
    (if x < (g.W : Int) - 1 ∧ g.free y.toNat (x + 1).toNat then [(y, x + 1)] else []) ++
    (if 0 < y ∧ g.free (y - 1).toNat x.toNat then [(y - 1, x)] else []) ++
    (if y < (g.H : Int) - 1 ∧ g.free (y + 1).toNat x.toNat then [(y + 1, x)] else [])

/-- Modelled from the spec: the action alphabet `{F, R, C, W}` ("Action.
One of {F (forward one cell along current orientation), R (turn CW),
C (turn CCW), W (wait)}"); referenced by `pibt.py` via the `Operation`
alias missing from `mapf_utils.py`. -/
inductive Action
  | F
  | R
  | C
  | W
deriving DecidableEq, Repr

/-- Modelled from the spec: an operation is an ordered sequence of actions
(the `Operation` alias of `mapf_utils` is missing from the source). -/
abbrev Operation := List Action

/-- Modelled from the spec: orientations are 0=N, 1=E, 2=S, 3=W with
direction vectors (dy,dx): N=(-1,0), E=(0,1), S=(1,0), W=(0,-1)
(`DIRECTION_VECTORS` is referenced by `pibt.py` but missing from
`mapf_utils.py`). Out-of-range indices (impossible at runtime) map to (0,0). -/
def DIRECTION_VECTORS (o : Int) : Int × Int :=
  if o = 0 then (-1, 0)
  else if o = 1 then (0, 1)
  else if o = 2 then (1, 0)
  else if o = 3 then (0, -1)
  else (0, 0)

/-- `pibt._net_rotation`: net rotation of an operation in quarter-turns
(mod 4), R = +1, C = -1. -/
def _net_rotation (op : Operation) : Int :=
  (op.foldl (fun rot a =>
    if a = Action.R then rot + 1
    else if a = Action.C then rot - 1
    else rot) 0) % 4

/-- All tuples over `{F,R,C,W}` of the given length, in the order of
`itertools.product("FRCW", repeat=op_len)` (first component slowest). -/
def allActionTuples : Nat → List Operation
  | 0 => [[]]
  | n + 1 =>
    ([Action.F, Action.R, Action.C, Action.W]).flatMap
      (fun a => (allActionTuples n).map (fun t => a :: t))

/-- Rule 1 of the pruning: the previous action and the current one form an
adjacent cancelling `R`,`C` or `C`,`R` pair (`prev = none` models `i = 0`). -/
def cancelPair (prev : Option Action) (a : Action) : Bool :=
  match prev with
  | some p => (p = Action.R ∧ a = Action.C) ∨ (p = Action.C ∧ a = Action.R)
  | none => false

/-- The scan deciding `bad` in `pibt._generate_operations`, carrying the
previous action and the running `rot_count` / `net_rot` of the current
rotation run exactly as the source loop does. -/
def _operation_scan_bad : Option Action → Nat → Int → List Action → Bool
  | _, _, _, [] => false
  | prev, rot_count, net_rot, a :: rest =>
    if a = Action.R ∨ a = Action.C then
      let rc := rot_count + 1
      let nr := net_rot + (if a = Action.R then 1 else -1)
      if cancelPair prev a then
        true
      else
        let absn := nr.natAbs % 4
        if rc > min absn (4 - absn) then
          if absn = 0 ∧ rc > 0 then true
          else if absn ≠ 0 ∧ rc > min absn (4 - absn) then true
          else _operation_scan_bad (some a) rc nr rest
        else _operation_scan_bad (some a) rc nr rest
    else _operation_scan_bad (some a) 0 0 rest

/-- Whether the operation's last action is a rotation (rule 3 of the
pruning; the source reads `op[-1]`, which presumes a nonempty operation). -/
def endsWithRotation (op : Operation) : Bool :=
  match op.getLast? with
  | some a => a = Action.R ∨ a = Action.C
  | none => false

/-- `pibt._generate_operations`: all pruned operations of the given length. -/
def _generate_operations (op_len : Nat) : List Operation :=
  (allActionTuples op_len).filter
    (fun op => ¬ endsWithRotation op ∧ ¬ _operation_scan_bad none 0 0 op)

/-- Tail of `pibt._compute_cell_path`: simulate the remaining actions from
the current cell and orientation, producing the remaining cells (one per
action) and the final orientation, or `none` if a forward move is invalid. -/
def computeCellPathAux (g : Grid) : Coord → Int → List Action → Option (List Coord × Int)
  | _, ori, [] => some ([], ori)
  | cur, ori, a :: rest =>
    match a with
    | Action.F =>
      let d := DIRECTION_VECTORS ori
      let nxt : Coord := (cur.1 + d.1, cur.2 + d.2)
      if is_valid_coord g nxt then
        (computeCellPathAux g nxt ori rest).map (fun r => (nxt :: r.1, r.2))
      else none
    | Action.R =>
      (computeCellPathAux g cur ((ori + 1) % 4) rest).map (fun r => (cur :: r.1, r.2))
    | Action.C =>
      (computeCellPathAux g cur ((ori - 1) % 4) rest).map (fun r => (cur :: r.1, r.2))
    | Action.W =>
      (computeCellPathAux g cur ori rest).map (fun r => (cur :: r.1, r.2))

/-- `pibt._compute_cell_path`: cell sequence (length `|op|+1`, starting at
`coord`) and final orientation for an operation, or `none` if any forward
move goes out of bounds or hits an obstacle. -/
def _compute_cell_path (g : Grid) (coord : Coord) (ori : Int) (op : Operation) :
    Option (List Coord × Int) :=
  (computeCellPathAux g coord ori op).map (fun r => (coord :: r.1, r.2))

/-- `dist_table._UNREACHED = np.iinfo(np.int32).max`. -/
def UNREACHED : Nat := 2147483647

/-- `dist_table.DistTable`: lazy BFS state — grid, goal, pending queue and
the distance table (a total function standing for the `(H,W)` numpy array). -/
structure DistTable where
  grid : Grid
  goal : Coord
  queue : List Coord
  table : Coord → Nat

/-- Pointwise update of a distance table. -/
def updTable (t : Coord → Nat) (c : Coord) (v : Nat) : Coord → Nat :=
  fun c' => if c' = c then v else t c'

/-- The neighbor-relaxation loop inside `DistTable.get`: mark each still
`UNREACHED` neighbor with `d+1` and collect it for appending to the queue
(in the source's order). -/
def relaxFold (d : Nat) : List Coord → (Coord → Nat) → ((Coord → Nat) × List Coord)
  | [], table => (table, [])
  | v :: vs, table =>
    if table v = UNREACHED then
      let r := relaxFold d vs (updTable table v (d + 1))
      (r.1, v :: r.2)
    else relaxFold d vs table

/-- The `while self.queue` loop of `DistTable.get`, with explicit fuel
(each iteration pops one node; `bfsLoop_inv` below shows the fuel
used by `DistTable.get` never runs out). Returns the distance of `target`
once `target` is popped, or `UNREACHED` when the queue empties. -/
def bfsLoop (g : Grid) (target : Coord) :
    Nat → List Coord → (Coord → Nat) → Option (Nat × List Coord × (Coord → Nat))
  | _, [], table => some (UNREACHED, [], table)
  | 0, _ :: _, _ => none
  | fuel + 1, u :: rest, table =>
    let d := table u
    let r := relaxFold d (get_neighbors g u) table
    if u = target then some (d, rest ++ r.2, r.1)
    else bfsLoop g target fuel (rest ++ r.2) r.1

/-- Number of in-bounds cells whose table entry is still `UNREACHED`
(the fuel measure for the BFS loop). -/
def unreachedCount (g : Grid) (table : Coord → Nat) : Nat :=
  (((List.range g.H).flatMap (fun y => (List.range g.W).map
      (fun x => (Int.ofNat y, Int.ofNat x) ))).countP
    (fun c => table c = UNREACHED))

/-- `DistTable.get`: distance from `target` to the goal, resuming the lazy
BFS and returning the updated table state alongside the value. -/
def DistTable.get (dt : DistTable) (target : Coord) : Nat × DistTable :=
  if ¬ is_valid_coord dt.grid target then (UNREACHED, dt)
  else if dt.table target ≠ UNREACHED then (dt.table target, dt)
  else
    match bfsLoop dt.grid target (unreachedCount dt.grid dt.table + dt.queue.length + 1)
        dt.queue dt.table with
    | some r => (r.1, { dt with queue := r.2.1, table := r.2.2 })
    | none => (UNREACHED, dt)

/-- `DistTable.__post_init__`: queue seeded with the goal, table all
`UNREACHED` except `goal ↦ 0`. -/
def mkDistTable (g : Grid) (goal : Coord) : DistTable :=
  { grid := g, goal := goal, queue := [goal],
    table := updTable (fun _ => UNREACHED) goal 0 }

/-- A scored candidate inside `_get_sorted_candidates`: weight
`h * alpha + beta` (an integer in the source's float slot), operation,
cell path, final orientation. -/
structure Cand where
  w : Nat
  op : Operation
  path : List Coord
  ori : Int
deriving DecidableEq

/-- The RNG shuffle of `_get_sorted_candidates`, abstracted: the n-th call
of the planner's seeded `rng.shuffle` applied to a candidate list. Any
fixed function models the seeded numpy generator. -/
abbrev ShuffleOracle := Nat → List Cand → List Cand

/-- Insert into a weight-ascending list, before the first element of
weight `≥` its own: combined with `sortAscByW` this reproduces a stable
ascending sort, which is what `list.sort(key=...)` performs. -/
def insertAscByW (x : Cand) : List Cand → List Cand
  | [] => [x]
  | y :: ys => if x.w ≤ y.w then x :: y :: ys else y :: insertAscByW x ys

/-- Stable ascending sort by weight (equal-weight candidates keep their
relative order), as Python's stable `sort(key=lambda x: x[0])`. -/
def sortAscByW : List Cand → List Cand
  | [] => []
  | x :: xs => insertAscByW x (sortAscByW xs)

/-- Insert an agent index into a priority-descending list, before the
first element of strictly smaller priority. -/
def insertDescByPrio (prio : Nat → Rat) (x : Nat) : List Nat → List Nat
  | [] => [x]
  | y :: ys => if prio y ≤ prio x then x :: y :: ys else y :: insertDescByPrio prio x ys

/-- Stable descending sort of agent indices by priority, as the source's
`sorted(range(N), key=lambda i: priorities[i], reverse=True)`. -/
def sortDescByPrio (prio : Nat → Rat) : List Nat → List Nat
  | [] => []
  | x :: xs => insertDescByPrio prio x (sortDescByPrio prio xs)

/-- The dict-insertion step of the dedup-by-cell-path in
`_get_sorted_candidates`: a later candidate with the same cell path
replaces the stored one in place iff its weight is strictly smaller;
a new cell path is appended at the end (Python dict insertion order). -/
def dedupInsert (e : Cand) : List Cand → List Cand
  | [] => [e]
  | f :: fs =>
    if f.path = e.path then (if e.w < f.w then e :: fs else f :: fs)
    else f :: dedupInsert e fs

/-- `best_by_path` of `_get_sorted_candidates` as an insertion-ordered
association list keyed by cell path. -/
def dedupByPath (raw : List Cand) : List Cand :=
  raw.foldl (fun acc e => dedupInsert e acc) []

/-- `beta` of `_get_sorted_candidates`: per-action penalty W=2, R=C=1, F=0. -/
def betaOf (op : Operation) : Nat :=
  (op.map (fun a => if a = Action.W then 2 else
    if a = Action.R ∨ a = Action.C then 1 else 0)).sum

/-- Planner state: the fields of the `PIBT` object (construction-time data
and the per-step mutable slots). `reserved` is the 3-D reservation table
`(t, cell) ↦ agent id or NIL`, with `NIL = N`. -/
structure PState where
  grid : Grid
  starts : List Coord
  goals : List Coord
  N : Nat
  op_len : Nat
  max_revisits : Nat
  dist_tables : List DistTable
  orientations : List Int
  inherited_ops : List Operation
  reserved : Nat → Coord → Nat
  all_operations : List Operation
  visit_count : List Nat
  hit : List Nat
  agent_ops : List Operation
  agent_paths : List (List Coord)
  Q_from : List Coord
  priorities : List Rat
  rngCount : Nat

/-- `PIBT._reserve_path` acting on a bare reservation table: write
`agent_id` at `(t, path[t])` for every index. -/
def reserveTab (aid : Nat) : Nat → List Coord → (Nat → Coord → Nat) → (Nat → Coord → Nat)
  | _, [], res => res
  | t, c :: rest, res =>
    reserveTab aid (t + 1) rest (fun t' c' => if t' = t ∧ c' = c then aid else res t' c')

/-- `PIBT._unreserve_path` acting on a bare reservation table: clear
`(t, path[t])` to `NIL` only where it currently equals `agent_id`. -/
def unreserveTab (aid nil : Nat) : Nat → List Coord → (Nat → Coord → Nat) → (Nat → Coord → Nat)
  | _, [], res => res
  | t, c :: rest, res =>
    unreserveTab aid nil (t + 1) rest
      (fun t' c' => if t' = t ∧ c' = c ∧ res t c = aid then nil else res t' c')

/-- `PIBT._reserve_path` on the planner state. -/
def _reserve_path (aid : Nat) (path : List Coord) (s : PState) : PState :=
  { s with reserved := reserveTab aid 0 path s.reserved }

/-- `PIBT._unreserve_path` on the planner state. -/
def _unreserve_path (aid : Nat) (path : List Coord) (s : PState) : PState :=
  { s with reserved := unreserveTab aid s.N 0 path s.reserved }

/-- One step of the conflict scan of `PIBT._get_conflicts` at time `t`:
the vertex check at `(t, cell)` and, when the path moved, the edge-swap
check against `(t-1, cell)` and `(t, prev)`; conflicts are accumulated
set-like (no duplicates), which is all the caller observes. -/
def conflictFold (res : Nat → Coord → Nat) (aid nil : Nat) :
    Nat → Coord → List Coord → List Nat → List Nat
  | _, _, [], acc => acc
  | t, prev, c :: rest, acc =>
    let acc1 :=
      let occ := res t c
      if occ ≠ nil ∧ occ ≠ aid ∧ occ ∉ acc then acc ++ [occ] else acc
    let acc2 :=
      if 0 < t ∧ c ≠ prev then
        let prev_occ := res (t - 1) c
        if prev_occ ≠ nil ∧ prev_occ ≠ aid ∧ res t prev = prev_occ ∧ prev_occ ∉ acc1 then
          acc1 ++ [prev_occ]
        else acc1
      else acc1
    conflictFold res aid nil (t + 1) c rest acc2

/-- `PIBT._get_conflicts`: the set (here: dedup-ordered list) of agents
whose reservations conflict with the given path, by vertex or edge swap. -/
def _get_conflicts (aid : Nat) (path : List Coord) (s : PState) : List Nat :=
  match path with
  | [] => []
  | c :: rest => conflictFold s.reserved aid s.N 1 c rest
      (let occ := s.reserved 0 c
       if occ ≠ s.N ∧ occ ≠ aid then [occ] else [])

/-- The candidate-collection fold of `_get_sorted_candidates`: for each
catalog operation, evaluate its trajectory, query the agent's distance
oracle at the terminal cell (threading the lazy-BFS state), and keep the
feasible, reachable ones with weight `h * alpha + beta`. -/
def collectRaw (g : Grid) (coord : Coord) (ori : Int) (alpha : Nat) :
    List Operation → DistTable → List Cand → (List Cand × DistTable)
  | [], dt, raw => (raw, dt)
  | op :: ops, dt, raw =>
    match _compute_cell_path g coord ori op with
    | none => collectRaw g coord ori alpha ops dt raw
    | some r =>
      let q := dt.get (r.1.getLastD (0, 0))
      if q.1 = UNREACHED then collectRaw g coord ori alpha ops q.2 raw
      else collectRaw g coord ori alpha ops q.2
        (raw ++ [{ w := q.1 * alpha + betaOf op, op := op, path := r.1, ori := r.2 }])

/-- `PIBT._get_sorted_candidates`: generate, dedup by cell path, shuffle
(via the oracle) and stably sort the agent's candidate operations. -/
def _get_sorted_candidates (oracle : ShuffleOracle) (aid : Nat) (coord : Coord)
    (ori : Int) (s : PState) : List (Operation × List Coord × Int) × PState :=
  let alpha := s.grid.size * 10
  let dt0 := s.dist_tables.getD aid (mkDistTable s.grid (0, 0))
  let r := collectRaw s.grid coord ori alpha s.all_operations dt0 []
  let deduped := dedupByPath r.1
  let shuffled := oracle s.rngCount deduped
  let sorted := sortAscByW shuffled
  (sorted.map (fun c => (c.op, c.path, c.ori)),
    { s with dist_tables := s.dist_tables.set aid r.2, rngCount := s.rngCount + 1 })

/-- Lines 335-345 of `pibt.py` (`_epibt_select`, all-candidates-failed):
fall back to the inherited operation, recomputing its cell path, or a
stay-in-place path when it is infeasible; reset `hit[k]`. -/
def fallbackState (k : Nat) (s : PState) : PState :=
  let coord := s.Q_from.getD k (0, 0)
  let ori := s.orientations.getD k 0
  let inh := s.inherited_ops.getD k []
  let p :=
    match _compute_cell_path s.grid coord ori inh with
    | some r => r.1
    | none => List.replicate (s.op_len + 1) coord
  { s with agent_ops := s.agent_ops.set k inh,
           agent_paths := s.agent_paths.set k p,
           hit := s.hit.set k 0 }

/-- Lines 314-333 of `pibt.py` (`_epibt_select`): save agent `l`'s state,
tentatively unreserve `l` and adopt/reserve `k`'s candidate, recurse on
`l`; on failure, roll the tentative changes back. `selectRec` is the
recursive call (a fuel-smaller instance of `selectF`); `none` propagates
fuel exhaustion. -/
def attemptPush (selectRec : Nat → Rat → PState → Option (Bool × PState))
    (k l : Nat) (p : Rat) (op : Operation) (cp : List Coord) (s : PState) :
    Option (Bool × PState) :=
  let old_op := s.agent_ops.getD l []
  let old_path := s.agent_paths.getD l []
  let s1 := _unreserve_path l old_path s
  let s2 := _reserve_path k cp
    { s1 with agent_ops := s1.agent_ops.set k op, agent_paths := s1.agent_paths.set k cp }
  match selectRec l p s2 with
  | none => none
  | some (true, s3) => some (true, s3)
  | some (false, s3) =>
    let s4 := _unreserve_path k cp s3
    let s5 := _reserve_path l old_path
      { s4 with agent_ops := s4.agent_ops.set l old_op,
                agent_paths := s4.agent_paths.set l old_path }
    some (false, s5)

/-- The candidate loop of `_epibt_select` (lines 287-346): adopt the first
conflict-free candidate, skip multi-conflict ones, try to push the single
conflicting agent when the guards allow, and fall back to the inherited
operation when every candidate fails. -/
def selectLoop (selectRec : Nat → Rat → PState → Option (Bool × PState))
    (k : Nat) (p : Rat) :
    List (Operation × List Coord × Int) → PState → Option (Bool × PState)
  | [], s => some (false, fallbackState k s)
  | (op, cp, _) :: rest, s =>
    let conf := _get_conflicts k cp s
    if conf.length = 0 then
      let s1 := _reserve_path k cp
        { s with agent_ops := s.agent_ops.set k op, agent_paths := s.agent_paths.set k cp }
      some (true, { s1 with hit := s1.hit.set k 0 })
    else if 1 < conf.length then selectLoop selectRec k p rest s
    else
      let l := conf.headD 0
      if s.hit.getD l 0 = 1 ∨ s.max_revisits ≤ s.visit_count.getD l 0 ∨
          p ≤ s.priorities.getD l 0 then
        selectLoop selectRec k p rest s
      else
        match attemptPush selectRec k l p op cp s with
        | none => none
        | some (true, s3) => some (true, { s3 with hit := s3.hit.set k 0 })
        | some (false, s5) => selectLoop selectRec k p rest s5

/-- `PIBT._epibt_select` with explicit fuel: compute the sorted candidates,
bump `visit_count[k]`, set the `hit[k]` re-entry guard and run the
candidate loop; recursive pushes use one unit of fuel. -/
def selectF (oracle : ShuffleOracle) : Nat → Nat → Rat → PState → Option (Bool × PState)
  | 0, _, _, _ => none
  | fuel + 1, k, p, s =>
    let coord := s.Q_from.getD k (0, 0)
    let ori := s.orientations.getD k 0
    let r := _get_sorted_candidates oracle k coord ori s
    let s2 := { r.2 with visit_count := r.2.visit_count.set k (r.2.visit_count.getD k 0 + 1),
                         hit := r.2.hit.set k 1 }
    selectLoop (fun l q s' => selectF oracle fuel l q s') k p r.1 s2

/-- Fuel measure for `_epibt_select`: total remaining revisit budget. Each
recursive push strictly decreases it, which bounds the recursion depth. -/
def muSel (s : PState) : Nat :=
  ((List.range s.N).map (fun i => s.max_revisits - s.visit_count.getD i 0)).sum

/-- `PIBT._epibt_select`: the fuel bound `muSel s + 1` is proved sufficient
(`selectF_total`), so this equals the source's unbounded recursion. -/
def _epibt_select (oracle : ShuffleOracle) (k : Nat) (p : Rat) (s : PState) :
    Bool × PState :=
  (selectF oracle (muSel s + 1) k p s).getD (false, s)

/-- The per-agent body of the setup loop of `PIBT.step` (lines 378-388):
evaluate the inherited operation (stay-in-place with an all-wait op when
infeasible) and reserve the provisional path. -/
def stepSetupBody (Q_from : List Coord) (st : PState) (i : Nat) : PState :=
  let coord := Q_from.getD i (0, 0)
  let st1 :=
    match _compute_cell_path st.grid coord (st.orientations.getD i 0)
        (st.inherited_ops.getD i []) with
    | some r => { st with agent_paths := st.agent_paths.set i r.1 }
    | none =>
      { st with agent_paths := st.agent_paths.set i (List.replicate (st.op_len + 1) coord),
                agent_ops := st.agent_ops.set i (List.replicate st.op_len Action.W) }
  _reserve_path i (st1.agent_paths.getD i []) st1

/-- Lines 368-388 of `PIBT.step`: store `Q_from` and the priorities, reset
the per-step slots, clear the reservation table, and reserve every agent's
inherited cell path (stay-in-place when the inherited op is infeasible). -/
def stepSetup (s : PState) (Q_from : List Coord) (priorities : List Rat) : PState :=
  (List.range s.N).foldl (stepSetupBody Q_from)
    { s with Q_from := Q_from, priorities := priorities,
             visit_count := List.replicate s.N 0,
             hit := List.replicate s.N 0,
             agent_ops := s.inherited_ops,
             agent_paths := List.replicate s.N [],
             reserved := fun _ _ => s.N }

/-- The per-agent body of the main loop of `PIBT.step` (lines 394-403). -/
def stepMainBody (oracle : ShuffleOracle) (st : PState) (k : Nat) : PState :=
  if st.visit_count.getD k 0 ≠ 0 then st
  else
    let st1 := _unreserve_path k (st.agent_paths.getD k []) st
    let r := _epibt_select oracle k (st1.priorities.getD k 0) st1
    if r.1 then r.2
    else _reserve_path k (r.2.agent_paths.getD k []) r.2

/-- Lines 391-403 of `PIBT.step`: process the agents in stable descending
priority order; each not-yet-visited agent is unreserved and re-selected,
re-reserving the fallback path when selection fails. -/
def stepMain (oracle : ShuffleOracle) (s : PState) : PState :=
  (sortDescByPrio (fun i => s.priorities.getD i 0) (List.range s.N)).foldl
    (stepMainBody oracle) s

/-- The per-agent body of the emission loop of `PIBT.step` (lines 408-429),
accumulating `Q_to`, the new orientations and the next inherited ops. -/
def stepEmitBody (s : PState) (acc : List Coord × List Int × List Operation) (i : Nat) :
    List Coord × List Int × List Operation :=
  let op := s.agent_ops.getD i []
  let pos := s.Q_from.getD i (0, 0)
  let ori := s.orientations.getD i 0
  let moved :=
    match op.head? with
    | some Action.F =>
      let d := DIRECTION_VECTORS ori
      let new_pos : Coord := (pos.1 + d.1, pos.2 + d.2)
      if is_valid_coord s.grid new_pos then (new_pos, ori) else (pos, ori)
    | some Action.R => (pos, (ori + 1) % 4)
    | some Action.C => (pos, (ori - 1) % 4)
    | _ => (pos, ori)
  (acc.1 ++ [moved.1], acc.2.1 ++ [moved.2], acc.2.2 ++ [op.tail ++ [Action.W]])

/-- Lines 405-432 of `PIBT.step`: execute the first action of each agent's
committed operation, producing `Q_to`, the new orientations and the
inherited operations for the next step (`op[1:] + (W,)`). -/
def stepEmit (s : PState) : List Coord × PState :=
  let r := (List.range s.N).foldl (stepEmitBody s) ([], [], [])
  (r.1, { s with orientations := r.2.1, inherited_ops := r.2.2 })

/-- `PIBT.step`: one EPIBT timestep. -/
def step (oracle : ShuffleOracle) (s : PState) (Q_from : List Coord)
    (priorities : List Rat) : List Coord × PState :=
  stepEmit (stepMain oracle (stepSetup s Q_from priorities))

/-- Lines 436-439 of `PIBT.run`: the initial priorities, `d / grid.size`
for the BFS distance `d` from start to goal, `0.0` when unreachable;
the lazy oracle states advance as a side effect of the queries. -/
def runInitPriorities (s : PState) : List Rat × PState :=
  let r := (List.range s.N).foldl
    (fun (acc : List Rat × PState) i =>
      let dt := acc.2.dist_tables.getD i (mkDistTable acc.2.grid (0, 0))
      let q := dt.get (acc.2.starts.getD i (0, 0))
      (acc.1 ++ [if q.1 ≠ UNREACHED then (q.1 : Rat) / (acc.2.grid.size : Rat) else 0],
       { acc.2 with dist_tables := acc.2.dist_tables.set i q.2 }))
    ([], s)
  r

/-- The initial priority of agent `i` as computed by lines 436-439 of
`PIBT.run` against the untouched oracle states: `d / grid.size` for the BFS
distance `d` from start to goal, `0.0` when unreachable. -/
def initPrio (s : PState) (i : Nat) : Rat :=
  let q := (s.dist_tables.getD i (mkDistTable s.grid (0, 0))).get
    (s.starts.getD i (0, 0))
  if q.1 ≠ UNREACHED then (q.1 : Rat) / (s.grid.size : Rat) else 0

/-- Lines 446-452 of `PIBT.run`: the per-iteration priority update and
all-done check — an agent away from its goal gains 1 priority, an agent at
its goal keeps only the fractional part (`p -= floor(p)`). -/
def runPrioBody (Q goals : List Coord) (acc : List Rat × Bool) (i : Nat) :
    List Rat × Bool :=
  if Q.getD i (0, 0) ≠ goals.getD i (0, 0) then
    (acc.1.set i (acc.1.getD i 0 + 1), false)
  else
    (acc.1.set i (acc.1.getD i 0 - (⌊acc.1.getD i 0⌋ : Rat)), acc.2)

def runPriorityUpdate (Q goals : List Coord) (priorities : List Rat) (N : Nat) :
    List Rat × Bool :=
  (List.range N).foldl (runPrioBody Q goals) (priorities, true)

/-- The `while len(configs) <= max_timestep` loop of `PIBT.run`; the fuel
is the remaining number of allowed iterations (one config is appended per
iteration, so `max_timestep` iterations occur at most). -/
def runLoop (oracle : ShuffleOracle) :
    Nat → PState → List Rat → List (List Coord) → List (List Coord) × PState
  | 0, s, _, configs => (configs, s)
  | fuel + 1, s, priorities, configs =>
    let r := step oracle s (configs.getLastD []) priorities
    let configs' := configs ++ [r.1]
    let u := runPriorityUpdate r.1 r.2.goals priorities r.2.N
    if u.2 then (configs', r.2)
    else runLoop oracle fuel r.2 u.1 configs'

/-- `PIBT.run`: one-shot MAPF until all agents reach their goals or the
timestep bound. -/
def run (oracle : ShuffleOracle) (s : PState) (max_timestep : Nat) :
    List (List Coord) × PState :=
  let r := runInitPriorities s
  runLoop oracle max_timestep r.2 r.1 [r.2.starts]

/-- `PIBT.__init__`: `orientDraw` abstracts the seeded
`rng.integers(4)` stream (each draw lands in `0..3`). No validation is
performed — in particular no starts/goals length check exists. -/
def mkPIBT (g : Grid) (starts goals : List Coord) (op_len max_revisits : Nat)
    (orientDraw : Nat → Nat) : PState :=
  let N := starts.length
  { grid := g
    starts := starts
    goals := goals
    N := N
    op_len := op_len
    max_revisits := max_revisits
    dist_tables := goals.map (mkDistTable g)
    orientations := (List.range N).map (fun i => ((orientDraw i % 4 : Nat) : Int))
    inherited_ops := List.replicate N (List.replicate op_len Action.W)
    reserved := fun _ _ => N
    all_operations := _generate_operations op_len
    visit_count := []
    hit := []
    agent_ops := []
    agent_paths := []
    Q_from := []
    priorities := []
    rngCount := 0 }

/-- `PIBT.update_goal`: replace one agent's goal and distance oracle. -/
def update_goal (s : PState) (aid : Nat) (new_goal : Coord) : PState :=
  { s with goals := s.goals.set aid new_goal,
           dist_tables := s.dist_tables.set aid (mkDistTable s.grid new_goal) }

/-- `simulation.AgentState`. -/
inductive AgentState
  | IDLE
  | MOVING_TO_PICKUP
  | MOVING_TO_DELIVERY
deriving DecidableEq, Repr

/-- `simulation.Task`. -/
structure Task where
  task_id : Nat
  pickup : Coord
  delivery : Coord
  created_at : Nat
  assigned_to : Option Nat := none
  picked_up_at : Option Nat := none
  delivered_at : Option Nat := none
deriving DecidableEq, Repr

/-- `simulation.AgentInfo`. -/
structure AgentInfo where
  agent_id : Nat
  state : AgentState := AgentState.IDLE
  current_task : Option Task := none
deriving DecidableEq, Repr

/-- `simulation.MAPDSimulation` state. Python's `Task` objects are shared
by reference between an agent and the active list; here they are stored by
value, with timestamp updates applied to the copy every later read
observes (the agent's copy, which is what reaches `completed_tasks`), and
the active list tracked by the unique `task_id`. -/
structure MAPDState where
  grid : Grid
  pickup_locations : List Coord
  delivery_locations : List Coord
  pibt : PState
  agents : List AgentInfo
  priorities : List Rat
  task_counter : Nat
  pending_tasks : List Task
  active_tasks : List Task
  completed_tasks : List Task
  pickup_dist_tables : List (Coord × DistTable)
  current_config : List Coord
  timestep : Nat
  rngCount : Nat

/-- The row-major list of walkable cells, as
`[(y, x) for y, x in zip(*np.where(grid))]`. -/
def walkableCells (g : Grid) : List Coord :=
  (List.range g.H).flatMap (fun y =>
    (List.range g.W).filterMap (fun x =>
      if g.free y x then some ((y : Int), (x : Int)) else none))

/-- Walkable cells that are not pickup or delivery stations (the
`available` list of `MAPDSimulation.__init__`). -/
def availableCells (g : Grid) (pickups deliveries : List Coord) : List Coord :=
  (walkableCells g).filter (fun c => c ∉ pickups ++ deliveries)

/-- `MAPDSimulation.__init__`. `choiceDraw` abstracts the seeded
`rng.choice` index draws; numpy raises exactly when the requested sample
is larger than the population, the only failure path of the constructor
(station cells are never validated). The nested `PIBT` uses the source's
defaults `op_len = 3`, `max_revisits = 10`. -/
def mkMAPD (g : Grid) (num_agents : Nat) (pickups deliveries : List Coord)
    (choiceDraw orientDraw : Nat → Nat) : Except String MAPDState :=
  let available := availableCells g pickups deliveries
  if available.length < num_agents then
    Except.error "cannot take a larger sample than population when replace is False"
  else
    let starts := (List.range num_agents).map
      (fun i => available.getD (choiceDraw i % available.length) (0, 0))
    Except.ok
      { grid := g
        pickup_locations := pickups
        delivery_locations := deliveries
        pibt := mkPIBT g starts starts 3 10 orientDraw
        agents := (List.range num_agents).map (fun i => { agent_id := i })
        priorities := List.replicate num_agents 0
        task_counter := 0
        pending_tasks := []
        active_tasks := []
        completed_tasks := []
        pickup_dist_tables := pickups.foldl
          (fun acc loc =>
            if acc.any (fun e => e.1 = loc) then acc else acc ++ [(loc, mkDistTable g loc)])
          []
        current_config := starts
        timestep := 0
        rngCount := 0 }

/-- `MAPDSimulation._generate_tasks`: `poissonDraw` abstracts the
`rng.poisson(task_frequency)` stream and `intDraw` the `rng.integers`
stream, both consuming the draw counter. -/
def genBody (intDraw : Nat → Nat) (st : MAPDState) (_ : Nat) : MAPDState :=
  let pIdx := intDraw st.rngCount
  let st1 := { st with rngCount := st.rngCount + 1 }
  let dIdx := intDraw st1.rngCount
  let st2 := { st1 with rngCount := st1.rngCount + 1 }
  let task : Task :=
    { task_id := st2.task_counter
      pickup := st2.pickup_locations.getD (pIdx % st2.pickup_locations.length) (0, 0)
      delivery := st2.delivery_locations.getD (dIdx % st2.delivery_locations.length) (0, 0)
      created_at := st2.timestep }
  { st2 with task_counter := st2.task_counter + 1,
             pending_tasks := st2.pending_tasks ++ [task] }

def _generate_tasks (poissonDraw intDraw : Nat → Nat) (s : MAPDState) : MAPDState :=
  let num_new := poissonDraw s.rngCount
  let s0 := { s with rngCount := s.rngCount + 1 }
  (List.range num_new).foldl (genBody intDraw) s0

/-- `MAPDSimulation._check_arrivals`: pickup arrivals switch to delivery
and retarget the planner; delivery arrivals complete the task, idle the
agent and park its goal at the current position. -/
def arrivalsBody (st : MAPDState) (i : Nat) : MAPDState :=
  match (st.agents.getD i { agent_id := i }).current_task with
  | none => st
  | some task =>
    if (st.agents.getD i { agent_id := i }).state = AgentState.MOVING_TO_PICKUP ∧
        st.current_config.getD (st.agents.getD i { agent_id := i }).agent_id (0, 0) =
          task.pickup then
      { st with
        agents := st.agents.set i
          { st.agents.getD i { agent_id := i } with
            state := AgentState.MOVING_TO_DELIVERY,
            current_task := some { task with picked_up_at := some st.timestep } },
        pibt := update_goal st.pibt (st.agents.getD i { agent_id := i }).agent_id
          task.delivery }
    else if (st.agents.getD i { agent_id := i }).state = AgentState.MOVING_TO_DELIVERY ∧
        st.current_config.getD (st.agents.getD i { agent_id := i }).agent_id (0, 0) =
          task.delivery then
      { st with
        agents := st.agents.set i
          { st.agents.getD i { agent_id := i } with
            state := AgentState.IDLE, current_task := none },
        active_tasks := st.active_tasks.filter (fun t => t.task_id ≠ task.task_id),
        completed_tasks := st.completed_tasks ++ [{ task with delivered_at := some st.timestep }],
        pibt := update_goal st.pibt (st.agents.getD i { agent_id := i }).agent_id
          (st.current_config.getD (st.agents.getD i { agent_id := i }).agent_id (0, 0)) }
    else st

def _check_arrivals (s : MAPDState) : MAPDState :=
  (List.range s.agents.length).foldl arrivalsBody s

/-- The `min(idle_agents, key=...)` of `_assign_tasks`: evaluate the BFS
distance key once per idle agent in order (threading the lazy oracle
state) and keep the first minimiser, as Python's `min` does. -/
def minByDist (cfg : List Coord) : List Nat → DistTable → Option (Nat × Nat) × DistTable
  | [], dt => (none, dt)
  | a :: rest, dt =>
    match (minByDist cfg rest ((dt.get (cfg.getD a (0, 0))).2)).1 with
    | none => (some (a, (dt.get (cfg.getD a (0, 0))).1),
        (minByDist cfg rest ((dt.get (cfg.getD a (0, 0))).2)).2)
    | some b =>
      if b.2 < (dt.get (cfg.getD a (0, 0))).1 then
        (some b, (minByDist cfg rest ((dt.get (cfg.getD a (0, 0))).2)).2)
      else (some (a, (dt.get (cfg.getD a (0, 0))).1),
        (minByDist cfg rest ((dt.get (cfg.getD a (0, 0))).2)).2)

/-- Association lookup in the pickup-keyed oracle cache. -/
def lookupDT (tabs : List (Coord × DistTable)) (c : Coord) (dflt : DistTable) : DistTable :=
  match tabs.find? (fun e => e.1 = c) with
  | some e => e.2
  | none => dflt

/-- Write back an updated oracle under its pickup key. -/
def storeDT (tabs : List (Coord × DistTable)) (c : Coord) (dt : DistTable) :
    List (Coord × DistTable) :=
  tabs.map (fun e => if e.1 = c then (e.1, dt) else e)

/-- The `pdt` oracle of one `assignGo` iteration. -/
def assignPdt (st : MAPDState) (task : Task) : DistTable :=
  lookupDT st.pickup_dist_tables task.pickup (mkDistTable st.grid (0, 0))

/-- The `min` scan of one `assignGo` iteration. -/
def assignM (st : MAPDState) (idle : List Nat) (task : Task) :
    Option (Nat × Nat) × DistTable :=
  minByDist st.current_config idle (assignPdt st task)

/-- State after writing back the scanned oracle. -/
def assignSt1 (st : MAPDState) (idle : List Nat) (task : Task) : MAPDState :=
  { st with pickup_dist_tables :=
      storeDT st.pickup_dist_tables task.pickup (assignM st idle task).2 }

/-- The re-query of the winning agent's distance. -/
def assignQ (st : MAPDState) (idle : List Nat) (task : Task) (best : Nat × Nat) :
    Nat × DistTable :=
  (assignM st idle task).2.get
    ((assignSt1 st idle task).current_config.getD best.1 (0, 0))

/-- State after writing back the re-queried oracle. -/
def assignSt2 (st : MAPDState) (idle : List Nat) (task : Task) (best : Nat × Nat) :
    MAPDState :=
  { assignSt1 st idle task with pickup_dist_tables := storeDT (assignSt1 st idle task).pickup_dist_tables task.pickup (assignQ st idle task best).2 }

/-- State after assigning the task to the winning agent. -/
def assignSt3 (st : MAPDState) (idle : List Nat) (task : Task) (best : Nat × Nat) :
    MAPDState :=
  { assignSt2 st idle task best with
    agents := (assignSt2 st idle task best).agents.map (fun a =>
      if a.agent_id = best.1 then
        { a with state := AgentState.MOVING_TO_PICKUP,
                 current_task := some { task with assigned_to := some best.1 } }
      else a),
    active_tasks := (assignSt2 st idle task best).active_tasks ++ [{ task with assigned_to := some best.1 }],
    pibt := update_goal (assignSt2 st idle task best).pibt best.1 task.pickup }

/-- The task loop of `_assign_tasks`, walking the pending tasks in FIFO
order with the current idle-agent id list, accumulating assigned task ids. -/
def assignGo : List Task → List Nat → MAPDState → List Nat → MAPDState × List Nat
  | [], _, st, acc => (st, acc)
  | task :: rest, idle, st, acc =>
    if idle.isEmpty then (st, acc)
    else
      match (assignM st idle task).1 with
      | none => (assignSt1 st idle task, acc)
      | some best =>
        if (assignQ st idle task best).1 = UNREACHED then
          assignGo rest idle (assignSt2 st idle task best) acc
        else
          assignGo rest (idle.filter (fun a => a ≠ best.1))
            (assignSt3 st idle task best) (acc ++ [task.task_id])

/-- `MAPDSimulation._assign_tasks`: greedy BFS-distance assignment of
pending tasks to idle agents; assigned tasks leave the pending queue. -/
def _assign_tasks (s : MAPDState) : MAPDState :=
  let idle := (s.agents.filter (fun a => a.state = AgentState.IDLE)).map (fun a => a.agent_id)
  let r := assignGo s.pending_tasks idle s []
  { r.1 with pending_tasks := r.1.pending_tasks.filter (fun t => t.task_id ∉ r.2) }

/-- Lines 186-191 of `MAPDSimulation.tick`: the priority aging rule —
agents away from their planner goal gain 1, agents at their goal keep the
fractional part. -/
def tickPrioBody (cfg goals : List Coord) (pr : List Rat) (i : Nat) : List Rat :=
  if cfg.getD i (0, 0) ≠ goals.getD i (0, 0) then
    pr.set i (pr.getD i 0 + 1)
  else
    pr.set i (pr.getD i 0 - (⌊pr.getD i 0⌋ : Rat))

def tickPriorities (cfg goals : List Coord) (priorities : List Rat) (n : Nat) : List Rat :=
  (List.range n).foldl (tickPrioBody cfg goals) priorities

/-- `MAPDSimulation.tick`. -/
def tick (poissonDraw intDraw : Nat → Nat) (oracle : ShuffleOracle) (s : MAPDState) :
    List Coord × MAPDState :=
  let s1 := { s with timestep := s.timestep + 1 }
  let s2 := _generate_tasks poissonDraw intDraw s1
  let s3 := _check_arrivals s2
  let s4 := _assign_tasks s3
  let pr := tickPriorities s4.current_config s4.pibt.goals s4.priorities s4.agents.length
  let s5 := { s4 with priorities := pr }
  let r := step oracle s5.pibt s5.current_config s5.priorities
  (r.1, { s5 with pibt := r.2, current_config := r.1 })

/-- Iterated ticks (the reachable states of the simulation). -/
def tickN (poissonDraw intDraw : Nat → Nat) (oracle : ShuffleOracle) :
    Nat → MAPDState → MAPDState
  | 0, s => s
  | n + 1, s => tickN poissonDraw intDraw oracle n (tick poissonDraw intDraw oracle s).2

/-! ### Specification vocabulary -/

/-- Two equal-horizon cell paths are compatible: no vertex conflict (same
cell at the same subtime) and no edge swap between consecutive subtimes. -/
def Compat (p q : List Coord) : Prop :=
  (∀ t, t < p.length → t < q.length → p.getD t (0, 0) ≠ q.getD t (0, 0)) ∧
  (∀ t, t < p.length → 0 < t → t < q.length →
    ¬(p.getD t (0, 0) = q.getD (t - 1) (0, 0) ∧ p.getD (t - 1) (0, 0) = q.getD t (0, 0)))

instance (p q : List Coord) : Decidable (Compat p q) := by
  unfold Compat
  exact instDecidableAnd

/-- There is a 4-connected path of exactly `n` steps from `c` to `goal`
through traversable cells. -/
def reachIn (g : Grid) (goal : Coord) : Nat → Coord → Prop
  | 0, c => c = goal
  | n + 1, c => ∃ v ∈ get_neighbors g c, reachIn g goal n v

instance reachInDec (g : Grid) (goal : Coord) :
    (n : Nat) → (c : Coord) → Decidable (reachIn g goal n c)
  | 0, c => by unfold reachIn; exact inferInstanceAs (Decidable (c = goal))
  | n + 1, c => by
    unfold reachIn
    have : DecidablePred (reachIn g goal n) := reachInDec g goal n
    exact List.decidableBEx _ _

/-- `d` is the exact shortest 4-connected path length from `c` to `goal`
through traversable cells. -/
def IsShortestFrom (g : Grid) (goal : Coord) (c : Coord) (d : Nat) : Prop :=
  reachIn g goal d c ∧ ∀ m, reachIn g goal m c → d ≤ m

/-- In-bounds (ignoring traversability). -/
def inB (g : Grid) (c : Coord) : Prop :=
  0 ≤ c.1 ∧ c.1 < (g.H : Int) ∧ 0 ≤ c.2 ∧ c.2 < (g.W : Int)

instance (g : Grid) (c : Coord) : Decidable (inB g c) := by
  unfold inB; exact instDecidableAnd

/-- All in-bounds coordinates, row-major. -/
def gridCoords (g : Grid) : List Coord :=
  (List.range g.H).flatMap (fun y => (List.range g.W).map
    (fun x => (Int.ofNat y, Int.ofNat x) ))

/-- Number of in-bounds cells whose distance has been recorded. -/
def countWritten (g : Grid) (table : Coord → Nat) : Nat :=
  (gridCoords g).countP (fun c => table c ≠ UNREACHED)

/-- Invariant of the lazy-BFS oracle state, satisfied on construction and
preserved by every `get`: recorded entries are exact shortest distances,
the goal is pinned at 0, processed cells have fully relaxed neighborhoods,
the queue is sorted within a band of two BFS layers, and recorded
in-bounds values stay below the number of recorded cells (hence below the
`UNREACHED` sentinel as long as the grid fits an `int32`). -/
def DTInv (dt : DistTable) : Prop :=
  dt.grid.H * dt.grid.W < UNREACHED ∧
  is_valid_coord dt.grid dt.goal = true ∧
  dt.table dt.goal = 0 ∧
  (∀ c, dt.table c ≠ UNREACHED → IsShortestFrom dt.grid dt.goal c (dt.table c)) ∧
  (∀ c, dt.table c ≠ UNREACHED → is_valid_coord dt.grid c = true) ∧
  (∀ u ∈ dt.queue, dt.table u ≠ UNREACHED) ∧
  (∀ c, dt.table c ≠ UNREACHED → c ∉ dt.queue →
    ∀ v ∈ get_neighbors dt.grid c, dt.table v ≠ UNREACHED) ∧
  dt.queue.Pairwise (fun a b => dt.table a ≤ dt.table b) ∧
  (∀ a ∈ dt.queue, ∀ b ∈ dt.queue, dt.table a ≤ dt.table b + 1) ∧
  (∀ c, dt.table c ≠ UNREACHED → dt.table c < countWritten dt.grid dt.table) ∧
  dt.queue.Nodup

/-- Committed path of an agent. -/
def pathOf (s : PState) (j : Nat) : List Coord := s.agent_paths.getD j []

/-- Committed operation of an agent. -/
def opOf (s : PState) (j : Nat) : Operation := s.agent_ops.getD j []

/-- Every reservation names a live, non-active agent whose committed path
indeed visits that cell at that subtime. -/
def OwnOKA (s : PState) (A : Nat → Prop) : Prop :=
  ∀ t c, s.reserved t c ≠ s.N →
    s.reserved t c < s.N ∧ ¬ A (s.reserved t c) ∧
    t < (pathOf s (s.reserved t c)).length ∧
    (pathOf s (s.reserved t c)).getD t (0, 0) = c

/-- Agent `j`'s committed path is fully reserved. -/
def FRagent (s : PState) (j : Nat) : Prop :=
  ∀ t, t < (pathOf s j).length → s.reserved t ((pathOf s j).getD t (0, 0)) = j

/-- No cell of the table is owned by `k`. -/
def NotOwner (s : PState) (k : Nat) : Prop := ∀ t c, s.reserved t c ≠ k

/-- Agent `j`'s committed operation evaluates to exactly its committed
cell path from its current cell and orientation. -/
def ConsistentSlot (s : PState) (j : Nat) : Prop :=
  (_compute_cell_path s.grid (s.Q_from.getD j (0, 0)) (s.orientations.getD j 0)
      (opOf s j)).map (fun r => r.1) = some (pathOf s j)

instance (s : PState) (j : Nat) : Decidable (ConsistentSlot s j) := by
  unfold ConsistentSlot; infer_instance

/-- The mid-selection reservation-table invariant, with the agents in `A`
currently active (unreserved): reservations are faithful, every non-active
agent is fully reserved, the non-active committed paths are pairwise
compatible, and each non-active slot holds a consistent (op, path) pair of
horizon `op_len`. -/
def CleanExc (s : PState) (A : Nat → Prop) : Prop :=
  OwnOKA s A ∧
  (∀ j, j < s.N → ¬ A j → FRagent s j) ∧
  (∀ i j, i < s.N → j < s.N → ¬ A i → ¬ A j → i ≠ j →
    Compat (pathOf s i) (pathOf s j)) ∧
  (∀ j, j < s.N → ¬ A j → ConsistentSlot s j ∧ (opOf s j).length = s.op_len)

/-- The per-step slot lists have the right length. -/
def GoodLens (s : PState) : Prop :=
  s.agent_ops.length = s.N ∧ s.agent_paths.length = s.N ∧
  s.visit_count.length = s.N ∧ s.hit.length = s.N

instance (s : PState) : Decidable (GoodLens s) := by
  unfold GoodLens; infer_instance

/-- Construction-time data the selection relies on: the catalog is the
pruned catalog for the configured horizon, and every inherited operation
has that horizon and is feasible from the agent's current pose. -/
def StaticOK (s : PState) : Prop :=
  s.all_operations = _generate_operations s.op_len ∧
  (∀ j, j < s.N → (s.inherited_ops.getD j []).length = s.op_len) ∧
  (∀ j, j < s.N →
    (_compute_cell_path s.grid (s.Q_from.getD j (0, 0)) (s.orientations.getD j 0)
      (s.inherited_ops.getD j [])).isSome = true)

instance (s : PState) : Decidable (StaticOK s) := by
  unfold StaticOK; infer_instance

/-- The abstracted shuffle returns only elements of its input (true of any
permutation, in particular of `numpy`'s `rng.shuffle`). -/
def OracleSub (oracle : ShuffleOracle) : Prop :=
  ∀ n l c, c ∈ oracle n l → c ∈ l

/-- The job-state invariant of the dispatcher (with the bookkeeping that
carries it: one agent record per index, and planner goal list in step with
the fleet): IDLE iff no current task; moving to pickup means the planner
goal is the task's pickup; moving to delivery means it is the delivery. -/
def SimInvOn (agents : List AgentInfo) (goals : List Coord) (N : Nat) : Prop :=
  agents.length = N ∧ goals.length = N ∧
  (∀ i, i < agents.length → (agents.getD i { agent_id := i }).agent_id = i) ∧
  (∀ i, i < agents.length →
    ((agents.getD i { agent_id := i }).state = AgentState.IDLE ↔
      (agents.getD i { agent_id := i }).current_task = none) ∧
    (∀ tk, (agents.getD i { agent_id := i }).current_task = some tk →
      ((agents.getD i { agent_id := i }).state = AgentState.MOVING_TO_PICKUP →
        goals.getD i (0, 0) = tk.pickup) ∧
      ((agents.getD i { agent_id := i }).state = AgentState.MOVING_TO_DELIVERY →
        goals.getD i (0, 0) = tk.delivery)))

def SimInv (s : MAPDState) : Prop :=
  SimInvOn s.agents s.pibt.goals s.pibt.N

/-- An action is a rotation. -/
def isRot (a : Action) : Bool := a = Action.R ∨ a = Action.C

/-- The construction-time fields of the planner state, which the selection
phase never modifies. -/
def SameCore (s s' : PState) : Prop :=
  s'.grid = s.grid ∧ s'.starts = s.starts ∧ s'.goals = s.goals ∧ s'.N = s.N ∧
  s'.op_len = s.op_len ∧ s'.max_revisits = s.max_revisits ∧
  s'.orientations = s.orientations ∧ s'.inherited_ops = s.inherited_ops ∧
  s'.all_operations = s.all_operations ∧ s'.Q_from = s.Q_from ∧
  s'.priorities = s.priorities

/-- Frame relation of the selection recursion: the construction-time core
is untouched, slot lists keep their lengths, visit counts only grow, and
an in-range agent whose visit count did not change kept its committed
operation and path. -/
def FrameRel (s s' : PState) : Prop :=
  SameCore s s' ∧
  s'.agent_ops.length = s.agent_ops.length ∧
  s'.agent_paths.length = s.agent_paths.length ∧
  s'.visit_count.length = s.visit_count.length ∧
  s'.hit.length = s.hit.length ∧
  (∀ j, s.visit_count.getD j 0 ≤ s'.visit_count.getD j 0) ∧
  (∀ j, j < s.visit_count.length →
    s'.visit_count.getD j 0 = s.visit_count.getD j 0 →
    s'.agent_ops.getD j [] = s.agent_ops.getD j [] ∧
    s'.agent_paths.getD j [] = s.agent_paths.getD j [])

/-- Frame relation of the candidate loop, which may freely rewrite the
slots of the agent `k` being selected (its tentative candidate is not
rolled back) but otherwise behaves like `FrameRel`. -/
def FrameRelExc (k : Nat) (s s' : PState) : Prop :=
  SameCore s s' ∧
  s'.agent_ops.length = s.agent_ops.length ∧
  s'.agent_paths.length = s.agent_paths.length ∧
  s'.visit_count.length = s.visit_count.length ∧
  s'.hit.length = s.hit.length ∧
  (∀ j, s.visit_count.getD j 0 ≤ s'.visit_count.getD j 0) ∧
  (∀ j, j ≠ k → j < s.visit_count.length →
    s'.visit_count.getD j 0 = s.visit_count.getD j 0 →
    s'.agent_ops.getD j [] = s.agent_ops.getD j [] ∧
    s'.agent_paths.getD j [] = s.agent_paths.getD j [])

/-- The cell an agent ends up on after the emission phase of `step`
executes the first action of its committed operation. -/
def emitPos (s : PState) (i : Nat) : Coord :=
  let op := s.agent_ops.getD i []
  let pos := s.Q_from.getD i (0, 0)
  let ori := s.orientations.getD i 0
  match op.head? with
  | some Action.F =>
    let d := DIRECTION_VECTORS ori
    let np : Coord := (pos.1 + d.1, pos.2 + d.2)
    if is_valid_coord s.grid np then np else pos
  | _ => pos

/-- Minimum number of quarter-turn actions realizing a net rotation
(taken mod 4): `min (r mod 4) (4 - r mod 4)`. -/
def minQuarterTurns (r : Int) : Nat :=
  min (r % 4).toNat (4 - (r % 4).toNat)

/-! ### Concrete instances used by counterexamples and witnesses -/

/-- The identity shuffle: a legitimate instantiation of the abstract
seeded shuffle (it returns a permutation of its input). -/
def idShuffle : ShuffleOracle := fun _ l => l

/-- 1×4 corridor with an obstacle on its last cell. -/
def gA : Grid := { H := 1, W := 4, free := fun _ x => x ≠ 3 }

/-- Planner on `gA` whose two agents face each other with inherited
forward operations (a state `PIBT.step` accepts: inherited operations are
carried across steps and `step` takes `Q_from` as an argument). Both
goals sit on the obstacle, so every candidate terminal is unreachable. -/
def sA : PState :=
  { mkPIBT gA [(0, 0), (0, 2)] [(0, 3), (0, 3)] 1 10 (fun i => if i = 0 then 1 else 3) with
    inherited_ops := [[Action.F], [Action.F]] }

/-- 1×3 corridor with an obstacle on its last cell. -/
def gB : Grid := { H := 1, W := 3, free := fun _ x => x ≠ 2 }

/-- Planner on `gB` where agent 0's inherited `[F, F]` is infeasible (the
second forward move hits the obstacle) but its first forward move is
valid, and agent 1 idles on the intermediate cell. -/
def sB : PState :=
  { mkPIBT gB [(0, 0), (0, 1)] [(0, 2), (0, 2)] 2 10 (fun _ => 1) with
    inherited_ops := [[Action.F, Action.F], [Action.W, Action.W]] }

/-- 1×2 corridor, fully free. -/
def gC : Grid := { H := 1, W := 2, free := fun _ _ => true }

/-- Fresh planner on `gC`: two agents that want to swap. -/
def sC : PState := mkPIBT gC [(0, 0), (0, 1)] [(0, 1), (0, 0)] 1 10 (fun _ => 1)

/-- A mid-selection state on `gC`: agent 0 (at `(0,0)`, facing E, already
visited and marked `hit`, unreserved) is about to push agent 1, which
idles fully-reserved on `(0,1)` with goal `(0,1)`. -/
def sC2 : PState :=
  { grid := gC
    starts := [(0, 0), (0, 1)]
    goals := [(0, 1), (0, 1)]
    N := 2
    op_len := 1
    max_revisits := 10
    dist_tables := [mkDistTable gC (0, 1), mkDistTable gC (0, 1)]
    orientations := [1, 1]
    inherited_ops := [[Action.W], [Action.W]]
    reserved := fun t c => if t ≤ 1 ∧ c = (0, 1) then 1 else 2
    all_operations := _generate_operations 1
    visit_count := [1, 0]
    hit := [1, 0]
    agent_ops := [[Action.W], [Action.W]]
    agent_paths := [[(0, 0), (0, 0)], [(0, 1), (0, 1)]]
    Q_from := [(0, 0), (0, 1)]
    priorities := [1, 0]
    rngCount := 1 }

/-- 1×1 grid whose only cell is an obstacle. -/
def gObs : Grid := { H := 1, W := 1, free := fun _ _ => false }

/-- 1×3 free corridor. -/
def gLine3 : Grid := { H := 1, W := 3, free := fun _ _ => true }

/-- 3×1 column whose top cell is an obstacle: its two free cells are the
stations, leaving one walkable non-station cell. -/
def gStation : Grid := { H := 3, W := 1, free := fun y _ => y ≠ 0 }

/-- One-agent planner on a 1×2 corridor (used to instantiate theorems with
hypotheses at a concrete input). -/
def sWit : PState := mkPIBT gC [(0, 0)] [(0, 1)] 1 10 (fun _ => 0)

/-- 2×2 free grid. -/
def gSquare : Grid := { H := 2, W := 2, free := fun _ _ => true }

/-- A fallback simulation state (never reached; `matchMAPD` below selects
the `ok` branch of a successful construction). -/
def mapdJunk : MAPDState :=
  { grid := gSquare
    pickup_locations := []
    delivery_locations := []
    pibt := mkPIBT gSquare [] [] 1 1 (fun _ => 0)
    agents := []
    priorities := []
    task_counter := 0
    pending_tasks := []
    active_tasks := []
    completed_tasks := []
    pickup_dist_tables := []
    current_config := []
    timestep := 0
    rngCount := 0 }

/-- The successfully constructed one-agent simulation on `gSquare` with a
pickup station at `(0,0)` and a delivery station at `(0,1)`. -/
def mapdWit : MAPDState :=
  match mkMAPD gSquare 1 [(0, 0)] [(0, 1)] (fun _ => 0) (fun _ => 0) with
  | Except.ok s => s
  | Except.error _ => mapdJunk

/-- The scan of `_get_conflicts` (from time `t` on, with `prev` the cell
one subtime earlier) reports agent `j`: a vertex hit (`j` holds the cell at
its subtime) or an edge-swap hit (the path moved and `j` holds both swapped
reservations). -/
def scanHit (res : Nat → Coord → Nat) (j : Nat) : Nat → Coord → List Coord → Prop
  | _, _, [] => False
  | t, prev, c :: rest =>
    res t c = j ∨
    (0 < t ∧ c ≠ prev ∧ res (t - 1) c = j ∧ res t prev = j) ∨
    scanHit res j (t + 1) c rest

/-- Agent `j` conflicts with the given cell path in the reservation
table: the positional form of what `_get_conflicts` detects. -/
def ConflictsWith (res : Nat → Coord → Nat) (j : Nat) : List Coord → Prop
  | [] => False
  | c :: rest => res 0 c = j ∨ scanHit res j 1 c rest

/-- The provisional cell path the setup phase of `step` evaluates for an
agent: the inherited operation's path, or stay-in-place when infeasible. -/
def provisional (s : PState) (Q : List Coord) (m : Nat) : List Coord :=
  match _compute_cell_path s.grid (Q.getD m (0, 0)) (s.orientations.getD m 0)
      (s.inherited_ops.getD m []) with
  | some r => r.1
  | none => List.replicate (s.op_len + 1) (Q.getD m (0, 0))

/-- Precondition of `_epibt_select(k, p)`: sound construction data, slot
lists of the right length, a live active agent that owns no reservation,
and a reservation table that is clean except for `k`. -/
def SelPre (k : Nat) (s : PState) : Prop :=
  StaticOK s ∧ GoodLens s ∧ k < s.N ∧ NotOwner s k ∧ CleanExc s (fun j => j = k)

/-- Postcondition of `_epibt_select(k, p)`: on success the table is fully
clean; on failure the reservation table and every slot other than `k`'s
are exactly restored, `k`'s slot holds the inherited fallback with its
recomputed cell path, and the clean-except-`k` state is re-established. -/
def SelPost (k : Nat) (s : PState) (b : Bool) (s' : PState) : Prop :=
  (b = true → CleanExc s' (fun _ => False)) ∧
  (b = false →
    (∀ t c, s'.reserved t c = s.reserved t c) ∧
    (∀ j, j ≠ k → s'.agent_ops.getD j [] = s.agent_ops.getD j [] ∧
      s'.agent_paths.getD j [] = s.agent_paths.getD j []) ∧
    s'.agent_ops.getD k [] = s.inherited_ops.getD k [] ∧
    (_compute_cell_path s.grid (s.Q_from.getD k (0, 0)) (s.orientations.getD k 0)
      (s.inherited_ops.getD k [])).map (fun r => r.1) = some (s'.agent_paths.getD k []) ∧
    NotOwner s' k ∧
    CleanExc s' (fun j => j = k))

/-- Invariant of the main selection loop of `step`: sound static data,
slot lists of the right length, a fully clean reservation table, and every
not-yet-visited agent still holding its inherited operation with its
provisional cell path. -/
def MainInv (st : PState) : Prop :=
  StaticOK st ∧ GoodLens st ∧ CleanExc st (fun _ => False) ∧
  (∀ j, j < st.N → st.visit_count.getD j 0 = 0 →
    st.agent_ops.getD j [] = st.inherited_ops.getD j [] ∧
    (_compute_cell_path st.grid (st.Q_from.getD j (0, 0)) (st.orientations.getD j 0)
      (st.inherited_ops.getD j [])).map (fun r => r.1) = some (st.agent_paths.getD j []))

/-- Mid-setup state of `step`: the first `i` agents have their provisional
paths written and reserved, the rest are untouched, and the reservation
table holds exactly the provisional reservations of the first `i`. -/
def SetupMid (s : PState) (Q : List Coord) (i : Nat) (st : PState) : Prop :=
  st.grid = s.grid ∧ st.N = s.N ∧ st.op_len = s.op_len ∧ st.orientations = s.orientations ∧
  st.inherited_ops = s.inherited_ops ∧ st.all_operations = s.all_operations ∧
  st.Q_from = Q ∧
  st.agent_ops = s.inherited_ops ∧
  st.agent_paths.length = s.N ∧
  st.visit_count = List.replicate s.N 0 ∧
  st.hit = List.replicate s.N 0 ∧
  (∀ j, j < i → st.agent_paths.getD j [] = provisional s Q j) ∧
  (∀ j, i ≤ j → st.agent_paths.getD j [] = []) ∧
  (∀ t c, st.reserved t c ≠ s.N →
    st.reserved t c < i ∧ t < (provisional s Q (st.reserved t c)).length ∧
    (provisional s Q (st.reserved t c)).getD t (0, 0) = c) ∧
  (∀ j, j < i → ∀ t, t < (provisional s Q j).length →
    st.reserved t ((provisional s Q j).getD t (0, 0)) = j)

/-- Two-agent planner on the free 1×3 corridor whose inherited all-wait
operations have pairwise compatible provisional paths. -/
def sD : PState := mkPIBT gLine3 [(0, 0), (0, 2)] [(0, 2), (0, 0)] 1 10 (fun _ => 1)

/-- The planner state after the failed tentative push of agent 1 by agent
0 in `sC2` (the candidate `[F]` with path `[(0,0),(0,1)]`). -/
def sC2post : PState :=
  ((attemptPush (fun a q t => selectF idShuffle 5 a q t) 0 1 1 [Action.F]
      [(0, 0), (0, 1)] sC2).getD (false, sC2)).2

/-! ### Theorems: operation catalog (claim C4) -/

theorem scan_nonrot (prev : Option Action) (rc : Nat) (net : Int) (a : Action)
    (l : List Action) (ha : ¬(a = Action.R ∨ a = Action.C)) :
    _operation_scan_bad prev rc net (a :: l) = _operation_scan_bad (some a) 0 0 l := by
  simp only [_operation_scan_bad, if_neg ha]

theorem scan_rot (prev : Option Action) (rc : Nat) (net : Int) (a : Action)
    (l : List Action) (ha : a = Action.R ∨ a = Action.C) :
    _operation_scan_bad prev rc net (a :: l) = false ↔
      (cancelPair prev a = false ∧
        rc + 1 ≤ min ((net + (if a = Action.R then 1 else -1)).natAbs % 4)
          (4 - (net + (if a = Action.R then 1 else -1)).natAbs % 4) ∧
        _operation_scan_bad (some a) (rc + 1)
          (net + (if a = Action.R then 1 else -1)) l = false) := by
  simp only [_operation_scan_bad, if_pos ha]
  cases hc : cancelPair prev a
  · simp only [Bool.false_eq_true, if_false, hc, true_and]
    set absn := (net + (if a = Action.R then 1 else -1)).natAbs % 4 with habs
    by_cases hgt : rc + 1 > min absn (4 - absn)
    · have hmin : min absn (4 - absn) ≤ 2 := by omega
      have h1 : ¬ (rc + 1 ≤ min absn (4 - absn)) := by omega
      simp only [if_pos hgt, h1, false_and, iff_false]
      by_cases h0 : absn = 0
      · simp [h0]
      · simp [h0, hgt]
    · have h1 : rc + 1 ≤ min absn (4 - absn) := by omega
      simp [hgt, h1]
  · simp [hc]

theorem scan_cons_false (prev : Option Action) (rc : Nat) (net : Int) (a : Action)
    (l : List Action) (h : _operation_scan_bad prev rc net (a :: l) = false) :
    ∃ rc' net', _operation_scan_bad (some a) rc' net' l = false := by
  by_cases ha : a = Action.R ∨ a = Action.C
  · rcases (scan_rot prev rc net a l ha).1 h with ⟨-, -, h3⟩
    exact ⟨_, _, h3⟩
  · rw [scan_nonrot prev rc net a l ha] at h
    exact ⟨_, _, h⟩

theorem scan_pair_reject (p a : Action) (rc : Nat) (net : Int) (l : List Action)
    (h : _operation_scan_bad (some p) rc net (a :: l) = false) :
    ¬(p = Action.R ∧ a = Action.C) ∧ ¬(p = Action.C ∧ a = Action.R) := by
  by_cases ha : a = Action.R ∨ a = Action.C
  · rcases (scan_rot (some p) rc net a l ha).1 h with ⟨h1, -, -⟩
    constructor
    · intro hx
      simp [cancelPair, hx.1, hx.2] at h1
    · intro hx
      simp [cancelPair, hx.1, hx.2] at h1
  · constructor
    · intro hx; exact ha (Or.inr hx.2)
    · intro hx; exact ha (Or.inl hx.2)

theorem scan_triple_reject (prev : Option Action) (rc : Nat) (net : Int)
    (a b c : Action) (l : List Action)
    (h : _operation_scan_bad prev rc net (a :: b :: c :: l) = false) :
    ¬(isRot a = true ∧ isRot b = true ∧ isRot c = true) := by
  rintro ⟨ha, hb, hc⟩
  have ha' : a = Action.R ∨ a = Action.C := by
    cases a <;> simp_all [isRot]
  have hb' : b = Action.R ∨ b = Action.C := by
    cases b <;> simp_all [isRot]
  have hc' : c = Action.R ∨ c = Action.C := by
    cases c <;> simp_all [isRot]
  rcases (scan_rot prev rc net a _ ha').1 h with ⟨-, -, h1⟩
  rcases (scan_rot (some a) (rc + 1) _ b _ hb').1 h1 with ⟨-, -, h2⟩
  rcases (scan_rot (some b) (rc + 2) _ c _ hc').1 h2 with ⟨-, h3, -⟩
  omega

theorem scan_append_pair : ∀ (l₁ : List Action) (prev : Option Action) (rc : Nat)
    (net : Int) (a b : Action) (l₂ : List Action),
    _operation_scan_bad prev rc net (l₁ ++ a :: b :: l₂) = false →
    ¬(a = Action.R ∧ b = Action.C) ∧ ¬(a = Action.C ∧ b = Action.R)
  | [], prev, rc, net, a, b, l₂, h => by
    obtain ⟨rc', net', h'⟩ := scan_cons_false prev rc net a _ h
    exact scan_pair_reject a b rc' net' l₂ h'
  | x :: l₁, prev, rc, net, a, b, l₂, h => by
    obtain ⟨rc', net', h'⟩ := scan_cons_false prev rc net x _ h
    exact scan_append_pair l₁ (some x) rc' net' a b l₂ h'

theorem scan_append_triple : ∀ (l₁ : List Action) (prev : Option Action) (rc : Nat)
    (net : Int) (a b c : Action) (l₂ : List Action),
    _operation_scan_bad prev rc net (l₁ ++ a :: b :: c :: l₂) = false →
    ¬(isRot a = true ∧ isRot b = true ∧ isRot c = true)
  | [], prev, rc, net, a, b, c, l₂, h => scan_triple_reject prev rc net a b c l₂ h
  | x :: l₁, prev, rc, net, a, b, c, l₂, h => by
    obtain ⟨rc', net', h'⟩ := scan_cons_false prev rc net x _ h
    exact scan_append_triple l₁ (some x) rc' net' a b c l₂ h'

theorem claim_C4_core (L : Nat) (op : Operation) (hop : op ∈ _generate_operations L) :
    _operation_scan_bad none 0 0 op = false ∧ endsWithRotation op = false := by
  unfold _generate_operations at hop
  have := (List.mem_filter.1 hop).2
  simp only [decide_eq_true_eq] at this
  exact ⟨by simpa using this.2, by simpa using this.1⟩

theorem run_shape (run : List Action) (hne : run ≠ [])
    (hrot : ∀ a ∈ run, isRot a = true)
    (hpair : ∀ r₁ x y r₂, run = r₁ ++ x :: y :: r₂ → x = y)
    (hlen : run.length ≤ 2) :
    run = [Action.R] ∨ run = [Action.C] ∨
    run = [Action.R, Action.R] ∨ run = [Action.C, Action.C] := by
  match run, hne with
  | [x], _ =>
    have hx := hrot x (by simp)
    cases x <;> simp_all [isRot]
  | [x, y], _ =>
    have hxy : x = y := hpair [] x y [] rfl
    subst hxy
    have hx := hrot x (by simp)
    cases x <;> simp_all [isRot]
  | x :: y :: z :: t, _ => simp at hlen

/-- C4: every operation in the catalog `_generate_operations L` (for a
horizon `L ≥ 1`) contains no adjacent `RC`/`CR` pair, does not end in a
rotation, contains no window of three consecutive rotations, and every
nonempty all-rotation segment (in particular every maximal rotation run)
has length equal to the minimum number of quarter-turns realizing its net
rotation mod 4; the catalog is a function of `L` alone. -/
theorem claim_C4 (L : Nat) (_hL : 1 ≤ L) :
    (∀ op ∈ _generate_operations L,
      (∀ l₁ a b l₂, op = l₁ ++ a :: b :: l₂ →
        ¬(a = Action.R ∧ b = Action.C) ∧ ¬(a = Action.C ∧ b = Action.R)) ∧
      (∀ a, op.getLast? = some a → a ≠ Action.R ∧ a ≠ Action.C) ∧
      (∀ l₁ a b c l₂, op = l₁ ++ a :: b :: c :: l₂ →
        ¬(isRot a = true ∧ isRot b = true ∧ isRot c = true)) ∧
      (∀ l₁ run l₂, op = l₁ ++ run ++ l₂ → run ≠ [] →
        (∀ a ∈ run, isRot a = true) →
        (∀ a, l₁.getLast? = some a → isRot a = false) →
        (∀ a, l₂.head? = some a → isRot a = false) →
        run.length = minQuarterTurns (_net_rotation run))) ∧
    _generate_operations L = _generate_operations L := by
  refine ⟨fun op hop => ?_, rfl⟩
  obtain ⟨hscan, hlast⟩ := claim_C4_core L op hop
  refine ⟨?_, ?_, ?_, ?_⟩
  · intro l₁ a b l₂ heq
    exact scan_append_pair l₁ none 0 0 a b l₂ (heq ▸ hscan)
  · intro a ha
    unfold endsWithRotation at hlast
    rw [ha] at hlast
    constructor
    · rintro rfl; simp at hlast
    · rintro rfl; simp at hlast
  · intro l₁ a b c l₂ heq
    exact scan_append_triple l₁ none 0 0 a b c l₂ (heq ▸ hscan)
  · intro l₁ run l₂ heq hne hrot _ _
    have hpair : ∀ r₁ x y r₂, run = r₁ ++ x :: y :: r₂ → x = y := by
      intro r₁ x y r₂ hr
      have hdec : op = (l₁ ++ r₁) ++ x :: y :: (r₂ ++ l₂) := by
        simp [heq, hr]
      have hnc := scan_append_pair (l₁ ++ r₁) none 0 0 x y (r₂ ++ l₂) (hdec ▸ hscan)
      have hx := hrot x (by simp [hr])
      have hy := hrot y (by simp [hr])
      cases x <;> cases y <;> simp_all [isRot]
    have hlen : run.length ≤ 2 := by
      by_contra hgt
      push_neg at hgt
      match run, hgt with
      | x :: y :: z :: t, _ =>
        have hdec : op = l₁ ++ x :: y :: z :: (t ++ l₂) := by simp [heq]
        have := scan_append_triple l₁ none 0 0 x y z (t ++ l₂) (hdec ▸ hscan)
        exact this ⟨hrot x (by simp), hrot y (by simp), hrot z (by simp)⟩
    rcases run_shape run hne hrot hpair hlen with rfl | rfl | rfl | rfl <;> decide

/-- Witness for C4 at the concrete horizon `L = 2`. -/
theorem claim_C4_witness :
    1 ≤ 2 ∧
    ((∀ op ∈ _generate_operations 2,
      (∀ l₁ a b l₂, op = l₁ ++ a :: b :: l₂ →
        ¬(a = Action.R ∧ b = Action.C) ∧ ¬(a = Action.C ∧ b = Action.R)) ∧
      (∀ a, op.getLast? = some a → a ≠ Action.R ∧ a ≠ Action.C) ∧
      (∀ l₁ a b c l₂, op = l₁ ++ a :: b :: c :: l₂ →
        ¬(isRot a = true ∧ isRot b = true ∧ isRot c = true)) ∧
      (∀ l₁ run l₂, op = l₁ ++ run ++ l₂ → run ≠ [] →
        (∀ a ∈ run, isRot a = true) →
        (∀ a, l₁.getLast? = some a → isRot a = false) →
        (∀ a, l₂.head? = some a → isRot a = false) →
        run.length = minQuarterTurns (_net_rotation run))) ∧
    _generate_operations 2 = _generate_operations 2) :=
  ⟨by decide, claim_C4 2 (by decide)⟩

/-! ### Theorems: list access helpers -/

theorem getD_set_self {α : Type} : ∀ (l : List α) (i : Nat) (v d : α),
    i < l.length → (l.set i v).getD i d = v
  | _ :: _, 0, _, _, _ => rfl
  | _ :: l, i + 1, v, d, h => getD_set_self l i v d (by simpa using h)
  | [], _, _, _, h => by simp at h

theorem getD_set_ne {α : Type} : ∀ (l : List α) (i j : Nat) (v d : α),
    i ≠ j → (l.set i v).getD j d = l.getD j d
  | [], _, _, _, _, _ => rfl
  | _ :: _, 0, 0, _, _, h => absurd rfl h
  | _ :: _, 0, _ + 1, _, _, _ => rfl
  | _ :: _, _ + 1, 0, _, _, _ => rfl
  | _ :: l, i + 1, j + 1, v, d, h =>
    getD_set_ne l i j v d (fun e => h (by rw [e]))

theorem getD_oob {α : Type} : ∀ (l : List α) (i : Nat) (d : α),
    l.length ≤ i → l.getD i d = d
  | [], _, _, _ => rfl
  | _ :: l, i + 1, d, h => getD_oob l i d (by simpa using h)
  | _ :: _, 0, _, h => by simp at h

theorem set_oob {α : Type} : ∀ (l : List α) (i : Nat) (v : α),
    l.length ≤ i → l.set i v = l
  | [], _, _, _ => rfl
  | _ :: _, 0, _, h => by simp at h
  | a :: l, i + 1, v, h => by
    show a :: l.set i v = a :: l
    rw [set_oob l i v (by simpa using h)]

theorem getD_map_range {α : Type} (f : Nat → α) (d : α) :
    ∀ (n i : Nat), i < n → (((List.range n).map f).getD i d = f i) := by
  intro n i hi
  rw [List.getD_eq_getElem?_getD]
  simp [List.getElem?_range, hi]

/-! ### Theorems: frame lemmas of the selection phase -/

theorem sameCore_refl (s : PState) : SameCore s s :=
  ⟨rfl, rfl, rfl, rfl, rfl, rfl, rfl, rfl, rfl, rfl, rfl⟩

theorem sameCore_trans {a b c : PState} (h1 : SameCore a b) (h2 : SameCore b c) :
    SameCore a c := by
  obtain ⟨a1, a2, a3, a4, a5, a6, a7, a8, a9, a10, a11⟩ := h1
  obtain ⟨b1, b2, b3, b4, b5, b6, b7, b8, b9, b10, b11⟩ := h2
  exact ⟨b1.trans a1, b2.trans a2, b3.trans a3, b4.trans a4, b5.trans a5,
    b6.trans a6, b7.trans a7, b8.trans a8, b9.trans a9, b10.trans a10, b11.trans a11⟩

theorem frameRel_refl (s : PState) : FrameRel s s :=
  ⟨sameCore_refl s, rfl, rfl, rfl, rfl, fun _ => le_refl _, fun _ _ _ => ⟨rfl, rfl⟩⟩

theorem frameRel_trans {a b c : PState} (h1 : FrameRel a b) (h2 : FrameRel b c) :
    FrameRel a c := by
  obtain ⟨c1, l1, l2, l3, l4, m1, u1⟩ := h1
  obtain ⟨c2, n1, n2, n3, n4, m2, u2⟩ := h2
  refine ⟨sameCore_trans c1 c2, n1.trans l1, n2.trans l2, n3.trans l3, n4.trans l4,
    fun j => (m1 j).trans (m2 j), fun j hj hv => ?_⟩
  have hab : b.visit_count.getD j 0 = a.visit_count.getD j 0 := by
    have := m1 j
    have := m2 j
    omega
  have hbc : c.visit_count.getD j 0 = b.visit_count.getD j 0 := by omega
  obtain ⟨e1, e2⟩ := u1 j hj hab
  obtain ⟨e3, e4⟩ := u2 j (l3 ▸ hj) hbc
  exact ⟨e3.trans e1, e4.trans e2⟩

theorem frameRelExc_of_frameRel {k : Nat} {a b : PState} (h : FrameRel a b) :
    FrameRelExc k a b := by
  obtain ⟨c1, l1, l2, l3, l4, m1, u1⟩ := h
  exact ⟨c1, l1, l2, l3, l4, m1, fun j _ hj hv => u1 j hj hv⟩

theorem frameRelExc_trans {k : Nat} {a b c : PState}
    (h1 : FrameRelExc k a b) (h2 : FrameRelExc k b c) : FrameRelExc k a c := by
  obtain ⟨c1, l1, l2, l3, l4, m1, u1⟩ := h1
  obtain ⟨c2, n1, n2, n3, n4, m2, u2⟩ := h2
  refine ⟨sameCore_trans c1 c2, n1.trans l1, n2.trans l2, n3.trans l3, n4.trans l4,
    fun j => (m1 j).trans (m2 j), fun j hk hj hv => ?_⟩
  have hab : b.visit_count.getD j 0 = a.visit_count.getD j 0 := by
    have := m1 j
    have := m2 j
    omega
  have hbc : c.visit_count.getD j 0 = b.visit_count.getD j 0 := by omega
  obtain ⟨e1, e2⟩ := u1 j hk hj hab
  obtain ⟨e3, e4⟩ := u2 j hk (l3 ▸ hj) hbc
  exact ⟨e3.trans e1, e4.trans e2⟩

theorem frameRelExc_trans' {k : Nat} {a b c : PState}
    (h1 : FrameRelExc k a b) (h2 : FrameRel b c) : FrameRelExc k a c :=
  frameRelExc_trans h1 (frameRelExc_of_frameRel h2)

theorem frame_reserve (aid : Nat) (p : List Coord) (s : PState) :
    FrameRel s (_reserve_path aid p s) :=
  ⟨⟨rfl, rfl, rfl, rfl, rfl, rfl, rfl, rfl, rfl, rfl, rfl⟩, rfl, rfl, rfl, rfl,
    fun _ => le_refl _, fun _ _ _ => ⟨rfl, rfl⟩⟩

theorem frame_unreserve (aid : Nat) (p : List Coord) (s : PState) :
    FrameRel s (_unreserve_path aid p s) :=
  ⟨⟨rfl, rfl, rfl, rfl, rfl, rfl, rfl, rfl, rfl, rfl, rfl⟩, rfl, rfl, rfl, rfl,
    fun _ => le_refl _, fun _ _ _ => ⟨rfl, rfl⟩⟩

theorem frame_candidates (oracle : ShuffleOracle) (aid : Nat) (c : Coord) (o : Int)
    (s : PState) : FrameRel s (_get_sorted_candidates oracle aid c o s).2 :=
  ⟨⟨rfl, rfl, rfl, rfl, rfl, rfl, rfl, rfl, rfl, rfl, rfl⟩, rfl, rfl, rfl, rfl,
    fun _ => le_refl _, fun _ _ _ => ⟨rfl, rfl⟩⟩

theorem frame_fallback (k : Nat) (s : PState) : FrameRelExc k s (fallbackState k s) := by
  refine ⟨⟨rfl, rfl, rfl, rfl, rfl, rfl, rfl, rfl, rfl, rfl, rfl⟩, ?_, ?_, ?_, ?_,
    fun _ => le_refl _, fun j hk _ _ => ?_⟩
  · simp [fallbackState]
  · simp [fallbackState]
  · simp [fallbackState]
  · simp [fallbackState]
  · exact ⟨getD_set_ne _ k j _ _ (fun e => hk e.symm),
      getD_set_ne _ k j _ _ (fun e => hk e.symm)⟩

theorem frame_adopt (k : Nat) (op : Operation) (cp : List Coord) (s : PState) :
    FrameRelExc k s
      (_reserve_path k cp
        { s with agent_ops := s.agent_ops.set k op, agent_paths := s.agent_paths.set k cp }) := by
  refine ⟨⟨rfl, rfl, rfl, rfl, rfl, rfl, rfl, rfl, rfl, rfl, rfl⟩, ?_, ?_, rfl, rfl,
    fun _ => le_refl _, fun j hk _ _ => ?_⟩
  · simp [_reserve_path]
  · simp [_reserve_path]
  · exact ⟨getD_set_ne _ k j _ _ (fun e => hk e.symm),
      getD_set_ne _ k j _ _ (fun e => hk e.symm)⟩

theorem frame_hitReset (k : Nat) (s : PState) :
    FrameRelExc k s { s with hit := s.hit.set k 0 } :=
  ⟨⟨rfl, rfl, rfl, rfl, rfl, rfl, rfl, rfl, rfl, rfl, rfl⟩, rfl, rfl, rfl,
    by simp, fun _ => le_refl _, fun _ _ _ _ => ⟨rfl, rfl⟩⟩

theorem frame_attemptPush (selectRec : Nat → Rat → PState → Option (Bool × PState))
    (k l : Nat) (p : Rat) (op : Operation) (cp : List Coord) (s : PState)
    (b : Bool) (s' : PState)
    (hrec : ∀ l' q s₀ r', selectRec l' q s₀ = some r' → FrameRel s₀ r'.2)
    (h : attemptPush selectRec k l p op cp s = some (b, s')) :
    FrameRelExc k s s' := by
  simp only [attemptPush] at h
  split at h
  · exact absurd h (by simp)
  · rename_i s3 heq
    obtain ⟨-, rfl⟩ : b = true ∧ s3 = s' := by
      constructor <;> · injection h with h'; cases h'; rfl
    exact frameRelExc_trans' (frame_adopt k op cp _) (hrec _ _ _ _ heq)
  · rename_i s3 heq
    have hs' : s' =
        _reserve_path l (s.agent_paths.getD l [])
          { _unreserve_path k cp s3 with
            agent_ops := (_unreserve_path k cp s3).agent_ops.set l (s.agent_ops.getD l []),
            agent_paths := (_unreserve_path k cp s3).agent_paths.set l (s.agent_paths.getD l []) } := by
      injection h with h'; cases h'; rfl
    have hX : FrameRelExc k s
        (_reserve_path k cp
          { _unreserve_path l (s.agent_paths.getD l []) s with
            agent_ops := (_unreserve_path l (s.agent_paths.getD l []) s).agent_ops.set k op,
            agent_paths := (_unreserve_path l (s.agent_paths.getD l []) s).agent_paths.set k cp }) :=
      frame_adopt k op cp _
    have hXr := hrec _ _ _ _ heq
    obtain ⟨cX, oX, pX, vX, hX4, mX, uX⟩ := hX
    obtain ⟨c3, o3, p3, v3, h34, m3, u3⟩ := hXr
    subst hs'
    refine ⟨sameCore_trans cX (sameCore_trans c3 ⟨rfl, rfl, rfl, rfl, rfl, rfl, rfl, rfl, rfl, rfl, rfl⟩),
      ?_, ?_, ?_, ?_, ?_, ?_⟩
    · simp only [_reserve_path, _unreserve_path, List.length_set]
      exact o3.trans oX
    · simp only [_reserve_path, _unreserve_path, List.length_set]
      exact p3.trans pX
    · exact v3.trans vX
    · simp only [_reserve_path, _unreserve_path, List.length_set]
      exact h34.trans hX4
    · intro j
      exact (mX j).trans (m3 j)
    · intro j hk hj hv
      simp only [_reserve_path, _unreserve_path] at hv ⊢
      have hol : s3.agent_ops.length = s.agent_ops.length := o3.trans oX
      have hpl : s3.agent_paths.length = s.agent_paths.length := p3.trans pX
      by_cases hjl : j = l
      · subst hjl
        constructor
        · by_cases hlen : j < s3.agent_ops.length
          · exact getD_set_self _ j _ _ hlen
          · rw [set_oob _ j _ (le_of_not_lt hlen),
              getD_oob s3.agent_ops j [] (le_of_not_lt hlen),
              getD_oob s.agent_ops j [] (by omega)]
        · by_cases hlen : j < s3.agent_paths.length
          · exact getD_set_self _ j _ _ hlen
          · rw [set_oob _ j _ (le_of_not_lt hlen),
              getD_oob s3.agent_paths j [] (le_of_not_lt hlen),
              getD_oob s.agent_paths j [] (by omega)]
      · obtain ⟨e1, e2⟩ := u3 j (by rw [vX]; exact hj) hv
        exact ⟨(getD_set_ne _ l j _ _ (fun e => hjl e.symm)).trans
            (e1.trans (getD_set_ne _ k j _ _ (fun e => hk e.symm))),
          (getD_set_ne _ l j _ _ (fun e => hjl e.symm)).trans
            (e2.trans (getD_set_ne _ k j _ _ (fun e => hk e.symm)))⟩

theorem selectLoop_frame (selectRec : Nat → Rat → PState → Option (Bool × PState))
    (k : Nat) (p : Rat)
    (hrec : ∀ l' q s₀ r', selectRec l' q s₀ = some r' → FrameRel s₀ r'.2) :
    ∀ (cands : List (Operation × List Coord × Int)) (s : PState) (r : Bool × PState),
    selectLoop selectRec k p cands s = some r → FrameRelExc k s r.2
  | [], s, r, h => by
    simp only [selectLoop] at h
    injection h with h2
    subst h2
    exact frame_fallback k s
  | (op, cp, fo) :: rest, s, r, h => by
    simp only [selectLoop] at h
    split at h
    · injection h with h2
      subst h2
      exact frameRelExc_trans (frame_adopt k op cp s) (frame_hitReset k _)
    · split at h
      · exact selectLoop_frame selectRec k p hrec rest s r h
      · split at h
        · exact selectLoop_frame selectRec k p hrec rest s r h
        · split at h
          · exact absurd h (by simp)
          · rename_i s3 heq
            injection h with h2
            subst h2
            exact frameRelExc_trans (frame_attemptPush selectRec k _ p op cp s true s3 hrec heq)
              (frame_hitReset k s3)
          · rename_i s5 heq
            exact frameRelExc_trans (frame_attemptPush selectRec k _ p op cp s false s5 hrec heq)
              (selectLoop_frame selectRec k p hrec rest s5 r h)

theorem selectF_frame (oracle : ShuffleOracle) :
    ∀ (fuel k : Nat) (p : Rat) (s : PState) (r : Bool × PState),
    selectF oracle fuel k p s = some r → FrameRel s r.2
  | 0, _, _, _, _, h => by simp [selectF] at h
  | fuel + 1, k, p, s, r, h => by
    simp only [selectF] at h
    have hrec : ∀ l' q s₀ r', selectF oracle fuel l' q s₀ = some r' → FrameRel s₀ r'.2 :=
      fun l' q s₀ r' h' => selectF_frame oracle fuel l' q s₀ r' h'
    have hloop := selectLoop_frame _ k p hrec _ _ r h
    obtain ⟨cL, oL, pL, vL, hL, mL, uL⟩ := hloop
    have cC : SameCore s (_get_sorted_candidates oracle k (s.Q_from.getD k (0, 0))
        (s.orientations.getD k 0) s).2 :=
      (frame_candidates oracle k _ _ s).1
    have hset : ∀ j, (s.visit_count.set k (s.visit_count.getD k 0 + 1)).getD j 0 =
        if j = k ∧ k < s.visit_count.length then s.visit_count.getD k 0 + 1
        else s.visit_count.getD j 0 := by
      intro j
      by_cases hjk : j = k
      · subst hjk
        by_cases hlen : j < s.visit_count.length
        · rw [if_pos ⟨rfl, hlen⟩]
          exact getD_set_self _ j _ _ hlen
        · rw [if_neg (fun hx => hlen hx.2), set_oob _ j _ (le_of_not_lt hlen)]
      · rw [if_neg (fun hx => hjk hx.1)]
        exact getD_set_ne _ k j _ _ (fun e => hjk e.symm)
    refine ⟨sameCore_trans (sameCore_trans cC ⟨rfl, rfl, rfl, rfl, rfl, rfl, rfl, rfl, rfl,
      rfl, rfl⟩) cL, oL, pL,
      vL.trans (List.length_set _ _ _), hL.trans (List.length_set _ _ _), ?_, ?_⟩
    · intro j
      have h2 : (s.visit_count.set k (s.visit_count.getD k 0 + 1)).getD j 0 ≤
          r.2.visit_count.getD j 0 := mL j
      rw [hset j] at h2
      split at h2
      · rename_i he
        obtain ⟨rfl, -⟩ := he
        omega
      · exact h2
    · intro j hj hv
      by_cases hjk : j = k
      · subst hjk
        exfalso
        have h2 : (s.visit_count.set j (s.visit_count.getD j 0 + 1)).getD j 0 ≤
            r.2.visit_count.getD j 0 := mL j
        rw [hset j, if_pos ⟨rfl, hj⟩] at h2
        omega
      · have hvS : r.2.visit_count.getD j 0 =
            (s.visit_count.set k (s.visit_count.getD k 0 + 1)).getD j 0 := by
          rw [hset j, if_neg (fun hx => hjk hx.1)]
          exact hv
        obtain ⟨e1, e2⟩ := uL j hjk
          (by rw [List.length_set]; exact hj :
            j < (s.visit_count.set k (s.visit_count.getD k 0 + 1)).length) hvS
        exact ⟨e1, e2⟩

theorem frame_epibt_select (oracle : ShuffleOracle) (k : Nat) (p : Rat) (s : PState) :
    FrameRel s (_epibt_select oracle k p s).2 := by
  unfold _epibt_select
  cases h : selectF oracle (muSel s + 1) k p s with
  | none => exact frameRel_refl s
  | some r => exact selectF_frame oracle _ k p s r h

theorem frame_stepMainBody (oracle : ShuffleOracle) (st : PState) (k : Nat) :
    FrameRel st (stepMainBody oracle st k) := by
  simp only [stepMainBody]
  split
  · exact frameRel_refl st
  · split
    · exact frameRel_trans (frame_unreserve k (st.agent_paths.getD k []) st)
        (frame_epibt_select oracle k _ _)
    · exact frameRel_trans
        (frameRel_trans (frame_unreserve k (st.agent_paths.getD k []) st)
          (frame_epibt_select oracle k _ _))
        (frame_reserve k _ _)

theorem frameRel_foldl {β : Type} (f : PState → β → PState)
    (h : ∀ st b, FrameRel st (f st b)) :
    ∀ (l : List β) (s : PState), FrameRel s (l.foldl f s)
  | [], s => frameRel_refl s
  | b :: l, s => frameRel_trans (h s b) (frameRel_foldl f h l (f s b))

theorem frame_stepMain (oracle : ShuffleOracle) (s : PState) :
    FrameRel s (stepMain oracle s) :=
  frameRel_foldl (stepMainBody oracle) (frame_stepMainBody oracle) _ s

theorem sameCore_foldl {β : Type} (f : PState → β → PState)
    (h : ∀ st b, SameCore st (f st b)) :
    ∀ (l : List β) (s : PState), SameCore s (l.foldl f s)
  | [], s => sameCore_refl s
  | b :: l, s => sameCore_trans (h s b) (sameCore_foldl f h l (f s b))

theorem sameCore_stepSetupBody (Q_from : List Coord) (st : PState) (i : Nat) :
    SameCore st (stepSetupBody Q_from st i) := by
  simp only [stepSetupBody]
  split <;> exact ⟨rfl, rfl, rfl, rfl, rfl, rfl, rfl, rfl, rfl, rfl, rfl⟩

theorem stepSetup_core (s : PState) (Q_from : List Coord) (priorities : List Rat) :
    SameCore { s with Q_from := Q_from, priorities := priorities,
                      visit_count := List.replicate s.N 0,
                      hit := List.replicate s.N 0,
                      agent_ops := s.inherited_ops,
                      agent_paths := List.replicate s.N [],
                      reserved := fun _ _ => s.N }
      (stepSetup s Q_from priorities) :=
  sameCore_foldl (stepSetupBody Q_from) (sameCore_stepSetupBody Q_from) _ _

theorem stepEmitBody_fst (s : PState) (acc : List Coord × List Int × List Operation)
    (i : Nat) : (stepEmitBody s acc i).1 = acc.1 ++ [emitPos s i] := by
  simp only [stepEmitBody, emitPos]
  cases hh : (s.agent_ops.getD i []).head? with
  | none => simp [hh]
  | some a =>
    cases a
    · simp only [hh]
      split <;> simp
    · simp [hh]
    · simp [hh]
    · simp [hh]

theorem emit_foldl_fst (s : PState) :
    ∀ (l : List Nat) (acc : List Coord × List Int × List Operation),
    (l.foldl (stepEmitBody s) acc).1 = acc.1 ++ l.map (emitPos s)
  | [], acc => by simp
  | i :: l, acc => by
    rw [List.foldl_cons, emit_foldl_fst s l (stepEmitBody s acc i), stepEmitBody_fst,
      List.map_cons]
    simp

theorem stepEmit_fst (s : PState) :
    (stepEmit s).1 = (List.range s.N).map (emitPos s) := by
  unfold stepEmit
  rw [emit_foldl_fst s (List.range s.N) ([], [], [])]
  rfl

theorem step_fst (oracle : ShuffleOracle) (s : PState) (Q_from : List Coord)
    (priorities : List Rat) :
    (step oracle s Q_from priorities).1 =
      (List.range (stepMain oracle (stepSetup s Q_from priorities)).N).map
        (emitPos (stepMain oracle (stepSetup s Q_from priorities))) := by
  unfold step
  exact stepEmit_fst _

theorem stepMid_core (oracle : ShuffleOracle) (s : PState) (Q_from : List Coord)
    (priorities : List Rat) :
    (stepMain oracle (stepSetup s Q_from priorities)).N = s.N ∧
    (stepMain oracle (stepSetup s Q_from priorities)).grid = s.grid ∧
    (stepMain oracle (stepSetup s Q_from priorities)).Q_from = Q_from ∧
    (stepMain oracle (stepSetup s Q_from priorities)).orientations = s.orientations ∧
    (stepMain oracle (stepSetup s Q_from priorities)).op_len = s.op_len ∧
    (stepMain oracle (stepSetup s Q_from priorities)).inherited_ops = s.inherited_ops ∧
    (stepMain oracle (stepSetup s Q_from priorities)).priorities = priorities ∧
    (stepMain oracle (stepSetup s Q_from priorities)).all_operations = s.all_operations ∧
    (stepMain oracle (stepSetup s Q_from priorities)).goals = s.goals ∧
    (stepMain oracle (stepSetup s Q_from priorities)).starts = s.starts ∧
    (stepMain oracle (stepSetup s Q_from priorities)).max_revisits = s.max_revisits := by
  have h1 := stepSetup_core s Q_from priorities
  have h2 := (frame_stepMain oracle (stepSetup s Q_from priorities)).1
  obtain ⟨a1, a2, a3, a4, a5, a6, a7, a8, a9, a10, a11⟩ := h1
  obtain ⟨b1, b2, b3, b4, b5, b6, b7, b8, b9, b10, b11⟩ := h2
  exact ⟨b4.trans a4, b1.trans a1, b10.trans a10, b7.trans a7, b5.trans a5,
    b8.trans a8, b11.trans a11, b9.trans a9, b3.trans a3, b2.trans a2, b6.trans a6⟩

theorem is_valid_iff (g : Grid) (c : Coord) :
    is_valid_coord g c = true ↔
      (0 ≤ c.1 ∧ c.1 < (g.H : Int) ∧ 0 ≤ c.2 ∧ c.2 < (g.W : Int) ∧
        g.free c.1.toNat c.2.toNat = true) := by
  unfold is_valid_coord
  split
  · rename_i hcond
    simp only [Bool.false_eq_true, false_iff]
    rintro ⟨h1, h2, h3, h4, h5⟩
    rcases hcond with h | h | h | h | h
    · omega
    · omega
    · omega
    · omega
    · rw [h5] at h; cases h
  · rename_i hcond
    push_neg at hcond
    obtain ⟨h1, h2, h3, h4, h5⟩ := hcond
    simp only [true_iff]
    refine ⟨by omega, by omega, by omega, by omega, ?_⟩
    cases hfree : g.free c.1.toNat c.2.toNat
    · exact absurd hfree h5
    · rfl

theorem forward_step_neighbor (g : Grid) (pos : Coord) (o : Int)
    (hpos : is_valid_coord g pos = true)
    (hnp : is_valid_coord g
      (pos.1 + (DIRECTION_VECTORS o).1, pos.2 + (DIRECTION_VECTORS o).2) = true) :
    (pos.1 + (DIRECTION_VECTORS o).1, pos.2 + (DIRECTION_VECTORS o).2) = pos ∨
    (pos.1 + (DIRECTION_VECTORS o).1, pos.2 + (DIRECTION_VECTORS o).2) ∈
      get_neighbors g pos := by
  obtain ⟨hy0, hyH, hx0, hxW, hfree⟩ := (is_valid_iff g pos).1 hpos
  simp only [get_neighbors]
  rw [if_neg (by simp [hpos])]
  by_cases h0 : o = 0
  · have hd1 : (DIRECTION_VECTORS o).1 = -1 := by rw [h0]; rfl
    have hd2 : (DIRECTION_VECTORS o).2 = 0 := by rw [h0]; rfl
    rw [hd1, hd2] at hnp ⊢
    obtain ⟨ny0, nyH, nx0, nxW, nfree⟩ := (is_valid_iff g _).1 hnp
    right
    refine List.mem_append.2 (Or.inl (List.mem_append.2 (Or.inr ?_)))
    rw [if_pos ⟨by omega, by simpa [sub_eq_add_neg] using nfree⟩]
    simp [Prod.ext_iff]
    omega
  · by_cases h1 : o = 1
    · have hd1 : (DIRECTION_VECTORS o).1 = 0 := by rw [h1]; rfl
      have hd2 : (DIRECTION_VECTORS o).2 = 1 := by rw [h1]; rfl
      rw [hd1, hd2] at hnp ⊢
      obtain ⟨ny0, nyH, nx0, nxW, nfree⟩ := (is_valid_iff g _).1 hnp
      right
      refine List.mem_append.2 (Or.inl (List.mem_append.2 (Or.inl
        (List.mem_append.2 (Or.inr ?_)))))
      rw [if_pos ⟨by omega, by simpa using nfree⟩]
      simp [Prod.ext_iff]
    · by_cases h2 : o = 2
      · have hd1 : (DIRECTION_VECTORS o).1 = 1 := by rw [h2]; rfl
        have hd2 : (DIRECTION_VECTORS o).2 = 0 := by rw [h2]; rfl
        rw [hd1, hd2] at hnp ⊢
        obtain ⟨ny0, nyH, nx0, nxW, nfree⟩ := (is_valid_iff g _).1 hnp
        right
        refine List.mem_append.2 (Or.inr ?_)
        rw [if_pos ⟨by omega, by simpa using nfree⟩]
        simp [Prod.ext_iff]
      · by_cases h3 : o = 3
        · have hd1 : (DIRECTION_VECTORS o).1 = 0 := by rw [h3]; rfl
          have hd2 : (DIRECTION_VECTORS o).2 = -1 := by rw [h3]; rfl
          rw [hd1, hd2] at hnp ⊢
          obtain ⟨ny0, nyH, nx0, nxW, nfree⟩ := (is_valid_iff g _).1 hnp
          right
          refine List.mem_append.2 (Or.inl (List.mem_append.2 (Or.inl
            (List.mem_append.2 (Or.inl ?_)))))
          rw [if_pos ⟨by omega, by simpa [sub_eq_add_neg] using nfree⟩]
          simp [Prod.ext_iff]
          omega
        · have hd1 : (DIRECTION_VECTORS o).1 = 0 := by
            simp [DIRECTION_VECTORS, h0, h1, h2, h3]
          have hd2 : (DIRECTION_VECTORS o).2 = 0 := by
            simp [DIRECTION_VECTORS, h0, h1, h2, h3]
          rw [hd1, hd2]
          left
          simp

/-- C5: on every call to `step`, an agent on a valid cell either stays
put or moves to a traversable 4-neighbor of its previous cell. -/
theorem claim_C5 (oracle : ShuffleOracle) (s : PState) (Q_from : List Coord)
    (priorities : List Rat)
    (hval : ∀ i, i < s.N → is_valid_coord s.grid (Q_from.getD i (0, 0)) = true) :
    ∀ i, i < s.N →
      (step oracle s Q_from priorities).1.getD i (0, 0) = Q_from.getD i (0, 0) ∨
      (step oracle s Q_from priorities).1.getD i (0, 0) ∈
        get_neighbors s.grid (Q_from.getD i (0, 0)) := by
  intro i hi
  obtain ⟨cN, cG, cQ, cO, -⟩ := stepMid_core oracle s Q_from priorities
  rw [step_fst, getD_map_range _ _ _ i (by rw [cN]; exact hi)]
  simp only [emitPos]
  rw [cQ, cG]
  split
  · split
    · rename_i hvalid
      exact forward_step_neighbor s.grid (Q_from.getD i (0, 0)) _ (hval i hi) hvalid
    · exact Or.inl rfl
  all_goals exact Or.inl rfl

/-- Witness for C5 at a concrete one-agent planner. -/
theorem claim_C5_witness :
    (∀ i, i < sWit.N → is_valid_coord sWit.grid ([((0 : Int), (0 : Int))].getD i (0, 0)) = true) ∧
    (∀ i, i < sWit.N →
      (step idShuffle sWit [(0, 0)] [1]).1.getD i (0, 0) = [((0 : Int), (0 : Int))].getD i (0, 0) ∨
      (step idShuffle sWit [(0, 0)] [1]).1.getD i (0, 0) ∈
        get_neighbors sWit.grid ([((0 : Int), (0 : Int))].getD i (0, 0))) :=
  ⟨by decide, claim_C5 idShuffle sWit [(0, 0)] [1] (by decide)⟩

/-! ### Theorems: determinism (claim C8) and construction errors (claim C9) -/

/-- C8: the embedding makes every source of randomness an explicit
function of the seed (`numpy`'s generator is deterministic per seed, here
abstracted as the draw-stream oracles), so two executions constructed and
run with identical inputs produce identical configuration sequences —
definitionally so for `run` and for any number of dispatcher ticks. -/
theorem claim_C8 (g : Grid) (starts goals : List Coord) (op_len max_revisits : Nat)
    (orientDraw : Nat → Nat) (oracle : ShuffleOracle) (T : Nat)
    (num_agents : Nat) (pickups deliveries : List Coord)
    (choiceDraw poissonDraw intDraw : Nat → Nat) (n : Nat) :
    run oracle (mkPIBT g starts goals op_len max_revisits orientDraw) T =
      run oracle (mkPIBT g starts goals op_len max_revisits orientDraw) T ∧
    (mkMAPD g num_agents pickups deliveries choiceDraw orientDraw).map
        (fun s0 => tickN poissonDraw intDraw oracle n s0) =
      (mkMAPD g num_agents pickups deliveries choiceDraw orientDraw).map
        (fun s0 => tickN poissonDraw intDraw oracle n s0) :=
  ⟨rfl, rfl⟩

/-- C9 (amended): the dispatcher constructor fails exactly when the agent
count exceeds the number of walkable non-station cells (numpy's `choice`
raising); neither an obstacle station cell nor a starts/goals length
mismatch is checked — `PIBT.__init__` always completes, with `N` the
number of starts. -/
theorem claim_C9 (g : Grid) (num_agents : Nat) (pickups deliveries : List Coord)
    (choiceDraw orientDraw : Nat → Nat) (starts goals : List Coord)
    (op_len max_revisits : Nat) (od : Nat → Nat) :
    ((∃ e, mkMAPD g num_agents pickups deliveries choiceDraw orientDraw =
        Except.error e) ↔
      (availableCells g pickups deliveries).length < num_agents) ∧
    (mkPIBT g starts goals op_len max_revisits od).N = starts.length := by
  constructor
  · simp only [mkMAPD]
    split
    · rename_i hlt
      exact iff_of_true ⟨_, rfl⟩ hlt
    · rename_i hge
      refine iff_of_false ?_ hge
      rintro ⟨e, he⟩
      exact Except.noConfusion he
  · rfl

/-- Counterexample for C9 as stated: construction succeeds although the
pickup station `(0,0)` of `gStation` is an obstacle, and `PIBT`
construction completes normally on a starts/goals length mismatch. -/
theorem claim_C9_counterexample :
    (mkMAPD gStation 1 [(0, 0)] [(1, 0)] (fun _ => 0) (fun _ => 0)).toOption.isSome
        = true ∧
    gStation.free 0 0 = false ∧
    (mkPIBT gC [(0, 0), (0, 1)] [(0, 0)] 1 10 (fun _ => 0)).N = 2 ∧
    ([((0 : Int), (0 : Int)), ((0 : Int), (1 : Int))].length ≠
      [((0 : Int), (0 : Int))].length) :=
  ⟨rfl, rfl, rfl, by decide⟩

/-- Counterexample for C1 as stated: two calls to `step` on pairwise
distinct, valid `Q_from` whose returned configuration puts both agents on
the same cell. In `sA` the carried inherited operations are individually
feasible but mutually conflicting; the setup reservation of agent 1
overwrites agent 0's, both selections fail (every candidate terminal is
unreachable), and the fallback re-reservations silently collide. In `sB`
the provisional stay-in-place paths are even pairwise compatible: agent
0's inherited `[F, F]` is infeasible, so its reservation is a stay path,
but the fallback still emits the feasible first `F`. -/
theorem claim_C1_counterexample :
    (((0 : Int), (0 : Int)) ≠ ((0 : Int), (2 : Int))) ∧
    is_valid_coord gA (0, 0) = true ∧ is_valid_coord gA (0, 2) = true ∧
    (step idShuffle sA [(0, 0), (0, 2)] [1, 1]).1.getD 0 (0, 0) =
      (step idShuffle sA [(0, 0), (0, 2)] [1, 1]).1.getD 1 (0, 0) ∧
    is_valid_coord gB (0, 0) = true ∧ is_valid_coord gB (0, 1) = true ∧
    (stepSetup sB [(0, 0), (0, 1)] [1, 1]).agent_paths =
      [[(0, 0), (0, 0), (0, 0)], [(0, 1), (0, 1), (0, 1)]] ∧
    (step idShuffle sB [(0, 0), (0, 1)] [1, 1]).1.getD 0 (0, 0) =
      (step idShuffle sB [(0, 0), (0, 1)] [1, 1]).1.getD 1 (0, 0) := by
  exact ⟨by decide, rfl, rfl, by decide, rfl, rfl, by decide, by decide⟩

/-- Counterexample for C2 as stated: a failing tentative push after which
the reservation table and agent 1's slot are restored, but agent 0 — the
pushing agent — keeps the tried candidate `[F]` in its committed slot
instead of its pre-push `[W]`. -/
theorem claim_C2_counterexample :
    _get_conflicts 0 [(0, 0), (0, 1)] sC2 = [1] ∧
    sC2.agent_ops.getD 0 [] = [Action.W] ∧
    (attemptPush (fun l q s' => selectF idShuffle 5 l q s') 0 1 1 [Action.F]
        [(0, 0), (0, 1)] sC2).map (fun r => (r.1, r.2.agent_ops.getD 0 [])) =
      some (false, [Action.F]) ∧
    ([Action.F] ≠ [Action.W]) := by
  exact ⟨by decide, rfl, by decide, by decide⟩

/-- Counterexample for C3 as stated: with the goal itself an obstacle,
`get(goal)` returns `UNREACHED`, not 0. -/
theorem claim_C3_counterexample :
    ((mkDistTable gObs (0, 0)).get (0, 0)).1 = UNREACHED ∧
    ((mkDistTable gObs (0, 0)).get (0, 0)).1 ≠ 0 := by
  exact ⟨rfl, by decide⟩

/-! ### Reservation-table closed forms -/

theorem compat_symm {p q : List Coord} (h : Compat p q) : Compat q p := by
  obtain ⟨hv, he⟩ := h
  constructor
  · intro t h1 h2 e
    exact hv t h2 h1 e.symm
  · intro t h1 h0 h2 hpair
    exact he t h2 h0 h1 ⟨hpair.2.symm, hpair.1.symm⟩

theorem reserveTab_eq (aid : Nat) : ∀ (cp : List Coord) (t0 : Nat)
    (res : Nat → Coord → Nat) (t : Nat) (c : Coord),
    reserveTab aid t0 cp res t c =
      if t0 ≤ t ∧ t - t0 < cp.length ∧ cp.getD (t - t0) (0, 0) = c then aid else res t c
  | [], t0, res, t, c => by
    simp only [reserveTab, List.length_nil]
    rw [if_neg (fun h => Nat.not_lt_zero _ h.2.1)]
  | c0 :: rest, t0, res, t, c => by
    simp only [reserveTab]
    rw [reserveTab_eq aid rest (t0 + 1) _ t c]
    show (if t0 + 1 ≤ t ∧ t - (t0 + 1) < rest.length ∧ rest.getD (t - (t0 + 1)) (0, 0) = c
        then aid else if t = t0 ∧ c = c0 then aid else res t c) =
      if t0 ≤ t ∧ t - t0 < (c0 :: rest).length ∧ (c0 :: rest).getD (t - t0) (0, 0) = c
        then aid else res t c
    rcases Nat.lt_trichotomy t t0 with hlt | heq | hgt
    · rw [if_neg (fun h => absurd h.1 (by omega)), if_neg (fun h => absurd h.1 (by omega)),
        if_neg (fun h => absurd h.1 (by omega))]
    · subst heq
      have h0 : t - t = 0 := Nat.sub_self t
      rw [if_neg (fun h => absurd h.1 (by omega))]
      by_cases hc : c = c0
      · rw [if_pos ⟨rfl, hc⟩, if_pos ⟨Nat.le_refl t, by rw [h0]; exact Nat.succ_pos _,
          by rw [h0, List.getD_cons_zero]; exact hc.symm⟩]
      · rw [if_neg (fun h => hc h.2),
          if_neg (fun h => hc (by rw [h0, List.getD_cons_zero] at h; exact h.2.2.symm))]
    · have ht : t - t0 = (t - (t0 + 1)) + 1 := by omega
      have hne : ¬(t = t0 ∧ c = c0) := fun h => absurd h.1 (by omega)
      rw [ht, List.getD_cons_succ]
      by_cases h2 : t - (t0 + 1) < rest.length
      · by_cases h3 : rest.getD (t - (t0 + 1)) (0, 0) = c
        · rw [if_pos ⟨by omega, h2, h3⟩, if_pos ⟨by omega, by simpa using h2, h3⟩]
        · rw [if_neg (fun h => h3 h.2.2), if_neg hne, if_neg (fun h => h3 h.2.2)]
      · rw [if_neg (fun h => h2 h.2.1), if_neg hne,
          if_neg (fun h => h2 (by simpa using h.2.1))]

theorem unreserveTab_eq (aid nil : Nat) : ∀ (cp : List Coord) (t0 : Nat)
    (res : Nat → Coord → Nat) (t : Nat) (c : Coord),
    unreserveTab aid nil t0 cp res t c =
      if t0 ≤ t ∧ t - t0 < cp.length ∧ cp.getD (t - t0) (0, 0) = c ∧ res t c = aid
      then nil else res t c
  | [], t0, res, t, c => by
    simp only [unreserveTab, List.length_nil]
    rw [if_neg (fun h => Nat.not_lt_zero _ h.2.1)]
  | c0 :: rest, t0, res, t, c => by
    simp only [unreserveTab]
    rw [unreserveTab_eq aid nil rest (t0 + 1) _ t c]
    show (if t0 + 1 ≤ t ∧ t - (t0 + 1) < rest.length ∧ rest.getD (t - (t0 + 1)) (0, 0) = c ∧
          (if t = t0 ∧ c = c0 ∧ res t0 c0 = aid then nil else res t c) = aid
        then nil else if t = t0 ∧ c = c0 ∧ res t0 c0 = aid then nil else res t c) =
      if t0 ≤ t ∧ t - t0 < (c0 :: rest).length ∧ (c0 :: rest).getD (t - t0) (0, 0) = c ∧
          res t c = aid
      then nil else res t c
    rcases Nat.lt_trichotomy t t0 with hlt | heq | hgt
    · rw [if_neg (fun h => absurd h.1 (by omega)), if_neg (fun h => absurd h.1 (by omega)),
        if_neg (fun h => absurd h.1 (by omega))]
    · subst heq
      have h0 : t - t = 0 := Nat.sub_self t
      rw [if_neg (fun h => absurd h.1 (by omega))]
      by_cases hc : c = c0
      · subst hc
        by_cases hr : res t c = aid
        · rw [if_pos ⟨rfl, rfl, hr⟩, if_pos ⟨Nat.le_refl t, by rw [h0]; exact Nat.succ_pos _,
            by rw [h0, List.getD_cons_zero], hr⟩]
        · rw [if_neg (fun h => hr h.2.2), if_neg (fun h => hr h.2.2.2)]
      · rw [if_neg (fun h => hc h.2.1),
          if_neg (fun h => hc (by rw [h0, List.getD_cons_zero] at h; exact h.2.2.1.symm))]
    · have ht : t - t0 = (t - (t0 + 1)) + 1 := by omega
      have hne : ¬(t = t0 ∧ c = c0 ∧ res t0 c0 = aid) := fun h => absurd h.1 (by omega)
      rw [ht, List.getD_cons_succ, if_neg hne]
      by_cases h2 : t - (t0 + 1) < rest.length
      · by_cases h3 : rest.getD (t - (t0 + 1)) (0, 0) = c
        · by_cases hr : res t c = aid
          · rw [if_pos ⟨by omega, h2, h3, hr⟩, if_pos ⟨by omega, by simpa using h2, h3, hr⟩]
          · rw [if_neg (fun h => hr h.2.2.2), if_neg (fun h => hr h.2.2.2)]
        · rw [if_neg (fun h => h3 h.2.2.1), if_neg (fun h => h3 h.2.2.1)]
      · rw [if_neg (fun h => h2 h.2.1), if_neg (fun h => h2 (by simpa using h.2.1))]

/-! ### Conflict-scan characterization -/

theorem mem_conflictFold_mono (res : Nat → Coord → Nat) (aid nil : Nat) :
    ∀ (rest : List Coord) (t : Nat) (prev : Coord) (acc : List Nat) (j : Nat),
    j ∈ acc → j ∈ conflictFold res aid nil t prev rest acc
  | [], _, _, _, _, h => h
  | c :: rest, t, prev, acc, j, h => by
    simp only [conflictFold]
    apply mem_conflictFold_mono
    by_cases hV : res t c ≠ nil ∧ res t c ≠ aid ∧ res t c ∉ acc
    · rw [if_pos hV]
      have h1 : j ∈ acc ++ [res t c] := List.mem_append_left _ h
      by_cases hE : 0 < t ∧ c ≠ prev
      · rw [if_pos hE]
        split
        · exact List.mem_append_left _ h1
        · exact h1
      · rw [if_neg hE]
        exact h1
    · rw [if_neg hV]
      by_cases hE : 0 < t ∧ c ≠ prev
      · rw [if_pos hE]
        split
        · exact List.mem_append_left _ h
        · exact h
      · rw [if_neg hE]
        exact h

theorem mem_conflictFold_sound (res : Nat → Coord → Nat) (aid nil : Nat) :
    ∀ (rest : List Coord) (t : Nat) (prev : Coord) (acc : List Nat) (j : Nat),
    j ∈ conflictFold res aid nil t prev rest acc →
    j ∈ acc ∨ (j ≠ nil ∧ j ≠ aid ∧ scanHit res j t prev rest)
  | [], _, _, _, _, h => Or.inl h
  | c :: rest, t, prev, acc, j, h => by
    simp only [conflictFold] at h
    rcases mem_conflictFold_sound res aid nil rest (t + 1) c _ j h with h2 | ⟨hn, ha, hs⟩
    · by_cases hV : res t c ≠ nil ∧ res t c ≠ aid ∧ res t c ∉ acc
      · rw [if_pos hV] at h2
        have hacc1 : j ∈ acc ++ [res t c] →
            j ∈ acc ∨ (j ≠ nil ∧ j ≠ aid ∧ scanHit res j t prev (c :: rest)) := by
          intro h3
          rcases List.mem_append.mp h3 with h4 | h4
          · exact Or.inl h4
          · have hj : j = res t c := by simpa using h4
            subst hj
            exact Or.inr ⟨hV.1, hV.2.1, Or.inl rfl⟩
        by_cases hE : 0 < t ∧ c ≠ prev
        · rw [if_pos hE] at h2
          split at h2
          · rename_i hEg
            rcases List.mem_append.mp h2 with h3 | h3
            · exact hacc1 h3
            · have hj : j = res (t - 1) c := by simpa using h3
              subst hj
              exact Or.inr ⟨hEg.1, hEg.2.1, Or.inr (Or.inl ⟨hE.1, hE.2, rfl, hEg.2.2.1⟩)⟩
          · exact hacc1 h2
        · rw [if_neg hE] at h2
          exact hacc1 h2
      · rw [if_neg hV] at h2
        by_cases hE : 0 < t ∧ c ≠ prev
        · rw [if_pos hE] at h2
          split at h2
          · rename_i hEg
            rcases List.mem_append.mp h2 with h3 | h3
            · exact Or.inl h3
            · have hj : j = res (t - 1) c := by simpa using h3
              subst hj
              exact Or.inr ⟨hEg.1, hEg.2.1, Or.inr (Or.inl ⟨hE.1, hE.2, rfl, hEg.2.2.1⟩)⟩
          · exact Or.inl h2
        · rw [if_neg hE] at h2
          exact Or.inl h2
    · exact Or.inr ⟨hn, ha, Or.inr (Or.inr hs)⟩

theorem mem_conflictFold_complete (res : Nat → Coord → Nat) (aid nil : Nat) :
    ∀ (rest : List Coord) (t : Nat) (prev : Coord) (acc : List Nat) (j : Nat),
    j ≠ nil → j ≠ aid → scanHit res j t prev rest →
    j ∈ conflictFold res aid nil t prev rest acc
  | [], _, _, _, _, _, _, hs => hs.elim
  | c :: rest, t, prev, acc, j, hn, ha, hs => by
    simp only [conflictFold]
    rcases (show res t c = j ∨
        (0 < t ∧ c ≠ prev ∧ res (t - 1) c = j ∧ res t prev = j) ∨
        scanHit res j (t + 1) c rest from hs) with h1 | h2 | h3
    · apply mem_conflictFold_mono
      subst h1
      by_cases hV : res t c ≠ nil ∧ res t c ≠ aid ∧ res t c ∉ acc
      · rw [if_pos hV]
        have h1m : res t c ∈ acc ++ [res t c] :=
          List.mem_append_right _ (List.mem_singleton_self _)
        by_cases hE : 0 < t ∧ c ≠ prev
        · rw [if_pos hE]
          split
          · exact List.mem_append_left _ h1m
          · exact h1m
        · rw [if_neg hE]
          exact h1m
      · rw [if_neg hV]
        have h1m : res t c ∈ acc := not_not.mp (fun hc => hV ⟨hn, ha, hc⟩)
        by_cases hE : 0 < t ∧ c ≠ prev
        · rw [if_pos hE]
          split
          · exact List.mem_append_left _ h1m
          · exact h1m
        · rw [if_neg hE]
          exact h1m
    · apply mem_conflictFold_mono
      obtain ⟨h0, hcp, he1, he2⟩ := h2
      subst he1
      by_cases hV : res t c ≠ nil ∧ res t c ≠ aid ∧ res t c ∉ acc
      · rw [if_pos hV, if_pos ⟨h0, hcp⟩]
        split
        · exact List.mem_append_right _ (List.mem_singleton_self _)
        · rename_i hg
          exact not_not.mp (fun hc => hg ⟨hn, ha, he2, hc⟩)
      · rw [if_neg hV, if_pos ⟨h0, hcp⟩]
        split
        · exact List.mem_append_right _ (List.mem_singleton_self _)
        · rename_i hg
          exact not_not.mp (fun hc => hg ⟨hn, ha, he2, hc⟩)
    · exact mem_conflictFold_complete res aid nil rest (t + 1) c _ j hn ha h3

theorem mem_get_conflicts (aid : Nat) (cp : List Coord) (s : PState) (j : Nat) :
    j ∈ _get_conflicts aid cp s ↔
      j ≠ s.N ∧ j ≠ aid ∧ ConflictsWith s.reserved j cp := by
  cases cp with
  | nil => simp [_get_conflicts, ConflictsWith]
  | cons c rest =>
    simp only [_get_conflicts]
    constructor
    · intro h
      rcases mem_conflictFold_sound _ _ _ rest 1 c _ j h with h1 | ⟨hn, ha, hs⟩
      · split at h1
        · rename_i hg
          have hj : j = s.reserved 0 c := by simpa using h1
          subst hj
          exact ⟨hg.1, hg.2, Or.inl rfl⟩
        · exact absurd h1 (List.not_mem_nil j)
      · exact ⟨hn, ha, Or.inr hs⟩
    · rintro ⟨hn, ha, hc⟩
      rcases (show s.reserved 0 c = j ∨ scanHit s.reserved j 1 c rest from hc) with h1 | h2
      · apply mem_conflictFold_mono
        subst h1
        rw [if_pos ⟨hn, ha⟩]
        exact List.mem_singleton_self _
      · exact mem_conflictFold_complete _ _ _ rest 1 c _ j hn ha h2

theorem scanHit_of_vertex (res : Nat → Coord → Nat) (j : Nat) :
    ∀ (rest : List Coord) (t : Nat) (prev : Coord) (i : Nat), i < rest.length →
    res (t + i) (rest.getD i (0, 0)) = j → scanHit res j t prev rest
  | [], _, _, i, hi, _ => absurd hi (Nat.not_lt_zero i)
  | c :: rest, t, prev, i, hi, hr => by
    cases i with
    | zero => exact Or.inl (by simpa using hr)
    | succ i =>
      refine Or.inr (Or.inr (scanHit_of_vertex res j rest (t + 1) c i (by simpa using hi) ?_))
      have harith : t + 1 + i = t + (i + 1) := by omega
      rw [harith]
      simpa using hr

theorem scanHit_of_edge (res : Nat → Coord → Nat) (j : Nat) :
    ∀ (rest : List Coord) (t : Nat) (prev : Coord) (i : Nat), i < rest.length → 0 < t + i →
    rest.getD i (0, 0) ≠ (prev :: rest).getD i (0, 0) →
    res (t + i - 1) (rest.getD i (0, 0)) = j →
    res (t + i) ((prev :: rest).getD i (0, 0)) = j →
    scanHit res j t prev rest
  | [], _, _, i, hi, _, _, _, _ => absurd hi (Nat.not_lt_zero i)
  | c :: rest, t, prev, i, hi, h0, hne, h1, h2 => by
    cases i with
    | zero =>
      refine Or.inr (Or.inl ⟨by simpa using h0, by simpa using hne, ?_, ?_⟩)
      · simpa using h1
      · simpa using h2
    | succ i =>
      refine Or.inr (Or.inr (scanHit_of_edge res j rest (t + 1) c i (by simpa using hi)
        (by omega) (by simpa using hne) ?_ ?_))
      · have harith : t + 1 + i - 1 = t + (i + 1) - 1 := by omega
        rw [harith]
        simpa using h1
      · have harith : t + 1 + i = t + (i + 1) := by omega
        rw [harith]
        simpa using h2

theorem conflictsWith_vertex (res : Nat → Coord → Nat) (j : Nat) (cp : List Coord) (t : Nat)
    (ht : t < cp.length) (hr : res t (cp.getD t (0, 0)) = j) : ConflictsWith res j cp := by
  cases cp with
  | nil => exact absurd ht (Nat.not_lt_zero t)
  | cons c rest =>
    cases t with
    | zero => exact Or.inl (by simpa using hr)
    | succ t =>
      refine Or.inr (scanHit_of_vertex res j rest 1 c t (by simpa using ht) ?_)
      have harith : 1 + t = t + 1 := by omega
      rw [harith]
      simpa using hr

theorem conflictsWith_edge (res : Nat → Coord → Nat) (j : Nat) (cp : List Coord) (t : Nat)
    (h0 : 0 < t) (ht : t < cp.length)
    (hne : cp.getD t (0, 0) ≠ cp.getD (t - 1) (0, 0))
    (h1 : res (t - 1) (cp.getD t (0, 0)) = j)
    (h2 : res t (cp.getD (t - 1) (0, 0)) = j) : ConflictsWith res j cp := by
  cases cp with
  | nil => exact absurd ht (Nat.not_lt_zero t)
  | cons c rest =>
    cases t with
    | zero => exact absurd h0 (Nat.lt_irrefl 0)
    | succ t =>
      refine Or.inr (scanHit_of_edge res j rest 1 c t (by simpa using ht) (by omega) ?_ ?_ ?_)
      · simpa using hne
      · have harith : 1 + t - 1 = t + 1 - 1 := by omega
        rw [harith]
        simpa using h1
      · have harith : 1 + t = t + 1 := by omega
        rw [harith]
        simpa using h2

theorem scanHit_owner (res : Nat → Coord → Nat) (j : Nat) :
    ∀ (rest : List Coord) (t : Nat) (prev : Coord),
    scanHit res j t prev rest → ∃ t' c', res t' c' = j
  | [], _, _, hs => hs.elim
  | c :: rest, t, prev, hs => by
    rcases (show res t c = j ∨
        (0 < t ∧ c ≠ prev ∧ res (t - 1) c = j ∧ res t prev = j) ∨
        scanHit res j (t + 1) c rest from hs) with h1 | h2 | h3
    · exact ⟨t, c, h1⟩
    · exact ⟨t - 1, c, h2.2.2.1⟩
    · exact scanHit_owner res j rest (t + 1) c h3

theorem conflictsWith_owner (res : Nat → Coord → Nat) (j : Nat) (cp : List Coord)
    (h : ConflictsWith res j cp) : ∃ t c, res t c = j := by
  cases cp with
  | nil => exact h.elim
  | cons c rest =>
    rcases (show res 0 c = j ∨ scanHit res j 1 c rest from h) with h1 | h2
    · exact ⟨0, c, h1⟩
    · exact scanHit_owner res j rest 1 c h2

theorem compat_of_not_conflict (s : PState) (A : Nat → Prop) (hC : CleanExc s A)
    (k m : Nat) (cp : List Coord) (hm : m < s.N) (hmA : ¬ A m) (hmk : m ≠ k)
    (hnc : m ∉ _get_conflicts k cp s) : Compat cp (pathOf s m) := by
  obtain ⟨hOwn, hFR, hCp, hSl⟩ := hC
  have hFRm := hFR m hm hmA
  have hnc' : ¬ ConflictsWith s.reserved m cp := fun hc =>
    hnc ((mem_get_conflicts k cp s m).mpr ⟨by omega, hmk, hc⟩)
  constructor
  · intro t h1 h2 he
    exact hnc' (conflictsWith_vertex _ _ cp t h1 (by rw [he]; exact hFRm t h2))
  · intro t h1 h0 h2 hpair
    obtain ⟨e1, e2⟩ := hpair
    by_cases hsame : cp.getD t (0, 0) = cp.getD (t - 1) (0, 0)
    · apply hnc'
      apply conflictsWith_vertex _ _ cp t h1
      have he : cp.getD t (0, 0) = (pathOf s m).getD t (0, 0) := by
        calc cp.getD t (0, 0) = cp.getD (t - 1) (0, 0) := hsame
          _ = (pathOf s m).getD t (0, 0) := e2
      rw [he]
      exact hFRm t h2
    · apply hnc'
      apply conflictsWith_edge _ _ cp t h0 h1 hsame
      · rw [e1]
        exact hFRm (t - 1) (by omega)
      · rw [e2]
        exact hFRm t h2

/-! ### Reservation-invariant transition lemmas -/

theorem reserve_reserved (aid : Nat) (cp : List Coord) (s : PState) (t : Nat) (c : Coord) :
    (_reserve_path aid cp s).reserved t c =
      if t < cp.length ∧ cp.getD t (0, 0) = c then aid else s.reserved t c := by
  show reserveTab aid 0 cp s.reserved t c = _
  rw [reserveTab_eq, Nat.sub_zero]
  by_cases h : t < cp.length ∧ cp.getD t (0, 0) = c
  · rw [if_pos ⟨Nat.zero_le t, h.1, h.2⟩, if_pos h]
  · rw [if_neg (fun hx => h ⟨hx.2.1, hx.2.2⟩), if_neg h]

theorem unreserve_reserved (aid : Nat) (cp : List Coord) (s : PState) (t : Nat) (c : Coord) :
    (_unreserve_path aid cp s).reserved t c =
      if t < cp.length ∧ cp.getD t (0, 0) = c ∧ s.reserved t c = aid
      then s.N else s.reserved t c := by
  show unreserveTab aid s.N 0 cp s.reserved t c = _
  rw [unreserveTab_eq, Nat.sub_zero]
  by_cases h : t < cp.length ∧ cp.getD t (0, 0) = c ∧ s.reserved t c = aid
  · rw [if_pos ⟨Nat.zero_le t, h.1, h.2.1, h.2.2⟩, if_pos h]
  · rw [if_neg (fun hx => h ⟨hx.2.1, hx.2.2.1, hx.2.2.2⟩), if_neg h]

theorem cleanExc_congr {s : PState} {A B : Nat → Prop} (hAB : ∀ j, A j ↔ B j)
    (h : CleanExc s A) : CleanExc s B := by
  obtain ⟨h1, h2, h3, h4⟩ := h
  refine ⟨?_, ?_, ?_, ?_⟩
  · intro t c hne
    obtain ⟨g1, g2, g3, g4⟩ := h1 t c hne
    exact ⟨g1, fun hb => g2 ((hAB _).mpr hb), g3, g4⟩
  · intro j hj hb
    exact h2 j hj (fun ha => hb ((hAB j).mp ha))
  · intro i j hi hj hbi hbj hij
    exact h3 i j hi hj (fun ha => hbi ((hAB i).mp ha)) (fun ha => hbj ((hAB j).mp ha)) hij
  · intro j hj hb
    exact h4 j hj (fun ha => hb ((hAB j).mp ha))

theorem unreserve_activate (s : PState) (A : Nat → Prop) (l : Nat)
    (hC : CleanExc s A) (hl : l < s.N) (hlA : ¬ A l) :
    CleanExc (_unreserve_path l (pathOf s l) s) (fun j => A j ∨ j = l) ∧
    NotOwner (_unreserve_path l (pathOf s l) s) l := by
  obtain ⟨h1, h2, h3, h4⟩ := hC
  have hFRl := h2 l hl hlA
  have hjl : ∀ t c, s.reserved t c = l →
      t < (pathOf s l).length ∧ (pathOf s l).getD t (0, 0) = c ∧ s.reserved t c = l := by
    intro t c he
    obtain ⟨-, -, g3, g4⟩ := h1 t c (by rw [he]; omega)
    rw [he] at g3 g4
    exact ⟨g3, g4, he⟩
  have hnotl : NotOwner (_unreserve_path l (pathOf s l) s) l := by
    intro t c
    rw [unreserve_reserved]
    split
    · omega
    · rename_i hg
      exact fun he => hg (hjl t c he)
  refine ⟨⟨?_, ?_, ?_, ?_⟩, hnotl⟩
  · intro t c hne
    by_cases hg : t < (pathOf s l).length ∧ (pathOf s l).getD t (0, 0) = c ∧
        s.reserved t c = l
    · rw [unreserve_reserved, if_pos hg] at hne
      exact absurd rfl hne
    · rw [unreserve_reserved, if_neg hg] at hne
      obtain ⟨g1, g2, g3, g4⟩ := h1 t c hne
      rw [unreserve_reserved, if_neg hg]
      refine ⟨g1, ?_, g3, g4⟩
      rintro (ha | he)
      · exact g2 ha
      · exact hg (hjl t c he)
  · intro j hj hB
    have hjl' : j ≠ l := fun he => hB (Or.inr he)
    have hjA : ¬ A j := fun ha => hB (Or.inl ha)
    intro t ht
    have hpeq : pathOf (_unreserve_path l (pathOf s l) s) j = pathOf s j := rfl
    rw [hpeq] at ht ⊢
    rw [unreserve_reserved]
    rw [if_neg]
    · exact h2 j hj hjA t ht
    · intro hg
      rw [h2 j hj hjA t ht] at hg
      exact hjl' hg.2.2
  · intro i j hi hj hBi hBj hij
    exact h3 i j hi hj (fun ha => hBi (Or.inl ha)) (fun ha => hBj (Or.inl ha)) hij
  · intro j hj hB
    exact h4 j hj (fun ha => hB (Or.inl ha))

theorem reserve_commit (s : PState) (A : Nat → Prop) (k : Nat)
    (hC : CleanExc s A) (hkN : k < s.N)
    (hNO : NotOwner s k)
    (hfree : ∀ t, t < (pathOf s k).length →
      s.reserved t ((pathOf s k).getD t (0, 0)) = s.N)
    (hedge : ∀ j, j < s.N → ¬ A j → j ≠ k → Compat (pathOf s k) (pathOf s j))
    (hslot : ConsistentSlot s k) (hlen : (opOf s k).length = s.op_len) :
    CleanExc (_reserve_path k (pathOf s k) s) (fun j => A j ∧ j ≠ k) := by
  obtain ⟨h1, h2, h3, h4⟩ := hC
  refine ⟨?_, ?_, ?_, ?_⟩
  · intro t c hne
    by_cases hg : t < (pathOf s k).length ∧ (pathOf s k).getD t (0, 0) = c
    · rw [reserve_reserved, if_pos hg]
      exact ⟨hkN, fun h => h.2 rfl, hg.1, hg.2⟩
    · rw [reserve_reserved, if_neg hg] at hne
      obtain ⟨g1, g2, g3, g4⟩ := h1 t c hne
      rw [reserve_reserved, if_neg hg]
      exact ⟨g1, fun h => g2 h.1, g3, g4⟩
  · intro j hj hB
    by_cases hjk : j = k
    · subst hjk
      intro t ht
      rw [reserve_reserved, if_pos ⟨ht, rfl⟩]
    · have hjA : ¬ A j := fun ha => hB ⟨ha, hjk⟩
      intro t ht
      rw [reserve_reserved, if_neg]
      · exact h2 j hj hjA t ht
      · intro hg
        exact (hedge j hj hjA hjk).1 t hg.1 ht hg.2
  · intro i j hi hj hBi hBj hij
    by_cases hik : i = k
    · have hjk : j ≠ k := fun he => hij (hik.trans he.symm)
      rw [hik]
      exact hedge j hj (fun ha => hBj ⟨ha, hjk⟩) hjk
    · by_cases hjk : j = k
      · rw [hjk]
        exact compat_symm (hedge i hi (fun ha => hBi ⟨ha, hik⟩) hik)
      · exact h3 i j hi hj (fun ha => hBi ⟨ha, hik⟩) (fun ha => hBj ⟨ha, hjk⟩) hij
  · intro j hj hB
    by_cases hjk : j = k
    · rw [hjk]
      exact ⟨hslot, hlen⟩
    · exact h4 j hj (fun ha => hB ⟨ha, hjk⟩)

theorem free_of_conflicts (s : PState) (k : Nat) (hNO : NotOwner s k) (cp : List Coord)
    (hconf : ∀ j, j ∈ _get_conflicts k cp s → False) :
    ∀ t, t < cp.length → s.reserved t (cp.getD t (0, 0)) = s.N := by
  intro t ht
  by_contra hne
  exact hconf _ ((mem_get_conflicts k cp s _).mpr
    ⟨hne, fun he => hNO t _ he, conflictsWith_vertex _ _ cp t ht rfl⟩)

theorem owner_of_conflict (s : PState) (k : Nat) (hNO : NotOwner s k) (cp : List Coord)
    (l : Nat) (hconf : ∀ j, j ∈ _get_conflicts k cp s → j = l) :
    ∀ t, t < cp.length →
      s.reserved t (cp.getD t (0, 0)) = s.N ∨ s.reserved t (cp.getD t (0, 0)) = l := by
  intro t ht
  by_cases hne : s.reserved t (cp.getD t (0, 0)) = s.N
  · exact Or.inl hne
  · exact Or.inr (hconf _ ((mem_get_conflicts k cp s _).mpr
      ⟨hne, fun he => hNO t _ he, conflictsWith_vertex _ _ cp t ht rfl⟩))

theorem conflict_member (s : PState) (A : Nat → Prop) (hC : CleanExc s A) (k : Nat)
    (cp : List Coord) (l : Nat) (hl : l ∈ _get_conflicts k cp s) :
    l < s.N ∧ ¬ A l ∧ l ≠ k := by
  obtain ⟨hn, hk, hc⟩ := (mem_get_conflicts k cp s l).mp hl
  obtain ⟨t, c, ho⟩ := conflictsWith_owner _ _ _ hc
  obtain ⟨g1, g2, -, -⟩ := hC.1 t c (by rw [ho]; exact hn)
  rw [ho] at g1 g2
  exact ⟨g1, g2, hk⟩

/-! ### Candidate soundness -/

theorem mem_insertAscByW (x : Cand) : ∀ (l : List Cand) (y : Cand),
    y ∈ insertAscByW x l → y = x ∨ y ∈ l
  | [], y, h => Or.inl (by simpa [insertAscByW] using h)
  | z :: zs, y, h => by
    simp only [insertAscByW] at h
    split at h
    · rcases List.mem_cons.mp h with h | h
      · exact Or.inl h
      · exact Or.inr h
    · rcases List.mem_cons.mp h with h | h
      · exact Or.inr (by simp [h])
      · rcases mem_insertAscByW x zs y h with h2 | h2
        · exact Or.inl h2
        · exact Or.inr (List.mem_cons_of_mem _ h2)

theorem mem_sortAscByW : ∀ (l : List Cand) (y : Cand), y ∈ sortAscByW l → y ∈ l
  | [], y, h => h
  | x :: xs, y, h => by
    rcases mem_insertAscByW x (sortAscByW xs) y h with h2 | h2
    · exact h2 ▸ List.mem_cons_self x xs
    · exact List.mem_cons_of_mem _ (mem_sortAscByW xs y h2)

theorem mem_dedupInsert (e : Cand) : ∀ (l : List Cand) (y : Cand),
    y ∈ dedupInsert e l → y = e ∨ y ∈ l
  | [], y, h => Or.inl (by simpa [dedupInsert] using h)
  | f :: fs, y, h => by
    simp only [dedupInsert] at h
    split at h
    · split at h
      · rcases List.mem_cons.mp h with h | h
        · exact Or.inl h
        · exact Or.inr (List.mem_cons_of_mem _ h)
      · rcases List.mem_cons.mp h with h | h
        · exact Or.inr (by simp [h])
        · exact Or.inr (List.mem_cons_of_mem _ h)
    · rcases List.mem_cons.mp h with h | h
      · exact Or.inr (by simp [h])
      · rcases mem_dedupInsert e fs y h with h2 | h2
        · exact Or.inl h2
        · exact Or.inr (List.mem_cons_of_mem _ h2)

theorem mem_dedupFold : ∀ (raw : List Cand) (acc : List Cand) (y : Cand),
    y ∈ raw.foldl (fun acc e => dedupInsert e acc) acc → y ∈ acc ∨ y ∈ raw
  | [], acc, y, h => Or.inl h
  | e :: raw, acc, y, h => by
    rcases mem_dedupFold raw (dedupInsert e acc) y h with h2 | h2
    · rcases mem_dedupInsert e acc y h2 with h3 | h3
      · exact Or.inr (by simp [h3])
      · exact Or.inl h3
    · exact Or.inr (List.mem_cons_of_mem _ h2)

theorem mem_dedupByPath (raw : List Cand) (y : Cand) (h : y ∈ dedupByPath raw) :
    y ∈ raw := by
  rcases mem_dedupFold raw [] y h with h2 | h2
  · exact absurd h2 (List.not_mem_nil y)
  · exact h2

theorem mem_collectRaw (g : Grid) (coord : Coord) (ori : Int) (alpha : Nat) :
    ∀ (ops : List Operation) (dt : DistTable) (raw : List Cand) (x : Cand),
    x ∈ (collectRaw g coord ori alpha ops dt raw).1 →
    x ∈ raw ∨ (x.op ∈ ops ∧ _compute_cell_path g coord ori x.op = some (x.path, x.ori))
  | [], dt, raw, x, h => Or.inl h
  | op :: ops, dt, raw, x, h => by
    simp only [collectRaw] at h
    rcases hcomp : _compute_cell_path g coord ori op with _ | r
    · rw [hcomp] at h
      rcases mem_collectRaw g coord ori alpha ops dt raw x h with h2 | ⟨h2, h3⟩
      · exact Or.inl h2
      · exact Or.inr ⟨List.mem_cons_of_mem _ h2, h3⟩
    · rw [hcomp] at h
      simp only at h
      split at h
      · rcases mem_collectRaw g coord ori alpha ops _ raw x h with h2 | ⟨h2, h3⟩
        · exact Or.inl h2
        · exact Or.inr ⟨List.mem_cons_of_mem _ h2, h3⟩
      · rcases mem_collectRaw g coord ori alpha ops _ _ x h with h2 | ⟨h2, h3⟩
        · rcases List.mem_append.mp h2 with h4 | h4
          · exact Or.inl h4
          · rw [List.mem_singleton] at h4
            subst h4
            exact Or.inr ⟨List.mem_cons_self _ _, by rw [hcomp]⟩
        · exact Or.inr ⟨List.mem_cons_of_mem _ h2, h3⟩

theorem mem_allActionTuples_length : ∀ (n : Nat) (op : Operation),
    op ∈ allActionTuples n → op.length = n
  | 0, op, h => by
    simp only [allActionTuples, List.mem_singleton] at h
    simp [h]
  | n + 1, op, h => by
    simp only [allActionTuples, List.mem_flatMap, List.mem_map] at h
    obtain ⟨a, -, t, ht, rfl⟩ := h
    simp [mem_allActionTuples_length n t ht]

theorem mem_generate_length (L : Nat) (op : Operation)
    (h : op ∈ _generate_operations L) : op.length = L :=
  mem_allActionTuples_length L op (List.mem_filter.mp h).1

theorem aux_length (g : Grid) : ∀ (ops : List Action) (c : Coord) (o : Int)
    (p : List Coord) (fo : Int),
    computeCellPathAux g c o ops = some (p, fo) → p.length = ops.length
  | [], c, o, p, fo, h => by
    simp only [computeCellPathAux] at h
    injection h with h2
    rw [Prod.mk.injEq] at h2
    rw [← h2.1]
    rfl
  | a :: rest, c, o, p, fo, h => by
    cases a with
    | F =>
      simp only [computeCellPathAux] at h
      split at h
      · rcases Option.map_eq_some'.mp h with ⟨r, hr, he⟩
        have := aux_length g rest _ _ r.1 r.2 (by rw [hr])
        injection he with he1 he2
        rw [← he1]
        simp [this]
      · exact absurd h (by simp)
    | R =>
      simp only [computeCellPathAux] at h
      rcases Option.map_eq_some'.mp h with ⟨r, hr, he⟩
      have := aux_length g rest _ _ r.1 r.2 (by rw [hr])
      injection he with he1 he2
      rw [← he1]
      simp [this]
    | C =>
      simp only [computeCellPathAux] at h
      rcases Option.map_eq_some'.mp h with ⟨r, hr, he⟩
      have := aux_length g rest _ _ r.1 r.2 (by rw [hr])
      injection he with he1 he2
      rw [← he1]
      simp [this]
    | W =>
      simp only [computeCellPathAux] at h
      rcases Option.map_eq_some'.mp h with ⟨r, hr, he⟩
      have := aux_length g rest _ _ r.1 r.2 (by rw [hr])
      injection he with he1 he2
      rw [← he1]
      simp [this]

theorem cellpath_length (g : Grid) (c : Coord) (o : Int) (op : Operation)
    (cp : List Coord) (fo : Int) (h : _compute_cell_path g c o op = some (cp, fo)) :
    cp.length = op.length + 1 := by
  simp only [_compute_cell_path] at h
  rcases Option.map_eq_some'.mp h with ⟨r, hr, he⟩
  injection he with he1 he2
  rw [← he1]
  simp [aux_length g op c o r.1 r.2 (by rw [hr])]

theorem cellpath_head (g : Grid) (c : Coord) (o : Int) (op : Operation)
    (cp : List Coord) (fo : Int) (h : _compute_cell_path g c o op = some (cp, fo)) :
    cp.getD 0 (0, 0) = c := by
  simp only [_compute_cell_path] at h
  rcases Option.map_eq_some'.mp h with ⟨r, hr, he⟩
  injection he with he1 he2
  rw [← he1]
  rfl

theorem cands_sound (oracle : ShuffleOracle) (hO : OracleSub oracle) (aid : Nat)
    (coord : Coord) (ori : Int) (s : PState)
    (hops : s.all_operations = _generate_operations s.op_len)
    (op : Operation) (cp : List Coord) (fo : Int)
    (hmem : (op, cp, fo) ∈ (_get_sorted_candidates oracle aid coord ori s).1) :
    op.length = s.op_len ∧ _compute_cell_path s.grid coord ori op = some (cp, fo) := by
  simp only [_get_sorted_candidates] at hmem
  rw [List.mem_map] at hmem
  obtain ⟨cand, hcand, heq⟩ := hmem
  have h1 := mem_sortAscByW _ _ hcand
  have h2 := hO _ _ _ h1
  have h3 := mem_dedupByPath _ _ h2
  rcases mem_collectRaw s.grid coord ori (s.grid.size * 10) s.all_operations _ [] cand h3
    with h4 | ⟨hop, hcomp⟩
  · exact absurd h4 (List.not_mem_nil _)
  · injection heq with e1 e2
    injection e2 with e2 e3
    rw [← e1, ← e2, ← e3]
    refine ⟨?_, hcomp⟩
    rw [hops] at hop
    exact mem_generate_length _ _ hop

/-! ### Emission of a consistent slot -/

theorem path_head_eq (s : PState) (i : Nat) (hcs : ConsistentSlot s i) :
    (pathOf s i).getD 0 (0, 0) = s.Q_from.getD i (0, 0) := by
  unfold ConsistentSlot at hcs
  rcases Option.map_eq_some'.mp hcs with ⟨r, hr, he⟩
  rw [← he]
  exact cellpath_head _ _ _ _ _ r.2 (by rw [hr])

theorem path_len_eq (s : PState) (i : Nat) (hcs : ConsistentSlot s i) :
    (pathOf s i).length = (opOf s i).length + 1 := by
  unfold ConsistentSlot at hcs
  rcases Option.map_eq_some'.mp hcs with ⟨r, hr, he⟩
  rw [← he]
  exact cellpath_length _ _ _ _ _ r.2 (by rw [hr])

theorem emitPos_eq (s : PState) (i : Nat) (hcs : ConsistentSlot s i)
    (hlen : 1 ≤ (opOf s i).length) :
    emitPos s i = (pathOf s i).getD 1 (0, 0) := by
  have hcs' := hcs
  unfold ConsistentSlot at hcs'
  rcases Option.map_eq_some'.mp hcs' with ⟨r, hr, he⟩
  simp only [_compute_cell_path] at hr
  rcases Option.map_eq_some'.mp hr with ⟨r2, hr2, he2⟩
  have hpath : pathOf s i = s.Q_from.getD i (0, 0) :: r2.1 := by
    rw [← he, ← he2]
  cases hop : opOf s i with
  | nil =>
    rw [hop] at hlen
    exact absurd hlen (by simp)
  | cons a rest =>
    rw [hop] at hr2
    have hopg : s.agent_ops.getD i [] = a :: rest := hop
    cases a with
    | F =>
      simp only [computeCellPathAux] at hr2
      split at hr2
      · rename_i hvalid
        rcases Option.map_eq_some'.mp hr2 with ⟨r3, hr3, he3⟩
        simp only [emitPos, hopg, List.head?_cons]
        rw [if_pos hvalid, hpath, ← he3]
        simp
      · exact absurd hr2 (by simp)
    | R =>
      simp only [computeCellPathAux] at hr2
      rcases Option.map_eq_some'.mp hr2 with ⟨r3, hr3, he3⟩
      simp only [emitPos, hopg, List.head?_cons]
      rw [hpath, ← he3]
      simp
    | C =>
      simp only [computeCellPathAux] at hr2
      rcases Option.map_eq_some'.mp hr2 with ⟨r3, hr3, he3⟩
      simp only [emitPos, hopg, List.head?_cons]
      rw [hpath, ← he3]
      simp
    | W =>
      simp only [computeCellPathAux] at hr2
      rcases Option.map_eq_some'.mp hr2 with ⟨r3, hr3, he3⟩
      simp only [emitPos, hopg, List.head?_cons]
      rw [hpath, ← he3]
      simp

theorem emit_no_collision (s : PState) (i j : Nat) (hC : CleanExc s (fun _ => False))
    (hi : i < s.N) (hj : j < s.N) (hij : i ≠ j) (hL : 1 ≤ s.op_len) :
    emitPos s i ≠ emitPos s j ∧
    ¬(emitPos s i = s.Q_from.getD j (0, 0) ∧ emitPos s j = s.Q_from.getD i (0, 0)) := by
  obtain ⟨-, -, h3, h4⟩ := hC
  obtain ⟨hcsi, hleni⟩ := h4 i hi (fun f => f)
  obtain ⟨hcsj, hlenj⟩ := h4 j hj (fun f => f)
  have hcompat := h3 i j hi hj (fun f => f) (fun f => f) hij
  have hpi := path_len_eq s i hcsi
  have hpj := path_len_eq s j hcsj
  have hei := emitPos_eq s i hcsi (by rw [hleni]; exact hL)
  have hej := emitPos_eq s j hcsj (by rw [hlenj]; exact hL)
  constructor
  · rw [hei, hej]
    exact hcompat.1 1 (by omega) (by omega)
  · rintro ⟨e1, e2⟩
    rw [hei] at e1
    rw [hej] at e2
    have hhj := path_head_eq s j hcsj
    have hhi := path_head_eq s i hcsi
    exact hcompat.2 1 (by omega) (by omega) (by omega)
      ⟨e1.trans hhj.symm, hhi.trans e2.symm⟩

/-! ### Pointwise transfer of the clean-except-k invariant -/

theorem cleanExc_slotk (s s' : PState) (A : Nat → Prop) (k : Nat) (hAk : A k)
    (hNO : NotOwner s k) (hC : CleanExc s A)
    (hres : ∀ t c, s'.reserved t c = s.reserved t c)
    (hN : s'.N = s.N) (hgrid : s'.grid = s.grid) (hQ : s'.Q_from = s.Q_from)
    (hori : s'.orientations = s.orientations) (hopl : s'.op_len = s.op_len)
    (hslots : ∀ j, j ≠ k → s'.agent_ops.getD j [] = s.agent_ops.getD j [] ∧
      s'.agent_paths.getD j [] = s.agent_paths.getD j []) :
    CleanExc s' A ∧ NotOwner s' k := by
  obtain ⟨h1, h2, h3, h4⟩ := hC
  have hNO' : NotOwner s' k := by
    intro t c
    rw [hres t c]
    exact hNO t c
  refine ⟨⟨?_, ?_, ?_, ?_⟩, hNO'⟩
  · intro t c hne
    rw [hres t c, hN] at hne
    obtain ⟨g1, g2, g3, g4⟩ := h1 t c hne
    have hownk : s.reserved t c ≠ k := fun he => g2 (he.symm ▸ hAk)
    rw [show pathOf s (s.reserved t c) = pathOf s' (s.reserved t c) from
      ((hslots _ hownk).2).symm] at g3 g4
    rw [hres t c, hN]
    exact ⟨g1, g2, g3, g4⟩
  · intro j hj hjA
    rw [hN] at hj
    have hjk : j ≠ k := fun he => hjA (he.symm ▸ hAk)
    have hFR := h2 j hj hjA
    intro t ht
    rw [show pathOf s' j = pathOf s j from (hslots j hjk).2] at ht ⊢
    rw [hres]
    exact hFR t ht
  · intro i j hi hj hBi hBj hij
    rw [hN] at hi hj
    have hik : i ≠ k := fun he => hBi (he.symm ▸ hAk)
    have hjk : j ≠ k := fun he => hBj (he.symm ▸ hAk)
    rw [show pathOf s' i = pathOf s i from (hslots i hik).2,
      show pathOf s' j = pathOf s j from (hslots j hjk).2]
    exact h3 i j hi hj hBi hBj hij
  · intro j hj hjA
    rw [hN] at hj
    have hjk : j ≠ k := fun he => hjA (he.symm ▸ hAk)
    obtain ⟨hcs, hlen⟩ := h4 j hj hjA
    constructor
    · unfold ConsistentSlot at hcs ⊢
      rw [hgrid, hQ, hori,
        show opOf s' j = opOf s j from (hslots j hjk).1,
        show pathOf s' j = pathOf s j from (hslots j hjk).2]
      exact hcs
    · rw [show opOf s' j = opOf s j from (hslots j hjk).1, hopl]
      exact hlen

theorem staticOK_core {s s' : PState} (h : SameCore s s') (hS : StaticOK s) : StaticOK s' := by
  obtain ⟨hg, hst, hgo, hN, hol, hmr, hor, hin, hao, hQ, hpr⟩ := h
  unfold StaticOK at hS ⊢
  rw [hao, hol, hN, hin, hg, hQ, hor]
  exact hS

theorem selPost_compose {k : Nat} {s s5 s' : PState} {b : Bool}
    (hcore : SameCore s s5)
    (hres : ∀ t c, s5.reserved t c = s.reserved t c)
    (hslots : ∀ j, j ≠ k → s5.agent_ops.getD j [] = s.agent_ops.getD j [] ∧
      s5.agent_paths.getD j [] = s.agent_paths.getD j [])
    (hpost : SelPost k s5 b s') : SelPost k s b s' := by
  obtain ⟨hT, hF⟩ := hpost
  refine ⟨hT, fun hb => ?_⟩
  obtain ⟨p1, p2, p3, p4, p5, p6⟩ := hF hb
  obtain ⟨hg, -, -, -, -, -, hor, hin, -, hQ, -⟩ := hcore
  refine ⟨fun t c => (p1 t c).trans (hres t c),
    fun j hj => ⟨((p2 j hj).1).trans (hslots j hj).1, ((p2 j hj).2).trans (hslots j hj).2⟩,
    p3.trans (by rw [hin]), ?_, p5, p6⟩
  rw [← hg, ← hQ, ← hor, ← hin]
  exact p4

/-! ### The tentative push: precondition of the recursive call -/

theorem push_pre (k l : Nat) (op : Operation) (fo : Int) (cp : List Coord) (s : PState)
    (pre : SelPre k s)
    (hconf : _get_conflicts k cp s = [l])
    (hcomp : _compute_cell_path s.grid (s.Q_from.getD k (0, 0)) (s.orientations.getD k 0) op
      = some (cp, fo))
    (hoplen : op.length = s.op_len) :
    l < s.N ∧ ¬(l = k) ∧
    SelPre l (_reserve_path k cp
      { _unreserve_path l (s.agent_paths.getD l []) s with
        agent_ops := (_unreserve_path l (s.agent_paths.getD l []) s).agent_ops.set k op,
        agent_paths :=
          (_unreserve_path l (s.agent_paths.getD l []) s).agent_paths.set k cp }) ∧
    (∀ t, t < cp.length →
      (_unreserve_path l (s.agent_paths.getD l []) s).reserved t (cp.getD t (0, 0)) = s.N) ∧
    (∀ t c, s.reserved t c = l →
      t < (s.agent_paths.getD l []).length ∧ (s.agent_paths.getD l []).getD t (0, 0) = c) ∧
    (∀ t c, (_unreserve_path l (s.agent_paths.getD l []) s).reserved t c =
      if s.reserved t c = l then s.N else s.reserved t c) := by
  obtain ⟨hS, hG, hkN, hNO, hC⟩ := pre
  have hlmem : l ∈ _get_conflicts k cp s := by
    rw [hconf]
    exact List.mem_singleton_self l
  obtain ⟨hlN, hlkne, -⟩ := conflict_member s (fun j => j = k) hC k cp l hlmem
  set s1 : PState := _unreserve_path l (s.agent_paths.getD l []) s with hs1
  set sM : PState := ({ s1 with agent_ops := s1.agent_ops.set k op, agent_paths := s1.agent_paths.set k cp }) with hsM
  set s2 : PState := _reserve_path k cp sM with hs2
  have hGl : ∀ t c, s.reserved t c = l →
      t < (s.agent_paths.getD l []).length ∧ (s.agent_paths.getD l []).getD t (0, 0) = c := by
    intro t c he
    obtain ⟨-, -, g3, g4⟩ := hC.1 t c (by rw [he]; omega)
    rw [he] at g3 g4
    exact ⟨g3, g4⟩
  have hres1 : ∀ t c, s1.reserved t c =
      if s.reserved t c = l then s.N else s.reserved t c := by
    intro t c
    rw [hs1, unreserve_reserved]
    by_cases he : s.reserved t c = l
    · rw [if_pos ⟨(hGl t c he).1, (hGl t c he).2, he⟩, if_pos he]
    · rw [if_neg (fun hg => he hg.2.2), if_neg he]
  have hNO1k : NotOwner s1 k := by
    intro t c
    rw [hres1 t c]
    split
    · omega
    · exact hNO t c
  have howner := owner_of_conflict s k hNO cp l
    (fun j hj => by rw [hconf] at hj; simpa using hj)
  have hfree1 : ∀ t, t < cp.length → s1.reserved t (cp.getD t (0, 0)) = s.N := by
    intro t ht
    rw [hres1]
    by_cases hcase : s.reserved t (cp.getD t (0, 0)) = l
    · rw [if_pos hcase]
    · rw [if_neg hcase]
      rcases howner t ht with he | he
      · exact he
      · exact absurd he hcase
  have hact := unreserve_activate s (fun j => j = k) l hC hlN hlkne
  have hC1 : CleanExc s1 (fun j => j = k ∨ j = l) := hact.1
  have hNO1l : NotOwner s1 l := hact.2
  have hlenO : k < s1.agent_ops.length := by
    show k < s.agent_ops.length
    rw [hG.1]
    exact hkN
  have hlenP : k < s1.agent_paths.length := by
    show k < s.agent_paths.length
    rw [hG.2.1]
    exact hkN
  have hCM : CleanExc sM (fun j => j = k ∨ j = l) ∧ NotOwner sM k := by
    apply cleanExc_slotk s1 sM (fun j => j = k ∨ j = l) k (Or.inl rfl) hNO1k hC1
      (fun t c => rfl) rfl rfl rfl rfl rfl
    intro j hjk
    exact ⟨getD_set_ne _ k j _ _ (fun e => hjk e.symm),
      getD_set_ne _ k j _ _ (fun e => hjk e.symm)⟩
  have hpkM : pathOf sM k = cp := getD_set_self s1.agent_paths k cp [] hlenP
  have hokM : opOf sM k = op := getD_set_self s1.agent_ops k op [] hlenO
  have hfreeM : ∀ t, t < (pathOf sM k).length →
      sM.reserved t ((pathOf sM k).getD t (0, 0)) = sM.N := by
    intro t ht
    rw [hpkM] at ht ⊢
    exact hfree1 t ht
  have hedgeM : ∀ j, j < sM.N → ¬(j = k ∨ j = l) → j ≠ k →
      Compat (pathOf sM k) (pathOf sM j) := by
    intro j hj hB hjk
    rw [hpkM]
    rw [show pathOf sM j = pathOf s j from getD_set_ne _ k j _ _ (fun e => hjk e.symm)]
    exact compat_of_not_conflict s (fun j => j = k) hC k j cp hj (fun e => hB (Or.inl e)) hjk
      (fun hm => hB (Or.inr (by rw [hconf] at hm; simpa using hm)))
  have hslotM : ConsistentSlot sM k := by
    show (_compute_cell_path s.grid (s.Q_from.getD k (0, 0)) (s.orientations.getD k 0)
      (opOf sM k)).map (fun r => r.1) = some (pathOf sM k)
    rw [hokM, hpkM, hcomp]
    rfl
  have hlenM : (opOf sM k).length = sM.op_len := by
    rw [hokM]
    exact hoplen
  have hC2' := reserve_commit sM (fun j => j = k ∨ j = l) k hCM.1 hkN hCM.2 hfreeM hedgeM
    hslotM hlenM
  rw [hpkM] at hC2'
  have hC2 : CleanExc s2 (fun j => j = l) := by
    apply cleanExc_congr ?_ hC2'
    intro j
    constructor
    · rintro ⟨h1 | h1, h2⟩
      · exact absurd h1 h2
      · exact h1
    · rintro rfl
      exact ⟨Or.inr rfl, fun he => hlkne he⟩
  have hNO2l : NotOwner s2 l := by
    intro t c
    rw [hs2, reserve_reserved]
    split
    · exact fun he => hlkne he.symm
    · exact hNO1l t c
  have hcore02 : SameCore s s2 := ⟨rfl, rfl, rfl, rfl, rfl, rfl, rfl, rfl, rfl, rfl, rfl⟩
  have hS2 : StaticOK s2 := staticOK_core hcore02 hS
  have hG2 : GoodLens s2 := by
    refine ⟨?_, ?_, hG.2.2.1, hG.2.2.2⟩
    · show (s1.agent_ops.set k op).length = s.N
      rw [List.length_set]
      exact hG.1
    · show (s1.agent_paths.set k cp).length = s.N
      rw [List.length_set]
      exact hG.2.1
  exact ⟨hlN, hlkne, ⟨hS2, hG2, hlN, hNO2l, hC2⟩, hfree1, hGl, hres1⟩

/-! ### The tentative push: rollback restores everything but k's slot -/

theorem attemptPush_inv (selectRec : Nat → Rat → PState → Option (Bool × PState))
    (k l : Nat) (p : Rat) (op : Operation) (fo : Int) (cp : List Coord)
    (s : PState) (b : Bool) (s' : PState)
    (hrecF : ∀ l' q s₀ r', selectRec l' q s₀ = some r' → FrameRel s₀ r'.2)
    (hrecI : ∀ l' q s₀ b' s₁, selectRec l' q s₀ = some (b', s₁) → SelPre l' s₀ →
      SelPost l' s₀ b' s₁)
    (pre : SelPre k s)
    (hconf : _get_conflicts k cp s = [l])
    (hcomp : _compute_cell_path s.grid (s.Q_from.getD k (0, 0)) (s.orientations.getD k 0) op
      = some (cp, fo))
    (hoplen : op.length = s.op_len)
    (hres : attemptPush selectRec k l p op cp s = some (b, s')) :
    (b = true → CleanExc s' (fun _ => False)) ∧
    (b = false →
      (∀ t c, s'.reserved t c = s.reserved t c) ∧
      (∀ j, j ≠ k → s'.agent_ops.getD j [] = s.agent_ops.getD j [] ∧
        s'.agent_paths.getD j [] = s.agent_paths.getD j []) ∧
      s'.agent_ops.getD k [] = op ∧ s'.agent_paths.getD k [] = cp ∧
      NotOwner s' k ∧ CleanExc s' (fun j => j = k) ∧
      StaticOK s' ∧ GoodLens s' ∧ SameCore s s') := by
  obtain ⟨hlN, hlkne, hpre2, hfree1, hGl, hres1⟩ :=
    push_pre k l op fo cp s pre hconf hcomp hoplen
  obtain ⟨hS, hG, hkN, hNO, hC⟩ := pre
  have hFRl : ∀ t, t < (s.agent_paths.getD l []).length →
      s.reserved t ((s.agent_paths.getD l []).getD t (0, 0)) = l := hC.2.1 l hlN hlkne
  simp only [attemptPush] at hres
  set s1 : PState := _unreserve_path l (s.agent_paths.getD l []) s with hs1
  set sM : PState := ({ s1 with agent_ops := s1.agent_ops.set k op, agent_paths := s1.agent_paths.set k cp }) with hsM
  set s2 : PState := _reserve_path k cp sM with hs2
  split at hres
  · exact absurd hres (by simp)
  · rename_i s3 heq
    obtain ⟨rfl, rfl⟩ : b = true ∧ s3 = s' := by
      constructor <;> · injection hres with h'; cases h'; rfl
    have hpost := hrecI l p s2 _ _ heq hpre2
    exact ⟨fun _ => hpost.1 rfl, fun hb => Bool.noConfusion hb⟩
  · rename_i s3 heq
    have hb : b = false := by injection hres with h'; cases h'; rfl
    subst hb
    have hs' : s' = _reserve_path l (s.agent_paths.getD l [])
        ({ _unreserve_path k cp s3 with
          agent_ops := (_unreserve_path k cp s3).agent_ops.set l (s.agent_ops.getD l []),
          agent_paths :=
            (_unreserve_path k cp s3).agent_paths.set l (s.agent_paths.getD l []) }) := by
      injection hres with h'; cases h'; rfl
    have hfr23 := hrecF l p s2 (false, s3) heq
    obtain ⟨hcore23, holen23, hplen23, hvlen23, hhlen23, -, -⟩ := hfr23
    have hpost := hrecI l p s2 false s3 heq hpre2
    obtain ⟨-, hFP⟩ := hpost
    obtain ⟨q1, q2, -, -, -, -⟩ := hFP rfl
    have hres3N : s3.N = s.N := hcore23.2.2.2.1
    have hres2 : ∀ t c, s2.reserved t c =
        if t < cp.length ∧ cp.getD t (0, 0) = c then k else s1.reserved t c := by
      intro t c
      rw [hs2, reserve_reserved]
    have hres4 : ∀ t c, (_unreserve_path k cp s3).reserved t c = s1.reserved t c := by
      intro t c
      rw [unreserve_reserved]
      by_cases hGk : t < cp.length ∧ cp.getD t (0, 0) = c
      · rw [if_pos ⟨hGk.1, hGk.2, by rw [q1, hres2, if_pos hGk]⟩]
        rw [hres3N, ← hGk.2]
        exact (hfree1 t hGk.1).symm
      · rw [if_neg (fun hg => hGk ⟨hg.1, hg.2.1⟩)]
        rw [q1, hres2, if_neg hGk]
    have hres5 : ∀ t c, s'.reserved t c = s.reserved t c := by
      intro t c
      rw [hs', reserve_reserved]
      by_cases hGl2 : t < (s.agent_paths.getD l []).length ∧
          (s.agent_paths.getD l []).getD t (0, 0) = c
      · rw [if_pos hGl2, ← hGl2.2]
        exact (hFRl t hGl2.1).symm
      · rw [if_neg hGl2]
        show (_unreserve_path k cp s3).reserved t c = s.reserved t c
        rw [hres4, hres1]
        rw [if_neg (fun he => hGl2 ⟨(hGl t c he).1, (hGl t c he).2⟩)]
    have hlen3O : s3.agent_ops.length = s.agent_ops.length := by
      rw [holen23]
      show (s1.agent_ops.set k op).length = s.agent_ops.length
      rw [List.length_set]
      rfl
    have hlen3P : s3.agent_paths.length = s.agent_paths.length := by
      rw [hplen23]
      show (s1.agent_paths.set k cp).length = s.agent_paths.length
      rw [List.length_set]
      rfl
    have hslots5 : ∀ j, j ≠ k → s'.agent_ops.getD j [] = s.agent_ops.getD j [] ∧
        s'.agent_paths.getD j [] = s.agent_paths.getD j [] := by
      intro j hjk
      constructor
      · rw [hs']
        show (s3.agent_ops.set l (s.agent_ops.getD l [])).getD j [] = s.agent_ops.getD j []
        by_cases hjl : j = l
        · rw [hjl]
          exact getD_set_self _ l _ _ (by rw [hlen3O, hG.1]; exact hlN)
        · rw [getD_set_ne _ l j _ _ (fun e => hjl e.symm)]
          rw [(q2 j hjl).1]
          show (s1.agent_ops.set k op).getD j [] = s.agent_ops.getD j []
          rw [getD_set_ne _ k j _ _ (fun e => hjk e.symm)]
          rfl
      · rw [hs']
        show (s3.agent_paths.set l (s.agent_paths.getD l [])).getD j [] =
          s.agent_paths.getD j []
        by_cases hjl : j = l
        · rw [hjl]
          exact getD_set_self _ l _ _ (by rw [hlen3P, hG.2.1]; exact hlN)
        · rw [getD_set_ne _ l j _ _ (fun e => hjl e.symm)]
          rw [(q2 j hjl).2]
          show (s1.agent_paths.set k cp).getD j [] = s.agent_paths.getD j []
          rw [getD_set_ne _ k j _ _ (fun e => hjk e.symm)]
          rfl
    have hops5k : s'.agent_ops.getD k [] = op := by
      rw [hs']
      show (s3.agent_ops.set l (s.agent_ops.getD l [])).getD k [] = op
      rw [getD_set_ne _ l k _ _ (fun e => hlkne e)]
      rw [(q2 k (fun e => hlkne e.symm)).1]
      show (s1.agent_ops.set k op).getD k [] = op
      exact getD_set_self _ k _ _ (by show k < s.agent_ops.length; rw [hG.1]; exact hkN)
    have hpaths5k : s'.agent_paths.getD k [] = cp := by
      rw [hs']
      show (s3.agent_paths.set l (s.agent_paths.getD l [])).getD k [] = cp
      rw [getD_set_ne _ l k _ _ (fun e => hlkne e)]
      rw [(q2 k (fun e => hlkne e.symm)).2]
      show (s1.agent_paths.set k cp).getD k [] = cp
      exact getD_set_self _ k _ _ (by show k < s.agent_paths.length; rw [hG.2.1]; exact hkN)
    have hNO5 : NotOwner s' k := by
      intro t c
      rw [hres5 t c]
      exact hNO t c
    have hcore05 : SameCore s s' := by
      rw [hs']
      exact sameCore_trans (sameCore_trans
        (⟨rfl, rfl, rfl, rfl, rfl, rfl, rfl, rfl, rfl, rfl, rfl⟩ : SameCore s s2) hcore23)
        ⟨rfl, rfl, rfl, rfl, rfl, rfl, rfl, rfl, rfl, rfl, rfl⟩
    obtain ⟨hg5, hst5, hgo5, hN5, hopl5, hmr5, hor5, hin5, hao5, hQ5, hpr5⟩ := hcore05
    have hcore05' : SameCore s s' :=
      ⟨hg5, hst5, hgo5, hN5, hopl5, hmr5, hor5, hin5, hao5, hQ5, hpr5⟩
    have hCE := cleanExc_slotk s s' (fun j => j = k) k rfl hNO hC hres5 hN5 hg5 hQ5 hor5
      hopl5 hslots5
    have hG5 : GoodLens s' := by
      refine ⟨?_, ?_, ?_, ?_⟩
      · rw [hs']
        show (s3.agent_ops.set l (s.agent_ops.getD l [])).length = s3.N
        rw [List.length_set, hlen3O, hG.1, hres3N]
      · rw [hs']
        show (s3.agent_paths.set l (s.agent_paths.getD l [])).length = s3.N
        rw [List.length_set, hlen3P, hG.2.1, hres3N]
      · rw [hs']
        show s3.visit_count.length = s3.N
        rw [hvlen23]
        show s.visit_count.length = s3.N
        rw [hG.2.2.1, hres3N]
      · rw [hs']
        show s3.hit.length = s3.N
        rw [hhlen23]
        show s.hit.length = s3.N
        rw [hG.2.2.2, hres3N]
    exact ⟨fun hT => Bool.noConfusion hT,
      fun _ => ⟨hres5, hslots5, hops5k, hpaths5k, hNO5, hCE.1,
        staticOK_core hcore05' hS, hG5, hcore05'⟩⟩

/-! ### The candidate loop and the full selection -/

theorem len_one_eq (l : List Nat) (h : l.length = 1) : l = [l.headD 0] := by
  cases l with
  | nil => exact absurd h (by simp)
  | cons x xs =>
    cases xs with
    | nil => rfl
    | cons y ys =>
      exfalso
      simp only [List.length_cons] at h
      omega

theorem selectLoop_inv (selectRec : Nat → Rat → PState → Option (Bool × PState))
    (k : Nat) (p : Rat)
    (hrecF : ∀ l' q s₀ r', selectRec l' q s₀ = some r' → FrameRel s₀ r'.2)
    (hrecI : ∀ l' q s₀ b' s₁, selectRec l' q s₀ = some (b', s₁) → SelPre l' s₀ →
      SelPost l' s₀ b' s₁) :
    ∀ (cands : List (Operation × List Coord × Int)) (s : PState) (b : Bool) (s' : PState),
    selectLoop selectRec k p cands s = some (b, s') →
    SelPre k s →
    (∀ c ∈ cands, _compute_cell_path s.grid (s.Q_from.getD k (0, 0))
        (s.orientations.getD k 0) c.1 = some (c.2.1, c.2.2) ∧ c.1.length = s.op_len) →
    SelPost k s b s'
  | [], s, b, s', h, pre, _ => by
    simp only [selectLoop] at h
    obtain ⟨hS, hG, hkN, hNO, hC⟩ := pre
    have hb : b = false := by injection h with h'; cases h'; rfl
    subst hb
    have hs'' : s' = fallbackState k s := by injection h with h'; cases h'; rfl
    obtain ⟨r, hr⟩ := Option.isSome_iff_exists.mp (hS.2.2 k hkN)
    have hpk : (fallbackState k s).agent_paths.getD k [] = r.1 := by
      simp only [fallbackState]
      rw [hr]
      show (s.agent_paths.set k r.1).getD k [] = r.1
      exact getD_set_self _ k _ _ (by rw [hG.2.1]; exact hkN)
    have hok : (fallbackState k s).agent_ops.getD k [] = s.inherited_ops.getD k [] := by
      simp only [fallbackState]
      exact getD_set_self _ k _ _ (by rw [hG.1]; exact hkN)
    refine ⟨fun hT => Bool.noConfusion hT, fun _ => ?_⟩
    rw [hs'']
    have hCE := cleanExc_slotk s (fallbackState k s) (fun j => j = k) k rfl hNO hC
      (fun t c => rfl) rfl rfl rfl rfl rfl
      (fun j hjk => by
        simp only [fallbackState]
        exact ⟨getD_set_ne _ k j _ _ (fun e => hjk e.symm),
          getD_set_ne _ k j _ _ (fun e => hjk e.symm)⟩)
    refine ⟨fun t c => rfl, ?_, hok, ?_, hCE.2, hCE.1⟩
    · intro j hjk
      simp only [fallbackState]
      exact ⟨getD_set_ne _ k j _ _ (fun e => hjk e.symm),
        getD_set_ne _ k j _ _ (fun e => hjk e.symm)⟩
    · rw [hr, hpk]
      rfl
  | (opc, cpc, foc) :: rest, s, b, s', h, pre, hcands => by
    obtain ⟨hS, hG, hkN, hNO, hC⟩ := pre
    have hcand0 := hcands (opc, cpc, foc) (List.mem_cons_self _ _)
    simp only [selectLoop] at h
    split at h
    · rename_i hc0
      have hcnil : _get_conflicts k cpc s = [] := List.length_eq_zero.mp hc0
      set sMid : PState := ({ s with agent_ops := s.agent_ops.set k opc, agent_paths := s.agent_paths.set k cpc }) with hsMid
      set s1 : PState := _reserve_path k cpc sMid with hs1'
      have hb : b = true := by injection h with h'; cases h'; rfl
      subst hb
      have hs'' : s' = ({ s1 with hit := s1.hit.set k 0 }) := by
        injection h with h'; cases h'; rfl
      refine ⟨fun _ => ?_, fun hF => Bool.noConfusion hF⟩
      have hCM : CleanExc sMid (fun j => j = k) ∧ NotOwner sMid k :=
        cleanExc_slotk s sMid (fun j => j = k) k rfl hNO hC (fun t c => rfl) rfl rfl rfl rfl rfl
          (fun j hjk => ⟨getD_set_ne _ k j _ _ (fun e => hjk e.symm),
            getD_set_ne _ k j _ _ (fun e => hjk e.symm)⟩)
      have hpkM : pathOf sMid k = cpc :=
        getD_set_self s.agent_paths k cpc [] (by rw [hG.2.1]; exact hkN)
      have hokM : opOf sMid k = opc :=
        getD_set_self s.agent_ops k opc [] (by rw [hG.1]; exact hkN)
      have hfreeM : ∀ t, t < (pathOf sMid k).length →
          sMid.reserved t ((pathOf sMid k).getD t (0, 0)) = sMid.N := by
        intro t ht
        rw [hpkM] at ht ⊢
        exact free_of_conflicts s k hNO cpc
          (fun j hj => by rw [hcnil] at hj; exact absurd hj (List.not_mem_nil j)) t ht
      have hedgeM : ∀ j, j < sMid.N → ¬(j = k) → j ≠ k →
          Compat (pathOf sMid k) (pathOf sMid j) := by
        intro j hj hB hjk
        rw [hpkM, show pathOf sMid j = pathOf s j from
          getD_set_ne _ k j _ _ (fun e => hjk e.symm)]
        exact compat_of_not_conflict s (fun j => j = k) hC k j cpc hj hB hjk
          (fun hm => by rw [hcnil] at hm; exact absurd hm (List.not_mem_nil j))
      have hslotM : ConsistentSlot sMid k := by
        show (_compute_cell_path s.grid (s.Q_from.getD k (0, 0)) (s.orientations.getD k 0)
          (opOf sMid k)).map (fun r => r.1) = some (pathOf sMid k)
        rw [hokM, hpkM, hcand0.1]
        rfl
      have hlenM : (opOf sMid k).length = sMid.op_len := by
        rw [hokM]
        exact hcand0.2
      have hC1' := reserve_commit sMid (fun j => j = k) k hCM.1 hkN hCM.2 hfreeM hedgeM
        hslotM hlenM
      rw [hpkM] at hC1'
      rw [hs'']
      exact @cleanExc_congr _ (fun j => j = k ∧ j ≠ k) (fun _ => False)
        (fun j => ⟨fun hf => hf.2 hf.1, False.elim⟩) hC1'
    · rename_i hn0
      split at h
      · exact selectLoop_inv selectRec k p hrecF hrecI rest s b s' h
          ⟨hS, hG, hkN, hNO, hC⟩ (fun c hc => hcands c (List.mem_cons_of_mem _ hc))
      · rename_i hn1
        split at h
        · exact selectLoop_inv selectRec k p hrecF hrecI rest s b s' h
            ⟨hS, hG, hkN, hNO, hC⟩ (fun c hc => hcands c (List.mem_cons_of_mem _ hc))
        · have hlen1 : (_get_conflicts k cpc s).length = 1 := by omega
          have hconfeq : _get_conflicts k cpc s = [(_get_conflicts k cpc s).headD 0] :=
            len_one_eq _ hlen1
          split at h
          · exact absurd h (by simp)
          · rename_i s3 heq
            have hpush := attemptPush_inv selectRec k ((_get_conflicts k cpc s).headD 0) p
              opc foc cpc s true s3 hrecF hrecI ⟨hS, hG, hkN, hNO, hC⟩ hconfeq
              hcand0.1 hcand0.2 heq
            have hb : b = true := by injection h with h'; cases h'; rfl
            subst hb
            have hs'' : s' = ({ s3 with hit := s3.hit.set k 0 }) := by
              injection h with h'; cases h'; rfl
            refine ⟨fun _ => ?_, fun hF => Bool.noConfusion hF⟩
            rw [hs'']
            exact hpush.1 rfl
          · rename_i s5 heq
            have hpush := attemptPush_inv selectRec k ((_get_conflicts k cpc s).headD 0) p
              opc foc cpc s false s5 hrecF hrecI ⟨hS, hG, hkN, hNO, hC⟩ hconfeq
              hcand0.1 hcand0.2 heq
            obtain ⟨-, hFP⟩ := hpush
            obtain ⟨r1, r2, -, -, rNO, rCE, rS, rG, rCore⟩ := hFP rfl
            have hpost5 := selectLoop_inv selectRec k p hrecF hrecI rest s5 b s' h
              ⟨rS, rG, by rw [rCore.2.2.2.1]; exact hkN, rNO, rCE⟩
              (fun c hc => by
                obtain ⟨hc1, hc2⟩ := hcands c (List.mem_cons_of_mem _ hc)
                obtain ⟨cg, -, -, -, copl, -, cor, -, -, cQ, -⟩ := rCore
                refine ⟨?_, ?_⟩
                · rw [cg, cQ, cor]
                  exact hc1
                · rw [copl]
                  exact hc2)
            exact selPost_compose rCore r1 r2 hpost5

theorem selectF_inv (oracle : ShuffleOracle) (hO : OracleSub oracle) :
    ∀ (fuel k : Nat) (p : Rat) (s : PState) (b : Bool) (s' : PState),
    selectF oracle fuel k p s = some (b, s') → SelPre k s → SelPost k s b s'
  | 0, k, p, s, b, s', h, _ => by simp [selectF] at h
  | fuel + 1, k, p, s, b, s', h, pre => by
    obtain ⟨hS, hG, hkN, hNO, hC⟩ := pre
    simp only [selectF] at h
    set rc := _get_sorted_candidates oracle k (s.Q_from.getD k (0, 0))
      (s.orientations.getD k 0) s with hrc
    set s2 : PState := ({ rc.2 with visit_count := rc.2.visit_count.set k (rc.2.visit_count.getD k 0 + 1), hit := rc.2.hit.set k 1 }) with hs2
    have hpre2 : SelPre k s2 := by
      refine ⟨staticOK_core ⟨rfl, rfl, rfl, rfl, rfl, rfl, rfl, rfl, rfl, rfl, rfl⟩ hS,
        ?_, hkN, fun t c => hNO t c, ?_⟩
      · refine ⟨hG.1, hG.2.1, ?_, ?_⟩
        · show (s.visit_count.set k (s.visit_count.getD k 0 + 1)).length = s.N
          rw [List.length_set]
          exact hG.2.2.1
        · show (s.hit.set k 1).length = s.N
          rw [List.length_set]
          exact hG.2.2.2
      · exact (cleanExc_slotk s s2 (fun j => j = k) k rfl hNO hC (fun t c => rfl)
          rfl rfl rfl rfl rfl (fun j hjk => ⟨rfl, rfl⟩)).1
    have hcands : ∀ c ∈ rc.1, _compute_cell_path s2.grid (s2.Q_from.getD k (0, 0))
        (s2.orientations.getD k 0) c.1 = some (c.2.1, c.2.2) ∧ c.1.length = s2.op_len := by
      intro c hc
      rw [hrc] at hc
      have hcs := cands_sound oracle hO k (s.Q_from.getD k (0, 0)) (s.orientations.getD k 0) s
        hS.1 c.1 c.2.1 c.2.2 hc
      exact ⟨hcs.2, hcs.1⟩
    have hloop := selectLoop_inv (fun l q s'' => selectF oracle fuel l q s'') k p
      (fun l' q s₀ r' h' => selectF_frame oracle fuel l' q s₀ r' h')
      (fun l' q s₀ b' s₁ h' pre' => selectF_inv oracle hO fuel l' q s₀ b' s₁ h' pre')
      rc.1 s2 b s' h hpre2 hcands
    exact selPost_compose ⟨rfl, rfl, rfl, rfl, rfl, rfl, rfl, rfl, rfl, rfl, rfl⟩
      (fun t c => rfl) (fun j hj => ⟨rfl, rfl⟩) hloop

/-! ### The setup phase establishes the main invariant -/

theorem getD_replicate {α : Type} (n : Nat) (d : α) (j : Nat) :
    (List.replicate n d).getD j d = d := by
  rw [List.getD_eq_getElem?_getD]
  rcases Nat.lt_or_ge j n with h | h
  · rw [List.getElem?_replicate, if_pos h]
    rfl
  · rw [List.getElem?_eq_none (by simpa using h)]
    rfl

theorem setup_body_reduce (Q : List Coord) (st : PState) (i : Nat) (r : List Coord × Int)
    (hsc : _compute_cell_path st.grid (Q.getD i (0, 0)) (st.orientations.getD i 0)
      (st.inherited_ops.getD i []) = some r) :
    stepSetupBody Q st i =
      _reserve_path i ((st.agent_paths.set i r.1).getD i [])
        ({ st with agent_paths := st.agent_paths.set i r.1 }) := by
  simp only [stepSetupBody]
  rw [hsc]

theorem setup_body_mid (s : PState) (Q : List Coord)
    (hinh : ∀ m, m < s.N → (s.inherited_ops.getD m []).length = s.op_len ∧
      (_compute_cell_path s.grid (Q.getD m (0, 0)) (s.orientations.getD m 0)
        (s.inherited_ops.getD m [])).isSome = true)
    (hcompat : ∀ a b, a < s.N → b < s.N → a ≠ b →
      Compat (provisional s Q a) (provisional s Q b))
    (i : Nat) (hi : i < s.N) (st : PState) (hm : SetupMid s Q i st) :
    SetupMid s Q (i + 1) (stepSetupBody Q st i) := by
  obtain ⟨m1, m2, m3, m4, m5, m6, m7, m8, m9, m10, m11, m12, m13, m14, m15⟩ := hm
  obtain ⟨r, hr⟩ := Option.isSome_iff_exists.mp (hinh i hi).2
  have hprov : provisional s Q i = r.1 := by
    unfold provisional
    rw [hr]
  rw [setup_body_reduce Q st i r (by rw [m1, m4, m5]; exact hr)]
  have hpi : (st.agent_paths.set i r.1).getD i [] = r.1 :=
    getD_set_self _ i _ _ (by rw [m9]; exact hi)
  rw [hpi]
  refine ⟨m1, m2, m3, m4, m5, m6, m7, m8, ?_, m10, m11, ?_, ?_, ?_, ?_⟩
  · show (st.agent_paths.set i r.1).length = s.N
    rw [List.length_set]
    exact m9
  · intro j hj
    show (st.agent_paths.set i r.1).getD j [] = provisional s Q j
    by_cases hji : j = i
    · rw [hji, hpi, hprov]
    · rw [getD_set_ne _ i j _ _ (fun e => hji e.symm)]
      exact m12 j (by omega)
  · intro j hj
    show (st.agent_paths.set i r.1).getD j [] = []
    rw [getD_set_ne _ i j _ _ (by omega)]
    exact m13 j (by omega)
  · intro t c hne
    by_cases hg : t < r.1.length ∧ r.1.getD t (0, 0) = c
    · rw [reserve_reserved, if_pos hg]
      refine ⟨Nat.lt_succ_self i, ?_, ?_⟩
      · rw [hprov]
        exact hg.1
      · rw [hprov]
        exact hg.2
    · rw [reserve_reserved, if_neg hg] at hne ⊢
      obtain ⟨g1, g2, g3⟩ := m14 t c hne
      exact ⟨Nat.lt_succ_of_lt g1, g2, g3⟩
  · intro j hj t ht
    by_cases hji : j = i
    · rw [hji]
      rw [hji] at ht
      rw [reserve_reserved, if_pos ⟨by rw [← hprov]; exact ht, by rw [hprov]⟩]
    · have hjlt : j < i := by omega
      rw [reserve_reserved, if_neg ?_]
      · exact m15 j hjlt t ht
      · intro hg
        exact (hcompat i j hi (by omega) (fun e => hji e.symm)).1 t
          (by rw [hprov]; exact hg.1) ht (by rw [hprov]; exact hg.2)

theorem setup_aux (s : PState) (Q : List Coord)
    (hinh : ∀ m, m < s.N → (s.inherited_ops.getD m []).length = s.op_len ∧
      (_compute_cell_path s.grid (Q.getD m (0, 0)) (s.orientations.getD m 0)
        (s.inherited_ops.getD m [])).isSome = true)
    (hcompat : ∀ a b, a < s.N → b < s.N → a ≠ b →
      Compat (provisional s Q a) (provisional s Q b)) :
    ∀ (n i : Nat) (st : PState), i + n = s.N → SetupMid s Q i st →
    SetupMid s Q s.N ((List.range' i n).foldl (stepSetupBody Q) st)
  | 0, i, st, he, hm => by
    have hieq : i = s.N := by omega
    subst hieq
    exact hm
  | n + 1, i, st, he, hm => by
    have hi : i < s.N := by omega
    show SetupMid s Q s.N
      ((List.range' (i + 1) n).foldl (stepSetupBody Q) (stepSetupBody Q st i))
    exact setup_aux s Q hinh hcompat n (i + 1) (stepSetupBody Q st i) (by omega)
      (setup_body_mid s Q hinh hcompat i hi st hm)

theorem stepSetup_mid (s : PState) (Q : List Coord) (prios : List Rat)
    (hinhlen : s.inherited_ops.length = s.N)
    (hinh : ∀ m, m < s.N → (s.inherited_ops.getD m []).length = s.op_len ∧
      (_compute_cell_path s.grid (Q.getD m (0, 0)) (s.orientations.getD m 0)
        (s.inherited_ops.getD m [])).isSome = true)
    (hcompat : ∀ a b, a < s.N → b < s.N → a ≠ b →
      Compat (provisional s Q a) (provisional s Q b)) :
    SetupMid s Q s.N (stepSetup s Q prios) := by
  unfold stepSetup
  rw [List.range_eq_range']
  refine setup_aux s Q hinh hcompat s.N 0 _ (by omega) ?_
  refine ⟨rfl, rfl, rfl, rfl, rfl, rfl, rfl, rfl, ?_, rfl, rfl, ?_, ?_, ?_, ?_⟩
  · exact List.length_replicate s.N []
  · intro j hj
    exact absurd hj (Nat.not_lt_zero j)
  · intro j hj
    exact getD_replicate s.N [] j
  · intro t c hne
    exact absurd rfl hne
  · intro j hj
    exact absurd hj (Nat.not_lt_zero j)

theorem stepSetup_inv (s : PState) (Q : List Coord) (prios : List Rat)
    (hops : s.all_operations = _generate_operations s.op_len)
    (hinhlen : s.inherited_ops.length = s.N)
    (hinh : ∀ m, m < s.N → (s.inherited_ops.getD m []).length = s.op_len ∧
      (_compute_cell_path s.grid (Q.getD m (0, 0)) (s.orientations.getD m 0)
        (s.inherited_ops.getD m [])).isSome = true)
    (hcompat : ∀ a b, a < s.N → b < s.N → a ≠ b →
      Compat (provisional s Q a) (provisional s Q b)) :
    MainInv (stepSetup s Q prios) := by
  obtain ⟨m1, m2, m3, m4, m5, m6, m7, m8, m9, m10, m11, m12, m13, m14, m15⟩ :=
    stepSetup_mid s Q prios hinhlen hinh hcompat
  set st := stepSetup s Q prios with hst
  have hpath : ∀ j, j < s.N → pathOf st j = provisional s Q j := m12
  have hopj : ∀ j, opOf st j = s.inherited_ops.getD j [] := by
    intro j
    show st.agent_ops.getD j [] = s.inherited_ops.getD j []
    rw [m8]
  have hcs : ∀ j, j < s.N → ConsistentSlot st j := by
    intro j hj
    obtain ⟨r, hr⟩ := Option.isSome_iff_exists.mp (hinh j hj).2
    show (_compute_cell_path st.grid (st.Q_from.getD j (0, 0)) (st.orientations.getD j 0)
      (opOf st j)).map (fun x => x.1) = some (pathOf st j)
    rw [m1, m7, m4, hopj j, hr, hpath j hj]
    have hprov : provisional s Q j = r.1 := by
      unfold provisional
      rw [hr]
    rw [hprov]
    rfl
  refine ⟨⟨?_, ?_, ?_⟩, ⟨?_, ?_, ?_, ?_⟩, ⟨?_, ?_, ?_, ?_⟩, ?_⟩
  · rw [m6, m3]
    exact hops
  · intro j hj
    rw [m5, m3]
    exact (hinh j (by rw [← m2]; exact hj)).1
  · intro j hj
    rw [m1, m7, m4, m5]
    exact (hinh j (by rw [← m2]; exact hj)).2
  · rw [m8, m2]
    exact hinhlen
  · rw [m2]
    exact m9
  · rw [m10, m2]
    exact List.length_replicate s.N 0
  · rw [m11, m2]
    exact List.length_replicate s.N 0
  · intro t c hne
    rw [show st.N = s.N from m2] at hne ⊢
    obtain ⟨g1, g2, g3⟩ := m14 t c hne
    refine ⟨g1, fun f => f, ?_, ?_⟩
    · rw [hpath _ g1]
      exact g2
    · rw [hpath _ g1]
      exact g3
  · intro j hj _
    rw [show st.N = s.N from m2] at hj
    intro t ht
    rw [hpath j hj] at ht ⊢
    exact m15 j hj t ht
  · intro a b ha hb _ _ hab
    rw [show st.N = s.N from m2] at ha hb
    rw [hpath a ha, hpath b hb]
    exact hcompat a b ha hb hab
  · intro j hj _
    rw [show st.N = s.N from m2] at hj
    refine ⟨hcs j hj, ?_⟩
    rw [hopj j, m3]
    exact (hinh j hj).1
  · intro j hj _
    rw [show st.N = s.N from m2] at hj
    obtain ⟨r, hr⟩ := Option.isSome_iff_exists.mp (hinh j hj).2
    refine ⟨?_, ?_⟩
    · rw [m8, m5]
    · rw [m1, m7, m4, m5, hr]
      rw [show st.agent_paths.getD j [] = provisional s Q j from hpath j hj]
      have hprov : provisional s Q j = r.1 := by
        unfold provisional
        rw [hr]
      rw [hprov]
      rfl

/-! ### The main loop preserves the invariant -/

theorem stepMainBody_inv (oracle : ShuffleOracle) (hO : OracleSub oracle)
    (st : PState) (k : Nat) (hk : k < st.N) (hI : MainInv st) :
    MainInv (stepMainBody oracle st k) := by
  obtain ⟨hS, hG, hC, hP⟩ := hI
  simp only [stepMainBody]
  split
  · exact ⟨hS, hG, hC, hP⟩
  · rename_i hv
    have hv0 : st.visit_count.getD k 0 = 0 := not_not.mp hv
    set st1 : PState := _unreserve_path k (st.agent_paths.getD k []) st with hst1
    have hact := unreserve_activate st (fun _ => False) k hC hk (fun f => f)
    have hC1 : CleanExc st1 (fun j => j = k) :=
      cleanExc_congr (fun j => ⟨fun h => h.elim False.elim id, Or.inr⟩) hact.1
    have hNO1 : NotOwner st1 k := hact.2
    have hS1 : StaticOK st1 :=
      staticOK_core ⟨rfl, rfl, rfl, rfl, rfl, rfl, rfl, rfl, rfl, rfl, rfl⟩ hS
    have hG1 : GoodLens st1 := hG
    have hpre1 : SelPre k st1 := ⟨hS1, hG1, hk, hNO1, hC1⟩
    have hFRk : FRagent st k := hC.2.1 k hk (fun f => f)
    have hGlk : ∀ t c, st.reserved t c = k →
        t < (pathOf st k).length ∧ (pathOf st k).getD t (0, 0) = c := by
      intro t c he
      obtain ⟨-, -, g3, g4⟩ := hC.1 t c (by rw [he]; omega)
      rw [he] at g3 g4
      exact ⟨g3, g4⟩
    have hres1 : ∀ t c, st1.reserved t c =
        if st.reserved t c = k then st.N else st.reserved t c := by
      intro t c
      rw [hst1, unreserve_reserved]
      by_cases he : st.reserved t c = k
      · rw [if_pos ⟨(hGlk t c he).1, (hGlk t c he).2, he⟩, if_pos he]
      · rw [if_neg (fun hg => he hg.2.2), if_neg he]
    have hfree1 : ∀ t, t < (pathOf st k).length →
        st1.reserved t ((pathOf st k).getD t (0, 0)) = st.N := by
      intro t ht
      rw [hres1, if_pos (hFRk t ht)]
    have hedge1 : ∀ j, j < st1.N → ¬(j = k) → j ≠ k →
        Compat (pathOf st1 k) (pathOf st1 j) := by
      intro j hj hB _
      exact hC.2.2.1 k j hk hj (fun f => f) (fun f => f) (fun e => hB e.symm)
    have hslot1 : ConsistentSlot st1 k := (hC.2.2.2 k hk (fun f => f)).1
    have hlen1 : (opOf st1 k).length = st1.op_len := (hC.2.2.2 k hk (fun f => f)).2
    cases hsel : selectF oracle (muSel st1 + 1) k (st1.priorities.getD k 0) st1 with
    | none =>
      have hre : _epibt_select oracle k (st1.priorities.getD k 0) st1 = (false, st1) := by
        unfold _epibt_select
        rw [hsel]
        rfl
      rw [hre]
      show MainInv (_reserve_path k (st1.agent_paths.getD k []) st1)
      have hcommit := reserve_commit st1 (fun j => j = k) k hC1 hk hNO1 hfree1 hedge1
        hslot1 hlen1
      refine ⟨staticOK_core ⟨rfl, rfl, rfl, rfl, rfl, rfl, rfl, rfl, rfl, rfl, rfl⟩ hS,
        hG, ?_, hP⟩
      exact @cleanExc_congr _ (fun j => j = k ∧ j ≠ k) (fun _ => False)
        (fun j => ⟨fun hf => hf.2 hf.1, False.elim⟩) hcommit
    | some rsel =>
      obtain ⟨bsel, ssel⟩ := rsel
      cases bsel with
      | true =>
        have hre : _epibt_select oracle k (st1.priorities.getD k 0) st1 = (true, ssel) := by
          unfold _epibt_select
          rw [hsel]
          rfl
        rw [hre]
        show MainInv ssel
        have hpost := selectF_inv oracle hO (muSel st1 + 1) k _ st1 true ssel hsel hpre1
        have hfr := selectF_frame oracle (muSel st1 + 1) k _ st1 (true, ssel) hsel
        have hcore : SameCore st ssel :=
          sameCore_trans (⟨rfl, rfl, rfl, rfl, rfl, rfl, rfl, rfl, rfl, rfl, rfl⟩ :
            SameCore st st1) hfr.1
        obtain ⟨cg, cst, cgo, cN, copl, cmr, cor, cin, cao, cQ, cpr⟩ := hcore
        have o23 : ssel.agent_ops.length = st.agent_ops.length := hfr.2.1
        have p23 : ssel.agent_paths.length = st.agent_paths.length := hfr.2.2.1
        have v23 : ssel.visit_count.length = st.visit_count.length := hfr.2.2.2.1
        have h23 : ssel.hit.length = st.hit.length := hfr.2.2.2.2.1
        have mono : ∀ j, st.visit_count.getD j 0 ≤ ssel.visit_count.getD j 0 :=
          hfr.2.2.2.2.2.1
        have stable : ∀ j, j < st.visit_count.length →
            ssel.visit_count.getD j 0 = st.visit_count.getD j 0 →
            ssel.agent_ops.getD j [] = st.agent_ops.getD j [] ∧
            ssel.agent_paths.getD j [] = st.agent_paths.getD j [] :=
          hfr.2.2.2.2.2.2
        refine ⟨staticOK_core ⟨cg, cst, cgo, cN, copl, cmr, cor, cin, cao, cQ, cpr⟩ hS,
          ⟨?_, ?_, ?_, ?_⟩, hpost.1 rfl, ?_⟩
        · rw [o23, cN]
          exact hG.1
        · rw [p23, cN]
          exact hG.2.1
        · rw [v23, cN]
          exact hG.2.2.1
        · rw [h23, cN]
          exact hG.2.2.2
        · intro j hj hvj
          rw [cN] at hj
          have hv1 : st.visit_count.getD j 0 = 0 := by
            have := mono j
            omega
          obtain ⟨e1, e2⟩ := stable j (by rw [hG.2.2.1]; exact hj) (by rw [hvj, hv1])
          obtain ⟨w1, w2⟩ := hP j hj hv1
          refine ⟨?_, ?_⟩
          · rw [e1, cin]
            exact w1
          · rw [cg, cQ, cor, cin, e2]
            exact w2
      | false =>
        have hre : _epibt_select oracle k (st1.priorities.getD k 0) st1 = (false, ssel) := by
          unfold _epibt_select
          rw [hsel]
          rfl
        rw [hre]
        show MainInv (_reserve_path k (ssel.agent_paths.getD k []) ssel)
        have hpost := selectF_inv oracle hO (muSel st1 + 1) k _ st1 false ssel hsel hpre1
        have hfr := selectF_frame oracle (muSel st1 + 1) k _ st1 (false, ssel) hsel
        have hcore : SameCore st ssel :=
          sameCore_trans (⟨rfl, rfl, rfl, rfl, rfl, rfl, rfl, rfl, rfl, rfl, rfl⟩ :
            SameCore st st1) hfr.1
        obtain ⟨cg, cst, cgo, cN, copl, cmr, cor, cin, cao, cQ, cpr⟩ := hcore
        have o23 : ssel.agent_ops.length = st.agent_ops.length := hfr.2.1
        have p23 : ssel.agent_paths.length = st.agent_paths.length := hfr.2.2.1
        have v23 : ssel.visit_count.length = st.visit_count.length := hfr.2.2.2.1
        have h23 : ssel.hit.length = st.hit.length := hfr.2.2.2.2.1
        have mono : ∀ j, st.visit_count.getD j 0 ≤ ssel.visit_count.getD j 0 :=
          hfr.2.2.2.2.2.1
        obtain ⟨-, hFP⟩ := hpost
        obtain ⟨q1, q2, q3, q4, q5, q6⟩ := hFP rfl
        obtain ⟨r, hr⟩ := Option.isSome_iff_exists.mp (hS.2.2 k hk)
        have hq4' : (_compute_cell_path st.grid (st.Q_from.getD k (0, 0))
            (st.orientations.getD k 0) (st.inherited_ops.getD k [])).map (fun x => x.1) =
            some (ssel.agent_paths.getD k []) := q4
        have hpsel : ssel.agent_paths.getD k [] = r.1 := by
          rw [hr] at hq4'
          injection hq4' with h'
          exact h'.symm
        have hpstk : pathOf st k = r.1 := by
          have hw2 := (hP k hk hv0).2
          rw [hr] at hw2
          injection hw2 with h'
          exact h'.symm
        have hpath_eq : ssel.agent_paths.getD k [] = pathOf st k := by
          rw [hpsel, hpstk]
        have hfreeS : ∀ t, t < (pathOf ssel k).length →
            ssel.reserved t ((pathOf ssel k).getD t (0, 0)) = ssel.N := by
          intro t ht
          rw [show pathOf ssel k = pathOf st k from hpath_eq] at ht ⊢
          rw [q1, cN]
          exact hfree1 t ht
        have hedgeS : ∀ j, j < ssel.N → ¬(j = k) → j ≠ k →
            Compat (pathOf ssel k) (pathOf ssel j) := by
          intro j hj hB _
          rw [cN] at hj
          rw [show pathOf ssel k = pathOf st k from hpath_eq,
            show pathOf ssel j = pathOf st j from (q2 j hB).2]
          exact hC.2.2.1 k j hk hj (fun f => f) (fun f => f) (fun e => hB e.symm)
        have hslotS : ConsistentSlot ssel k := by
          show (_compute_cell_path ssel.grid (ssel.Q_from.getD k (0, 0))
            (ssel.orientations.getD k 0) (opOf ssel k)).map (fun x => x.1) =
            some (pathOf ssel k)
          rw [cg, cQ, cor, show opOf ssel k = st.inherited_ops.getD k [] from q3]
          exact hq4'
        have hlenS : (opOf ssel k).length = ssel.op_len := by
          rw [show opOf ssel k = st.inherited_ops.getD k [] from q3, copl]
          exact hS.2.1 k hk
        have hcommit := reserve_commit ssel (fun j => j = k) k q6 (by rw [cN]; exact hk)
          q5 hfreeS hedgeS hslotS hlenS
        refine ⟨staticOK_core (sameCore_trans
            (⟨cg, cst, cgo, cN, copl, cmr, cor, cin, cao, cQ, cpr⟩ : SameCore st ssel)
            ⟨rfl, rfl, rfl, rfl, rfl, rfl, rfl, rfl, rfl, rfl, rfl⟩) hS,
          ⟨?_, ?_, ?_, ?_⟩, ?_, ?_⟩
        · show ssel.agent_ops.length = ssel.N
          rw [o23, cN]
          exact hG.1
        · show ssel.agent_paths.length = ssel.N
          rw [p23, cN]
          exact hG.2.1
        · show ssel.visit_count.length = ssel.N
          rw [v23, cN]
          exact hG.2.2.1
        · show ssel.hit.length = ssel.N
          rw [h23, cN]
          exact hG.2.2.2
        · exact @cleanExc_congr _ (fun j => j = k ∧ j ≠ k) (fun _ => False)
            (fun j => ⟨fun hf => hf.2 hf.1, False.elim⟩) hcommit
        · intro j hj hvj
          by_cases hjk : j = k
          · rw [hjk]
            refine ⟨?_, ?_⟩
            · show ssel.agent_ops.getD k [] = ssel.inherited_ops.getD k []
              rw [show ssel.agent_ops.getD k [] = st.inherited_ops.getD k [] from q3, cin]
            · show (_compute_cell_path ssel.grid (ssel.Q_from.getD k (0, 0))
                (ssel.orientations.getD k 0) (ssel.inherited_ops.getD k [])).map
                  (fun x => x.1) = some (ssel.agent_paths.getD k [])
              rw [cg, cQ, cor, cin]
              exact hq4'
          · have hvj' : ssel.visit_count.getD j 0 = 0 := hvj
            have hjN : j < st.N := by
              have hjn : j < ssel.N := hj
              rw [cN] at hjn
              exact hjn
            have hv1 : st.visit_count.getD j 0 = 0 := by
              have := mono j
              omega
            obtain ⟨w1, w2⟩ := hP j hjN hv1
            refine ⟨?_, ?_⟩
            · show ssel.agent_ops.getD j [] = ssel.inherited_ops.getD j []
              rw [(q2 j hjk).1, cin]
              exact w1
            · show (_compute_cell_path ssel.grid (ssel.Q_from.getD j (0, 0))
                (ssel.orientations.getD j 0) (ssel.inherited_ops.getD j [])).map
                  (fun x => x.1) = some (ssel.agent_paths.getD j [])
              rw [cg, cQ, cor, cin, (q2 j hjk).2]
              exact w2

theorem mem_insertDescByPrio (f : Nat → Rat) (x : Nat) : ∀ (l : List Nat) (y : Nat),
    y ∈ insertDescByPrio f x l → y = x ∨ y ∈ l
  | [], y, h => Or.inl (by simpa [insertDescByPrio] using h)
  | z :: zs, y, h => by
    simp only [insertDescByPrio] at h
    split at h
    · rcases List.mem_cons.mp h with h | h
      · exact Or.inl h
      · exact Or.inr h
    · rcases List.mem_cons.mp h with h | h
      · exact Or.inr (by simp [h])
      · rcases mem_insertDescByPrio f x zs y h with h2 | h2
        · exact Or.inl h2
        · exact Or.inr (List.mem_cons_of_mem _ h2)

theorem mem_sortDescByPrio (f : Nat → Rat) : ∀ (l : List Nat) (y : Nat),
    y ∈ sortDescByPrio f l → y ∈ l
  | [], _, h => h
  | x :: xs, y, h => by
    rcases mem_insertDescByPrio f x (sortDescByPrio f xs) y h with h2 | h2
    · exact h2 ▸ List.mem_cons_self x xs
    · exact List.mem_cons_of_mem _ (mem_sortDescByPrio f xs y h2)

theorem stepMain_inv_aux (oracle : ShuffleOracle) (hO : OracleSub oracle) :
    ∀ (l : List Nat) (st : PState),
    (∀ x ∈ l, x < st.N) → MainInv st → MainInv (l.foldl (stepMainBody oracle) st)
  | [], _, _, hI => hI
  | x :: l, st, hmem, hI => by
    have hx := hmem x (List.mem_cons_self x l)
    have hbody := stepMainBody_inv oracle hO st x hx hI
    have hN : (stepMainBody oracle st x).N = st.N := (frame_stepMainBody oracle st x).1.2.2.2.1
    exact stepMain_inv_aux oracle hO l (stepMainBody oracle st x)
      (fun y hy => by rw [hN]; exact hmem y (List.mem_cons_of_mem x hy)) hbody

theorem stepMain_inv (oracle : ShuffleOracle) (hO : OracleSub oracle) (st : PState)
    (hI : MainInv st) : MainInv (stepMain oracle st) := by
  unfold stepMain
  exact stepMain_inv_aux oracle hO _ st
    (fun x hx => List.mem_range.mp (mem_sortDescByPrio _ _ x hx)) hI

/-- **Claim C1** (corrected): when the construction data is sound
(`all_operations` is the generated catalog, `op_len ≥ 1`, every inherited
operation has horizon `op_len` and is feasible from the agent's pose) and
the provisional (inherited) cell paths are pairwise compatible, the
configuration returned by `PIBT.step` has no vertex collision and no edge
swap between distinct agents. Without the compatibility premise this
fails: `claim_C1_counterexample` exhibits a `step` call from
pairwise-distinct valid positions whose output puts two agents on the
same cell, because the setup phase silently overwrites other agents'
reservations. -/
theorem claim_C1 (oracle : ShuffleOracle) (s : PState) (Q_from : List Coord)
    (priorities : List Rat) (i j : Nat)
    (hO : OracleSub oracle)
    (hops : s.all_operations = _generate_operations s.op_len)
    (hL : 1 ≤ s.op_len)
    (hinhlen : s.inherited_ops.length = s.N)
    (hinh : ∀ m, m < s.N → (s.inherited_ops.getD m []).length = s.op_len ∧
      (_compute_cell_path s.grid (Q_from.getD m (0, 0)) (s.orientations.getD m 0)
        (s.inherited_ops.getD m [])).isSome = true)
    (hcompat : ∀ a, a < s.N → ∀ b, b < s.N → a ≠ b →
      Compat (provisional s Q_from a) (provisional s Q_from b))
    (hi : i < s.N) (hj : j < s.N) (hij : i ≠ j) :
    (step oracle s Q_from priorities).1.getD i (0, 0) ≠
      (step oracle s Q_from priorities).1.getD j (0, 0) ∧
    ¬((step oracle s Q_from priorities).1.getD i (0, 0) = Q_from.getD j (0, 0) ∧
      (step oracle s Q_from priorities).1.getD j (0, 0) = Q_from.getD i (0, 0)) := by
  have hmc := stepMid_core oracle s Q_from priorities
  have hNmid : (stepMain oracle (stepSetup s Q_from priorities)).N = s.N := hmc.1
  have hQmid : (stepMain oracle (stepSetup s Q_from priorities)).Q_from = Q_from :=
    hmc.2.2.1
  have hoplmid : (stepMain oracle (stepSetup s Q_from priorities)).op_len = s.op_len :=
    hmc.2.2.2.2.1
  have hImid : MainInv (stepMain oracle (stepSetup s Q_from priorities)) :=
    stepMain_inv oracle hO _ (stepSetup_inv s Q_from priorities hops hinhlen hinh
      (fun a b ha hb hab => hcompat a ha b hb hab))
  have hemit := emit_no_collision (stepMain oracle (stepSetup s Q_from priorities)) i j
    hImid.2.2.1 (by rw [hNmid]; exact hi) (by rw [hNmid]; exact hj) hij
    (by rw [hoplmid]; exact hL)
  rw [step_fst oracle s Q_from priorities]
  rw [getD_map_range (emitPos (stepMain oracle (stepSetup s Q_from priorities))) (0, 0) _ i
      (by rw [hNmid]; exact hi),
    getD_map_range (emitPos (stepMain oracle (stepSetup s Q_from priorities))) (0, 0) _ j
      (by rw [hNmid]; exact hj)]
  rw [hQmid] at hemit
  exact hemit

/-- Witness for `claim_C1` at the concrete two-agent planner `sD`. -/
theorem claim_C1_witness :
    (step idShuffle sD [(0, 0), (0, 2)] [1, 1]).1.getD 0 (0, 0) ≠
      (step idShuffle sD [(0, 0), (0, 2)] [1, 1]).1.getD 1 (0, 0) ∧
    ¬((step idShuffle sD [(0, 0), (0, 2)] [1, 1]).1.getD 0 (0, 0) =
        [(0, 0), (0, 2)].getD 1 (0, 0) ∧
      (step idShuffle sD [(0, 0), (0, 2)] [1, 1]).1.getD 1 (0, 0) =
        [(0, 0), (0, 2)].getD 0 (0, 0)) :=
  claim_C1 idShuffle sD [(0, 0), (0, 2)] [1, 1] 0 1 (fun _ _ _ h => h) rfl
    (by decide) (by decide) (by decide) (by decide) (by decide) (by decide) (by decide)

/-- **Claim C2** (corrected): when the recursive `_epibt_select(l, p)` call
made inside `_epibt_select(k, p)` returns failure, the rollback restores
the reservation table exactly and restores the committed (operation, cell
path) pair of every agent other than `k` — but agent `k`'s own slot is
left holding the tentative candidate `(op, cp)`, not its pre-push value
(`claim_C2_counterexample` exhibits the discrepancy), so the source's
claim that *every* agent's pair is restored is too strong. -/
theorem claim_C2 (oracle : ShuffleOracle) (fuel k l : Nat) (p : Rat) (op : Operation)
    (fo : Int) (cp : List Coord) (s s' : PState)
    (hO : OracleSub oracle)
    (hpre : SelPre k s)
    (hconf : _get_conflicts k cp s = [l])
    (hcomp : _compute_cell_path s.grid (s.Q_from.getD k (0, 0)) (s.orientations.getD k 0) op
      = some (cp, fo))
    (hoplen : op.length = s.op_len)
    (hres : attemptPush (fun a q t => selectF oracle fuel a q t) k l p op cp s
      = some (false, s')) :
    (∀ t c, s'.reserved t c = s.reserved t c) ∧
    (∀ m, m ≠ k → s'.agent_ops.getD m [] = s.agent_ops.getD m [] ∧
      s'.agent_paths.getD m [] = s.agent_paths.getD m []) ∧
    s'.agent_ops.getD k [] = op ∧ s'.agent_paths.getD k [] = cp := by
  have h := attemptPush_inv (fun a q t => selectF oracle fuel a q t) k l p op fo cp s false s'
    (fun l' q s₀ r' h' => selectF_frame oracle fuel l' q s₀ r' h')
    (fun l' q s₀ b' s₁ h' pre' => selectF_inv oracle hO fuel l' q s₀ b' s₁ h' pre')
    hpre hconf hcomp hoplen hres
  obtain ⟨-, hFP⟩ := h
  obtain ⟨r1, r2, r3, r4, -, -, -, -, -⟩ := hFP rfl
  exact ⟨r1, r2, r3, r4⟩

/-- Witness for `claim_C2` at the concrete mid-selection state `sC2`,
where agent 0 tentatively pushes agent 1 with candidate `[F]` and the
recursive selection fails. -/
theorem claim_C2_witness :
    (∀ t c, sC2post.reserved t c = sC2.reserved t c) ∧
    (∀ m, m ≠ 0 → sC2post.agent_ops.getD m [] = sC2.agent_ops.getD m [] ∧
      sC2post.agent_paths.getD m [] = sC2.agent_paths.getD m []) ∧
    sC2post.agent_ops.getD 0 [] = [Action.F] ∧
    sC2post.agent_paths.getD 0 [] = [(0, 0), (0, 1)] := by
  have hpre : SelPre 0 sC2 := by
    have hN2 : sC2.N = 2 := rfl
    refine ⟨by decide, by decide, by decide, ?_, ?_, ?_, ?_, ?_⟩
    · intro t c
      show (if t ≤ 1 ∧ c = (0, 1) then 1 else 2) ≠ 0
      split
      · decide
      · decide
    · intro t c hne
      have hval : sC2.reserved t c = if t ≤ 1 ∧ c = (0, 1) then 1 else 2 := rfl
      rw [hval] at hne ⊢
      by_cases hg : t ≤ 1 ∧ c = (0, 1)
      · rw [if_pos hg] at hne ⊢
        obtain ⟨ht, rfl⟩ := hg
        refine ⟨by decide, by decide, ?_, ?_⟩
        · show t < 2
          omega
        · show (([(0, 0), (0, 0)], [(0, 1), (0, 1)]) : List Coord × List Coord).2.getD t
            (0, 0) = (0, 1)
          have ht2 : t = 0 ∨ t = 1 := by omega
          rcases ht2 with rfl | rfl
          · rfl
          · rfl
      · rw [if_neg hg] at hne
        exact absurd rfl hne
    · intro j hj hj0
      have hj1 : j = 1 := by omega
      subst hj1
      intro t ht
      have ht' : t < 2 := ht
      have hcond : (pathOf sC2 1).getD t (0, 0) = (0, 1) := by
        have ht2 : t = 0 ∨ t = 1 := by omega
        rcases ht2 with rfl | rfl
        · rfl
        · rfl
      show (if t ≤ 1 ∧ (pathOf sC2 1).getD t (0, 0) = (0, 1) then 1 else 2) = 1
      rw [if_pos ⟨by omega, hcond⟩]
    · intro a b ha hb hBa hBb hab
      exfalso
      have ha1 : a = 1 := by omega
      have hb1 : b = 1 := by omega
      exact hab (by omega)
    · intro j hj hB
      have hj1 : j = 1 := by omega
      subst hj1
      exact ⟨by decide, by decide⟩
  have h := claim_C2 idShuffle 5 0 1 1 [Action.F] 1 [(0, 0), (0, 1)] sC2 sC2post
    (fun _ _ _ h => h) hpre (by decide) (by decide) (by decide) rfl
  exact h

/-! ### BFS correctness: the lazy distance oracle -/

theorem mem_ite_single {P : Prop} [Decidable P] {w v : Coord}
    (h : v ∈ (if P then [w] else ([] : List Coord))) : P ∧ v = w := by
  by_cases hP : P
  · rw [if_pos hP] at h
    exact ⟨hP, List.mem_singleton.mp h⟩
  · rw [if_neg hP] at h
    cases h

theorem mem_get_neighbors_iff (g : Grid) (c v : Coord) :
    v ∈ get_neighbors g c ↔
      (is_valid_coord g c = true ∧ is_valid_coord g v = true ∧
        ((v.1 = c.1 ∧ (v.2 = c.2 - 1 ∨ v.2 = c.2 + 1)) ∨
         (v.2 = c.2 ∧ (v.1 = c.1 - 1 ∨ v.1 = c.1 + 1)))) := by
  constructor
  · intro h
    unfold get_neighbors at h
    by_cases hc : is_valid_coord g c = true
    · rw [if_neg (not_not_intro hc)] at h
      obtain ⟨h1, h2, h3, h4, h5⟩ := (is_valid_iff g c).1 hc
      simp only [List.mem_append] at h
      rcases h with ((hL | hR) | hU) | hD
      · obtain ⟨⟨hx, hf⟩, rfl⟩ := mem_ite_single hL
        exact ⟨hc, (is_valid_iff g _).2 ⟨h1, h2, by omega, by omega, hf⟩,
          Or.inl ⟨rfl, Or.inl rfl⟩⟩
      · obtain ⟨⟨hx, hf⟩, rfl⟩ := mem_ite_single hR
        exact ⟨hc, (is_valid_iff g _).2 ⟨h1, h2, by omega, by omega, hf⟩,
          Or.inl ⟨rfl, Or.inr rfl⟩⟩
      · obtain ⟨⟨hy, hf⟩, rfl⟩ := mem_ite_single hU
        exact ⟨hc, (is_valid_iff g _).2 ⟨by omega, by omega, h3, h4, hf⟩,
          Or.inr ⟨rfl, Or.inl rfl⟩⟩
      · obtain ⟨⟨hy, hf⟩, rfl⟩ := mem_ite_single hD
        exact ⟨hc, (is_valid_iff g _).2 ⟨by omega, by omega, h3, h4, hf⟩,
          Or.inr ⟨rfl, Or.inr rfl⟩⟩
    · rw [if_pos hc] at h
      cases h
  · rintro ⟨hc, hv, hoff⟩
    obtain ⟨hc1, hc2, hc3, hc4, hc5⟩ := (is_valid_iff g c).1 hc
    obtain ⟨hv1, hv2, hv3, hv4, hv5⟩ := (is_valid_iff g v).1 hv
    unfold get_neighbors
    rw [if_neg (not_not_intro hc)]
    simp only [List.mem_append]
    rcases hoff with ⟨he, hL | hR⟩ | ⟨he, hU | hD⟩
    · refine Or.inl (Or.inl (Or.inl ?_))
      have hcond : (0 : Int) < c.2 ∧ g.free c.1.toNat (c.2 - 1).toNat = true := by
        refine ⟨by omega, ?_⟩
        rw [← he, ← hL]
        exact hv5
      rw [if_pos hcond]
      exact List.mem_singleton.mpr (Prod.ext_iff.mpr ⟨he, hL⟩)
    · refine Or.inl (Or.inl (Or.inr ?_))
      have hcond : c.2 < (g.W : Int) - 1 ∧ g.free c.1.toNat (c.2 + 1).toNat = true := by
        refine ⟨by omega, ?_⟩
        rw [← he, ← hR]
        exact hv5
      rw [if_pos hcond]
      exact List.mem_singleton.mpr (Prod.ext_iff.mpr ⟨he, hR⟩)
    · refine Or.inl (Or.inr ?_)
      have hcond : (0 : Int) < c.1 ∧ g.free (c.1 - 1).toNat c.2.toNat = true := by
        refine ⟨by omega, ?_⟩
        rw [← he, ← hU]
        exact hv5
      rw [if_pos hcond]
      exact List.mem_singleton.mpr (Prod.ext_iff.mpr ⟨hU, he⟩)
    · refine Or.inr ?_
      have hcond : c.1 < (g.H : Int) - 1 ∧ g.free (c.1 + 1).toNat c.2.toNat = true := by
        refine ⟨by omega, ?_⟩
        rw [← he, ← hD]
        exact hv5
      rw [if_pos hcond]
      exact List.mem_singleton.mpr (Prod.ext_iff.mpr ⟨hD, he⟩)

theorem mem_get_neighbors_valid (g : Grid) (c v : Coord)
    (h : v ∈ get_neighbors g c) : is_valid_coord g v = true :=
  ((mem_get_neighbors_iff g c v).1 h).2.1

theorem neighbor_symm (g : Grid) (c v : Coord) (h : v ∈ get_neighbors g c) :
    c ∈ get_neighbors g v := by
  obtain ⟨hc, hv, hoff⟩ := (mem_get_neighbors_iff g c v).1 h
  refine (mem_get_neighbors_iff g v c).2 ⟨hv, hc, ?_⟩
  rcases hoff with ⟨he, hL | hR⟩ | ⟨he, hU | hD⟩
  · exact Or.inl ⟨he.symm, Or.inr (by omega)⟩
  · exact Or.inl ⟨he.symm, Or.inl (by omega)⟩
  · exact Or.inr ⟨he.symm, Or.inr (by omega)⟩
  · exact Or.inr ⟨he.symm, Or.inl (by omega)⟩

theorem length_gridCoords (g : Grid) : (gridCoords g).length = g.H * g.W := by
  unfold gridCoords
  rw [List.length_flatMap]
  simp only [Function.comp_def, List.length_map, List.length_range]
  rw [List.map_const', List.length_range, List.sum_replicate, smul_eq_mul]

theorem inB_of_valid (g : Grid) (c : Coord) (h : is_valid_coord g c = true) :
    inB g c := by
  obtain ⟨h1, h2, h3, h4, _⟩ := (is_valid_iff g c).1 h
  exact ⟨h1, h2, h3, h4⟩

theorem mem_gridCoords (g : Grid) (c : Coord) (h : inB g c) : c ∈ gridCoords g := by
  obtain ⟨h1, h2, h3, h4⟩ := h
  unfold gridCoords
  rw [List.mem_flatMap]
  refine ⟨c.1.toNat, ?_, ?_⟩
  · rw [List.mem_range]
    omega
  · rw [List.mem_map]
    refine ⟨c.2.toNat, ?_, ?_⟩
    · rw [List.mem_range]
      omega
    · rw [Prod.ext_iff]
      constructor
      · show Int.ofNat c.1.toNat = c.1
        exact Int.toNat_of_nonneg h1
      · show Int.ofNat c.2.toNat = c.2
        exact Int.toNat_of_nonneg h3

theorem countP_lt_of_mem {α : Type} (p q : α → Bool) :
    ∀ (l : List α), (∀ a ∈ l, p a = true → q a = true) →
    ∀ x ∈ l, q x = true → p x = false → l.countP p < l.countP q
  | [], _, x, hx, _, _ => absurd hx (List.not_mem_nil x)
  | a :: l, hmono, x, hx, hq, hp => by
    rw [List.countP_cons, List.countP_cons]
    rcases List.mem_cons.mp hx with rfl | hx2
    · have hle : l.countP p ≤ l.countP q :=
        List.countP_mono_left (fun b hb => hmono b (List.mem_cons_of_mem _ hb))
      rw [if_neg (by rw [hp]; exact Bool.false_ne_true), if_pos hq]
      omega
    · have hlt := countP_lt_of_mem p q l
        (fun b hb => hmono b (List.mem_cons_of_mem _ hb)) x hx2 hq hp
      have hif : (if p a = true then 1 else 0) ≤ (if q a = true then 1 else 0) := by
        by_cases hpa : p a = true
        · rw [if_pos hpa, if_pos (hmono a (List.mem_cons_self a l) hpa)]
        · rw [if_neg hpa]
          exact Nat.zero_le _
      omega

theorem nodup_subset_length {α : Type} [DecidableEq α] :
    ∀ (ex L : List α), ex.Nodup → (∀ a ∈ ex, a ∈ L) → ex.length ≤ L.length
  | [], _, _, _ => Nat.zero_le _
  | a :: ex, L, hnd, hsub => by
    have ha : a ∈ L := hsub a (List.mem_cons_self a ex)
    have hnd2 := List.nodup_cons.mp hnd
    have hsub2 : ∀ b ∈ ex, b ∈ L.erase a := fun b hb =>
      (List.mem_erase_of_ne (fun hba => hnd2.1 (by rw [← hba]; exact hb))).mpr
        (hsub b (List.mem_cons_of_mem _ hb))
    have hrec := nodup_subset_length ex (L.erase a) hnd2.2 hsub2
    have hlen := List.length_erase_of_mem ha
    have hpos : 0 < L.length := List.length_pos_of_mem ha
    simp only [List.length_cons]
    omega

theorem nodup_length_le_countP {α : Type} [DecidableEq α] (p : α → Bool)
    (ex l : List α) (hnd : ex.Nodup) (hsub : ∀ a ∈ ex, a ∈ l ∧ p a = true) :
    ex.length ≤ l.countP p := by
  rw [List.countP_eq_length_filter]
  exact nodup_subset_length ex (l.filter p) hnd
    (fun a ha => List.mem_filter.mpr ⟨(hsub a ha).1, (hsub a ha).2⟩)

theorem count_le_size (g : Grid) (table : Coord → Nat) :
    countWritten g table ≤ g.H * g.W := by
  calc countWritten g table ≤ (gridCoords g).length := List.countP_le_length _
  _ = g.H * g.W := length_gridCoords g

theorem unreachedCount_eq (g : Grid) (t : Coord → Nat) :
    unreachedCount g t = (gridCoords g).countP (fun c => t c = UNREACHED) := rfl

theorem DTInv_mk (g : Grid) (goal : Coord) (hsize : g.H * g.W < UNREACHED)
    (hvalid : is_valid_coord g goal = true) : DTInv (mkDistTable g goal) := by
  have htab : ∀ c, (mkDistTable g goal).table c =
      if c = goal then 0 else UNREACHED := fun c => rfl
  have hrec : ∀ c, (mkDistTable g goal).table c ≠ UNREACHED → c = goal := by
    intro c hc
    by_cases hcg : c = goal
    · exact hcg
    · rw [htab, if_neg hcg] at hc
      exact absurd rfl hc
  have hg0 : (mkDistTable g goal).table goal = 0 := by
    rw [htab, if_pos rfl]
  refine ⟨hsize, hvalid, hg0, ?_, ?_, ?_, ?_, ?_, ?_, ?_, ?_⟩
  · intro c hc
    rw [hrec c hc, hg0]
    refine ⟨?_, fun m _ => Nat.zero_le m⟩
    show goal = goal
    rfl
  · intro c hc
    rw [hrec c hc]
    exact hvalid
  · intro u hu
    rw [List.mem_singleton.mp hu, hg0]
    decide
  · intro c hc hcQ
    exact absurd (by rw [hrec c hc]; exact List.mem_singleton.mpr rfl) hcQ
  · exact List.pairwise_singleton _ _
  · intro a ha b hb
    rw [List.mem_singleton.mp ha, List.mem_singleton.mp hb, hg0]
    exact Nat.zero_le _
  · intro c hc
    rw [hrec c hc, hg0]
    have hpos : 0 < (gridCoords g).countP
        (fun x => (mkDistTable g goal).table x ≠ UNREACHED) := by
      rw [List.countP_pos]
      refine ⟨goal, mem_gridCoords g goal (inB_of_valid g goal hvalid), ?_⟩
      simp only [decide_eq_true_eq, hg0]
      decide
    exact hpos
  · exact List.nodup_singleton _

theorem relaxFold_cons (d : Nat) (v : Coord) (vs : List Coord) (tbl : Coord → Nat) :
    relaxFold d (v :: vs) tbl =
      if tbl v = UNREACHED then
        ((relaxFold d vs (updTable tbl v (d + 1))).1,
          v :: (relaxFold d vs (updTable tbl v (d + 1))).2)
      else relaxFold d vs tbl := rfl

theorem relaxFold_spec (d : Nat) (hd : d + 1 ≠ UNREACHED) :
    ∀ (vs : List Coord) (tbl : Coord → Nat),
    (∀ c, (relaxFold d vs tbl).1 c =
      if c ∈ vs ∧ tbl c = UNREACHED then d + 1 else tbl c) ∧
    (∀ c, c ∈ (relaxFold d vs tbl).2 ↔ c ∈ vs ∧ tbl c = UNREACHED) ∧
    (relaxFold d vs tbl).2.Nodup
  | [], tbl => by
    refine ⟨fun c => ?_, fun c => ?_, ?_⟩
    · rw [if_neg (fun hcon => List.not_mem_nil c hcon.1)]
      rfl
    · constructor
      · intro hc
        exact absurd hc (List.not_mem_nil c)
      · intro hc
        exact absurd hc.1 (List.not_mem_nil c)
    · exact List.Pairwise.nil
  | v :: vs, tbl => by
    by_cases hu : tbl v = UNREACHED
    · have hupd : updTable tbl v (d + 1) v = d + 1 := if_pos rfl
      have hupdne : ∀ c, c ≠ v → updTable tbl v (d + 1) c = tbl c :=
        fun c hc => if_neg hc
      have hstep : relaxFold d (v :: vs) tbl =
          ((relaxFold d vs (updTable tbl v (d + 1))).1,
            v :: (relaxFold d vs (updTable tbl v (d + 1))).2) := by
        rw [relaxFold_cons, if_pos hu]
      have hred1 : (relaxFold d (v :: vs) tbl).1 =
          (relaxFold d vs (updTable tbl v (d + 1))).1 := by
        rw [hstep]
      have hred2 : (relaxFold d (v :: vs) tbl).2 =
          v :: (relaxFold d vs (updTable tbl v (d + 1))).2 := by
        rw [hstep]
      obtain ⟨ih1, ih2, ih3⟩ := relaxFold_spec d hd vs (updTable tbl v (d + 1))
      refine ⟨fun c => ?_, fun c => ?_, ?_⟩
      · rw [hred1, ih1 c]
        by_cases hcv : c = v
        · have hupdc : updTable tbl v (d + 1) c = d + 1 := by
            rw [hcv]
            exact hupd
          rw [if_neg (fun hcon => hd (by rw [← hupdc]; exact hcon.2)),
            if_pos ⟨by rw [hcv]; exact List.mem_cons_self v vs, by rw [hcv]; exact hu⟩]
          exact hupdc
        · rw [hupdne c hcv]
          by_cases hc2 : c ∈ vs ∧ tbl c = UNREACHED
          · rw [if_pos hc2, if_pos ⟨List.mem_cons_of_mem _ hc2.1, hc2.2⟩]
          · rw [if_neg hc2, if_neg (fun hcon =>
              hc2 ⟨(List.mem_cons.mp hcon.1).resolve_left hcv, hcon.2⟩)]
      · rw [hred2]
        constructor
        · intro hc
          rcases List.mem_cons.mp hc with rfl | hc2
          · exact ⟨List.mem_cons_self c vs, hu⟩
          · have h2 := (ih2 c).1 hc2
            have hcv : c ≠ v := fun hcv => by
              rw [hcv, hupd] at h2
              exact hd h2.2
            rw [hupdne c hcv] at h2
            exact ⟨List.mem_cons_of_mem _ h2.1, h2.2⟩
        · intro hc
          by_cases hcv : c = v
          · rw [hcv]
            exact List.mem_cons_self v _
          · refine List.mem_cons_of_mem _ ((ih2 c).2 ?_)
            rw [hupdne c hcv]
            exact ⟨(List.mem_cons.mp hc.1).resolve_left hcv, hc.2⟩
      · rw [hred2, List.nodup_cons]
        refine ⟨fun hc => ?_, ih3⟩
        have h2 := (ih2 v).1 hc
        rw [hupd] at h2
        exact hd h2.2
    · have hstep : relaxFold d (v :: vs) tbl = relaxFold d vs tbl := by
        rw [relaxFold_cons, if_neg hu]
      obtain ⟨ih1, ih2, ih3⟩ := relaxFold_spec d hd vs tbl
      refine ⟨fun c => ?_, fun c => ?_, ?_⟩
      · rw [hstep, ih1 c]
        by_cases hc2 : c ∈ vs ∧ tbl c = UNREACHED
        · rw [if_pos hc2, if_pos ⟨List.mem_cons_of_mem _ hc2.1, hc2.2⟩]
        · rw [if_neg hc2, if_neg (fun hcon => hc2
            ⟨(List.mem_cons.mp hcon.1).resolve_left
              (fun hcv => hu (by rw [← hcv]; exact hcon.2)), hcon.2⟩)]
      · rw [hstep, ih2 c]
        constructor
        · intro h2
          exact ⟨List.mem_cons_of_mem _ h2.1, h2.2⟩
        · intro h2
          refine ⟨?_, h2.2⟩
          rcases List.mem_cons.mp h2.1 with rfl | hc2
          · exact absurd h2.2 hu
          · exact hc2
      · rw [hstep]
        exact ih3

theorem relaxFold_count (g : Grid) (d : Nat) (hd : d + 1 ≠ UNREACHED) :
    ∀ (vs : List Coord) (tbl : Coord → Nat), (∀ v ∈ vs, is_valid_coord g v = true) →
    unreachedCount g (relaxFold d vs tbl).1 + (relaxFold d vs tbl).2.length ≤
      unreachedCount g tbl
  | [], tbl, _ => Nat.le_refl _
  | v :: vs, tbl, hv => by
    by_cases hu : tbl v = UNREACHED
    · have hstep : relaxFold d (v :: vs) tbl =
          ((relaxFold d vs (updTable tbl v (d + 1))).1,
            v :: (relaxFold d vs (updTable tbl v (d + 1))).2) := by
        rw [relaxFold_cons, if_pos hu]
      have hone : unreachedCount g (updTable tbl v (d + 1)) + 1 ≤
          unreachedCount g tbl := by
        have hlt : (gridCoords g).countP (fun c => updTable tbl v (d + 1) c = UNREACHED) <
            (gridCoords g).countP (fun c => tbl c = UNREACHED) := by
          refine countP_lt_of_mem _ _ (gridCoords g) ?_ v ?_ ?_ ?_
          · intro a ha hpa
            rw [decide_eq_true_eq] at hpa ⊢
            by_cases hav : a = v
            · exfalso
              rw [hav] at hpa
              rw [show updTable tbl v (d + 1) v = d + 1 from if_pos rfl] at hpa
              exact hd hpa
            · rw [show updTable tbl v (d + 1) a = tbl a from if_neg hav] at hpa
              exact hpa
          · exact mem_gridCoords g v (inB_of_valid g v (hv v (List.mem_cons_self v vs)))
          · rw [decide_eq_true_eq]
            exact hu
          · exact decide_eq_false (fun hcon => hd (by
              rw [show updTable tbl v (d + 1) v = d + 1 from if_pos rfl] at hcon
              exact hcon))
        rw [unreachedCount_eq, unreachedCount_eq]
        omega
      have ih := relaxFold_count g d hd vs (updTable tbl v (d + 1))
        (fun w hw => hv w (List.mem_cons_of_mem _ hw))
      rw [hstep]
      show unreachedCount g (relaxFold d vs (updTable tbl v (d + 1))).1 +
        (v :: (relaxFold d vs (updTable tbl v (d + 1))).2).length ≤ unreachedCount g tbl
      rw [List.length_cons]
      omega
    · have hstep : relaxFold d (v :: vs) tbl = relaxFold d vs tbl := by
        rw [relaxFold_cons, if_neg hu]
      rw [hstep]
      exact relaxFold_count g d hd vs tbl (fun w hw => hv w (List.mem_cons_of_mem _ hw))

theorem bfs_frontier (g : Grid) (goal : Coord) (Q : List Coord) (table : Coord → Nat)
    (hgoal : table goal = 0)
    (hsound : ∀ c, table c ≠ UNREACHED → IsShortestFrom g goal c (table c))
    (hclo : ∀ c, table c ≠ UNREACHED → c ∉ Q →
      ∀ v ∈ get_neighbors g c, table v ≠ UNREACHED) :
    ∀ (m : Nat) (c : Coord), table c = UNREACHED → reachIn g goal m c →
      ∃ w ∈ Q, table w + 1 ≤ m
  | 0, c, hUN, hr => by
    have hc : c = goal := hr
    rw [hc, hgoal] at hUN
    exact absurd hUN (by decide)
  | m + 1, c, hUN, hr => by
    have hr2 : ∃ v ∈ get_neighbors g c, reachIn g goal m v := hr
    obtain ⟨v, hvmem, hvr⟩ := hr2
    by_cases hv : table v = UNREACHED
    · obtain ⟨w, hw, hle⟩ := bfs_frontier g goal Q table hgoal hsound hclo m v hv hvr
      exact ⟨w, hw, Nat.le_succ_of_le hle⟩
    · by_cases hvQ : v ∈ Q
      · refine ⟨v, hvQ, ?_⟩
        have hm := (hsound v hv).2 m hvr
        omega
      · exact absurd hUN (hclo v hv hvQ c (neighbor_symm g c v hvmem))

theorem bfs_step_inv (g : Grid) (goal u : Coord) (rest : List Coord)
    (table : Coord → Nat)
    (hI : DTInv ⟨g, goal, u :: rest, table⟩) :
    DTInv ⟨g, goal, rest ++ (relaxFold (table u) (get_neighbors g u) table).2,
      (relaxFold (table u) (get_neighbors g u) table).1⟩ ∧
    (∀ c, table c ≠ UNREACHED →
      (relaxFold (table u) (get_neighbors g u) table).1 c = table c) := by
  obtain ⟨hsize0, hgv0, hgoal0, hsound0, hvalid0, hQrec0, hclo0, hsorted0, hband0,
    hcount0, hnodup0⟩ := hI
  have hsize : g.H * g.W < UNREACHED := hsize0
  have hgv : is_valid_coord g goal = true := hgv0
  have hgoal : table goal = 0 := hgoal0
  have hsound : ∀ c, table c ≠ UNREACHED → IsShortestFrom g goal c (table c) := hsound0
  have hvalid : ∀ c, table c ≠ UNREACHED → is_valid_coord g c = true := hvalid0
  have hQrec : ∀ w ∈ u :: rest, table w ≠ UNREACHED := hQrec0
  have hclo : ∀ c, table c ≠ UNREACHED → c ∉ u :: rest →
      ∀ v ∈ get_neighbors g c, table v ≠ UNREACHED := hclo0
  have hsorted : (u :: rest).Pairwise (fun a b => table a ≤ table b) := hsorted0
  have hband : ∀ a ∈ u :: rest, ∀ b ∈ u :: rest, table a ≤ table b + 1 := hband0
  have hcount : ∀ c, table c ≠ UNREACHED → table c < countWritten g table := hcount0
  have hnodup : (u :: rest).Nodup := hnodup0
  have hurec : table u ≠ UNREACHED := hQrec u (List.mem_cons_self u rest)
  have hdlt : table u < countWritten g table := hcount u hurec
  have hcw : countWritten g table < UNREACHED :=
    Nat.lt_of_le_of_lt (count_le_size g table) hsize
  have hd1 : table u + 1 ≠ UNREACHED := by omega
  obtain ⟨hT1, hT2, hT3⟩ := relaxFold_spec (table u) hd1 (get_neighbors g u) table
  set R := relaxFold (table u) (get_neighbors g u) table with hR
  have hnodup2 := List.nodup_cons.mp hnodup
  have hmono : ∀ c, table c ≠ UNREACHED → R.1 c = table c := by
    intro c hc
    rw [hT1 c, if_neg (fun hcon => hc hcon.2)]
  have happ_val : ∀ c ∈ R.2, R.1 c = table u + 1 := by
    intro c hc
    obtain ⟨hcn, hcUN⟩ := (hT2 c).1 hc
    rw [hT1 c, if_pos ⟨hcn, hcUN⟩]
  have hnew : ∀ c, R.1 c ≠ UNREACHED → table c ≠ UNREACHED ∨ c ∈ R.2 := by
    intro c hc
    by_cases hcUN : table c = UNREACHED
    · right
      rw [hT2 c]
      refine ⟨?_, hcUN⟩
      by_cases hcn : c ∈ get_neighbors g u
      · exact hcn
      · exfalso
        rw [hT1 c, if_neg (fun hcon => hcn hcon.1)] at hc
        exact hc hcUN
    · exact Or.inl hcUN
  have hreach_u : reachIn g goal (table u) u := (hsound u hurec).1
  have hshort_new : ∀ c ∈ R.2, IsShortestFrom g goal c (table u + 1) := by
    intro c hc
    obtain ⟨hcn, hcUN⟩ := (hT2 c).1 hc
    constructor
    · exact ⟨u, neighbor_symm g u c hcn, hreach_u⟩
    · intro m hm
      obtain ⟨w, hw, hwle⟩ :=
        bfs_frontier g goal (u :: rest) table hgoal hsound hclo m c hcUN hm
      rcases List.mem_cons.mp hw with rfl | hw2
      · omega
      · have hle := (List.pairwise_cons.mp hsorted).1 w hw2
        omega
  have hcmono : countWritten g table ≤ countWritten g R.1 := by
    have h3 : countWritten g table =
        (gridCoords g).countP (fun x => table x ≠ UNREACHED) := rfl
    have h4 : countWritten g R.1 =
        (gridCoords g).countP (fun x => R.1 x ≠ UNREACHED) := rfl
    rw [h3, h4]
    refine List.countP_mono_left ?_
    intro x hx hpx
    rw [decide_eq_true_eq] at hpx ⊢
    rw [hmono x hpx]
    exact hpx
  have hc3 : R.1 goal = 0 := by
    have hgUN : table goal ≠ UNREACHED := by
      rw [hgoal]
      decide
    rw [hmono goal hgUN, hgoal]
  have hc4 : ∀ c, R.1 c ≠ UNREACHED → IsShortestFrom g goal c (R.1 c) := by
    intro c hc
    rcases hnew c hc with hold | happ
    · rw [hmono c hold]
      exact hsound c hold
    · rw [happ_val c happ]
      exact hshort_new c happ
  have hc5 : ∀ c, R.1 c ≠ UNREACHED → is_valid_coord g c = true := by
    intro c hc
    rcases hnew c hc with hold | happ
    · exact hvalid c hold
    · exact mem_get_neighbors_valid g u c ((hT2 c).1 happ).1
  have hc6 : ∀ w ∈ rest ++ R.2, R.1 w ≠ UNREACHED := by
    intro w hw
    rcases List.mem_append.mp hw with hwr | hwa
    · have hwrec := hQrec w (List.mem_cons_of_mem _ hwr)
      rw [hmono w hwrec]
      exact hwrec
    · rw [happ_val w hwa]
      exact hd1
  have hc7 : ∀ c, R.1 c ≠ UNREACHED → c ∉ rest ++ R.2 →
      ∀ w ∈ get_neighbors g c, R.1 w ≠ UNREACHED := by
    intro c hc hcQ
    by_cases hcu : c = u
    · intro w hw
      rw [hcu] at hw
      by_cases hwUN : table w = UNREACHED
      · have hwa : w ∈ R.2 := (hT2 w).2 ⟨hw, hwUN⟩
        rw [happ_val w hwa]
        exact hd1
      · rw [hmono w hwUN]
        exact hwUN
    · have hcold : table c ≠ UNREACHED := by
        rcases hnew c hc with hold | happ
        · exact hold
        · exact absurd (List.mem_append.mpr (Or.inr happ)) hcQ
      have hcQ2 : c ∉ u :: rest := by
        intro hin
        rcases List.mem_cons.mp hin with h1 | h2
        · exact hcu h1
        · exact hcQ (List.mem_append.mpr (Or.inl h2))
      intro w hw
      have hwrec := hclo c hcold hcQ2 w hw
      rw [hmono w hwrec]
      exact hwrec
  have hc8 : (rest ++ R.2).Pairwise (fun a b => R.1 a ≤ R.1 b) := by
    rw [List.pairwise_append]
    refine ⟨?_, ?_, ?_⟩
    · have htail : rest.Pairwise (fun a b => table a ≤ table b) :=
        (List.pairwise_cons.mp hsorted).2
      refine List.Pairwise.imp_of_mem ?_ htail
      intro a b ha hb hab
      have h1 := hmono a (hQrec a (List.mem_cons_of_mem _ ha))
      have h2 := hmono b (hQrec b (List.mem_cons_of_mem _ hb))
      omega
    · refine List.Pairwise.imp_of_mem ?_ hT3
      intro a b ha hb _
      have h1 := happ_val a ha
      have h2 := happ_val b hb
      omega
    · intro a ha b hb
      have h1 := hmono a (hQrec a (List.mem_cons_of_mem _ ha))
      have h2 := happ_val b hb
      have h3 := hband a (List.mem_cons_of_mem _ ha) u (List.mem_cons_self u rest)
      omega
  have hc9 : ∀ a ∈ rest ++ R.2, ∀ b ∈ rest ++ R.2, R.1 a ≤ R.1 b + 1 := by
    intro a ha b hb
    rcases List.mem_append.mp ha with har | haa
    · have h1 := hmono a (hQrec a (List.mem_cons_of_mem _ har))
      rcases List.mem_append.mp hb with hbr | hba
      · have h3 := hmono b (hQrec b (List.mem_cons_of_mem _ hbr))
        have h4 := hband a (List.mem_cons_of_mem _ har) b (List.mem_cons_of_mem _ hbr)
        omega
      · have h3 := happ_val b hba
        have h4 := hband a (List.mem_cons_of_mem _ har) u (List.mem_cons_self u rest)
        omega
    · have h1 := happ_val a haa
      rcases List.mem_append.mp hb with hbr | hba
      · have h2 := hmono b (hQrec b (List.mem_cons_of_mem _ hbr))
        have h3 := (List.pairwise_cons.mp hsorted).1 b hbr
        omega
      · have h2 := happ_val b hba
        omega
  have hc10 : ∀ c, R.1 c ≠ UNREACHED → R.1 c < countWritten g R.1 := by
    intro c hc
    rcases hnew c hc with hold | happ
    · have h1 := hmono c hold
      have h2 := hcount c hold
      omega
    · have h1 := happ_val c happ
      have hlt : (gridCoords g).countP (fun x => table x ≠ UNREACHED) <
          (gridCoords g).countP (fun x => R.1 x ≠ UNREACHED) := by
        refine countP_lt_of_mem _ _ (gridCoords g) ?_ c ?_ ?_ ?_
        · intro a ha hpa
          rw [decide_eq_true_eq] at hpa ⊢
          rw [hmono a hpa]
          exact hpa
        · exact mem_gridCoords g c (inB_of_valid g c
            (mem_get_neighbors_valid g u c ((hT2 c).1 happ).1))
        · rw [decide_eq_true_eq, h1]
          exact hd1
        · exact decide_eq_false (fun hcon => hcon ((hT2 c).1 happ).2)
      have h3 : countWritten g table =
          (gridCoords g).countP (fun x => table x ≠ UNREACHED) := rfl
      have h4 : countWritten g R.1 =
          (gridCoords g).countP (fun x => R.1 x ≠ UNREACHED) := rfl
      omega
  have hc11 : (rest ++ R.2).Nodup := by
    rw [List.nodup_append]
    refine ⟨hnodup2.2, hT3, ?_⟩
    intro a ha hcon
    exact hQrec a (List.mem_cons_of_mem _ ha) ((hT2 a).1 hcon).2
  exact ⟨⟨hsize, hgv, hc3, hc4, hc5, hc6, hc7, hc8, hc9, hc10, hc11⟩, hmono⟩

theorem bfsLoop_inv (g : Grid) (goal target : Coord) :
    ∀ (fuel : Nat) (queue : List Coord) (table : Coord → Nat),
    DTInv ⟨g, goal, queue, table⟩ →
    unreachedCount g table + queue.length + 1 ≤ fuel →
    ∃ r, bfsLoop g target fuel queue table = some r ∧
      DTInv ⟨g, goal, r.2.1, r.2.2⟩ ∧
      (r.1 ≠ UNREACHED → IsShortestFrom g goal target r.1 ∧ r.1 < g.H * g.W) ∧
      (r.1 = UNREACHED → r.2.1 = [])
  | fuel, [], table => fun hI _ => by
    have hnil : bfsLoop g target fuel [] table = some (UNREACHED, [], table) := by
      cases fuel <;> rfl
    refine ⟨(UNREACHED, [], table), hnil, hI, ?_, fun _ => rfl⟩
    intro h
    exact absurd rfl h
  | 0, u :: rest, table => fun _ hf => by
    exfalso
    rw [List.length_cons] at hf
    omega
  | fuel + 1, u :: rest, table => fun hI hf => by
    have hbeq : bfsLoop g target (fuel + 1) (u :: rest) table =
        if u = target then
          some (table u, rest ++ (relaxFold (table u) (get_neighbors g u) table).2,
            (relaxFold (table u) (get_neighbors g u) table).1)
        else bfsLoop g target fuel
          (rest ++ (relaxFold (table u) (get_neighbors g u) table).2)
          (relaxFold (table u) (get_neighbors g u) table).1 := rfl
    obtain ⟨hstep, hpres⟩ := bfs_step_inv g goal u rest table hI
    obtain ⟨hsize0, _, _, hsound0, _, hQrec0, _, _, _, hcount0, _⟩ := id hI
    have hvnbrs : ∀ v ∈ get_neighbors g u, is_valid_coord g v = true :=
      fun v hv => mem_get_neighbors_valid g u v hv
    have hurec : table u ≠ UNREACHED := hQrec0 u (List.mem_cons_self u rest)
    have hbound : table u < countWritten g table := hcount0 u hurec
    have hcw : countWritten g table < UNREACHED :=
      Nat.lt_of_le_of_lt (count_le_size g table) hsize0
    have hcwHW : countWritten g table ≤ g.H * g.W := count_le_size g table
    have hd1 : table u + 1 ≠ UNREACHED := by omega
    have hcnt := relaxFold_count g (table u) hd1 (get_neighbors g u) table hvnbrs
    by_cases ht : u = target
    · refine ⟨(table u, rest ++ (relaxFold (table u) (get_neighbors g u) table).2,
        (relaxFold (table u) (get_neighbors g u) table).1), ?_, hstep, ?_, ?_⟩
      · rw [hbeq, if_pos ht]
      · intro _
        constructor
        · rw [← ht]
          exact hsound0 u hurec
        · show table u < g.H * g.W
          omega
      · intro hEq
        exact absurd hEq hurec
    · have hlen : (rest ++ (relaxFold (table u) (get_neighbors g u) table).2).length =
          rest.length + (relaxFold (table u) (get_neighbors g u) table).2.length :=
        List.length_append _ _
      have hf2 : unreachedCount g (relaxFold (table u) (get_neighbors g u) table).1 +
          (rest ++ (relaxFold (table u) (get_neighbors g u) table).2).length + 1 ≤
            fuel := by
        rw [List.length_cons] at hf
        omega
      obtain ⟨r, hrEq, hD, hsh, hem⟩ := bfsLoop_inv g goal target fuel
        (rest ++ (relaxFold (table u) (get_neighbors g u) table).2)
        (relaxFold (table u) (get_neighbors g u) table).1 hstep hf2
      refine ⟨r, ?_, hD, hsh, hem⟩
      rw [hbeq, if_neg ht]
      exact hrEq

theorem DistTable_get_spec (dt : DistTable) (target : Coord) (hI : DTInv dt) :
    DTInv (dt.get target).2 ∧
    (is_valid_coord dt.grid target = false → (dt.get target).1 = UNREACHED) ∧
    (target = dt.goal → (dt.get target).1 = 0) ∧
    ((dt.get target).1 ≠ UNREACHED →
      IsShortestFrom dt.grid dt.goal target (dt.get target).1 ∧
      (dt.get target).1 < dt.grid.H * dt.grid.W) ∧
    (is_valid_coord dt.grid target = true → (dt.get target).1 = UNREACHED →
      (dt.get target).2.queue = []) := by
  obtain ⟨hsize, hgv, hgoal, hsound, hvalid, hQrec, hclo, hsorted, hband, hcount,
    hnodup⟩ := id hI
  have h0 : dt.get target =
      if ¬ is_valid_coord dt.grid target then (UNREACHED, dt)
      else if dt.table target ≠ UNREACHED then (dt.table target, dt)
      else
        match bfsLoop dt.grid target
            (unreachedCount dt.grid dt.table + dt.queue.length + 1) dt.queue dt.table with
        | some r => (r.1, { dt with queue := r.2.1, table := r.2.2 })
        | none => (UNREACHED, dt) := rfl
  by_cases hv : is_valid_coord dt.grid target = true
  · by_cases hrec : dt.table target = UNREACHED
    · have h1 : dt.get target =
          match bfsLoop dt.grid target
              (unreachedCount dt.grid dt.table + dt.queue.length + 1)
              dt.queue dt.table with
          | some r => (r.1, { dt with queue := r.2.1, table := r.2.2 })
          | none => (UNREACHED, dt) := by
        rw [h0, if_neg (not_not_intro hv), if_neg (not_not_intro hrec)]
      obtain ⟨r, hrEq, hD, hsh, hem⟩ := bfsLoop_inv dt.grid dt.goal target
        (unreachedCount dt.grid dt.table + dt.queue.length + 1) dt.queue dt.table hI
        (Nat.le_refl _)
      have h2 : dt.get target = (r.1, { dt with queue := r.2.1, table := r.2.2 }) := by
        rw [h1, hrEq]
      refine ⟨?_, ?_, ?_, ?_, ?_⟩
      · rw [h2]
        exact hD
      · intro hfalse
        rw [hfalse] at hv
        cases hv
      · intro hTg
        exfalso
        rw [hTg] at hrec
        rw [hgoal] at hrec
        exact absurd hrec (by decide)
      · rw [h2]
        intro hne
        exact hsh hne
      · rw [h2]
        intro _ hUN
        exact hem hUN
    · have h1 : dt.get target = (dt.table target, dt) := by
        rw [h0, if_neg (not_not_intro hv), if_pos hrec]
      refine ⟨?_, ?_, ?_, ?_, ?_⟩
      · rw [h1]
        exact hI
      · intro hfalse
        rw [hfalse] at hv
        cases hv
      · intro hTg
        rw [h1]
        show dt.table target = 0
        rw [hTg]
        exact hgoal
      · intro _
        rw [h1]
        constructor
        · exact hsound target hrec
        · show dt.table target < dt.grid.H * dt.grid.W
          have h2 := hcount target hrec
          have h3 := count_le_size dt.grid dt.table
          omega
      · intro _ hUN
        exfalso
        rw [h1] at hUN
        exact hrec hUN
  · have h1 : dt.get target = (UNREACHED, dt) := by
      rw [h0, if_pos hv]
    refine ⟨?_, ?_, ?_, ?_, ?_⟩
    · rw [h1]
      exact hI
    · intro _
      rw [h1]
    · intro hTg
      exfalso
      rw [hTg] at hv
      exact hv hgv
    · intro hne
      exfalso
      rw [h1] at hne
      exact hne rfl
    · intro hvT
      exact absurd hvT hv

/-- Claim C3 (amended): under the lazy-BFS oracle invariant `DTInv` —
established at construction by `DTInv_mk` whenever the goal cell is valid and
the grid fits below the `UNREACHED` sentinel — `DistTable.get(target)` returns
`UNREACHED` for an invalid target, returns 0 for the goal itself, returns the
exact shortest 4-connected path length through traversable cells whenever it
returns a value other than `UNREACHED`, has emptied its queue whenever it
returns `UNREACHED` for a valid target, and preserves the invariant. As
literally stated the claim is false: construction never checks the goal cell,
and with an obstacle goal `get(goal)` returns `UNREACHED` instead of 0. -/
theorem claim_C3 (dt : DistTable) (target : Coord) (hI : DTInv dt) :
    (is_valid_coord dt.grid target = false → (dt.get target).1 = UNREACHED) ∧
    (target = dt.goal → (dt.get target).1 = 0) ∧
    ((dt.get target).1 ≠ UNREACHED →
      IsShortestFrom dt.grid dt.goal target (dt.get target).1) ∧
    (is_valid_coord dt.grid target = true → (dt.get target).1 = UNREACHED →
      (dt.get target).2.queue = []) ∧
    DTInv (dt.get target).2 := by
  obtain ⟨h1, h2, h3, h4, h5⟩ := DistTable_get_spec dt target hI
  exact ⟨h2, h3, fun h => (h4 h).1, h5, h1⟩

/-- Witness for `claim_C3`: the 1×3 free corridor with goal (0,0) and
target (0,2), whose oracle invariant is established by `DTInv_mk`. -/
theorem claim_C3_witness :
    ((mkDistTable gLine3 (0, 0)).get (0, 2)).1 ≠ UNREACHED ∧
    IsShortestFrom gLine3 (0, 0) (0, 2)
      (((mkDistTable gLine3 (0, 0)).get (0, 2)).1) := by
  have h := claim_C3 (mkDistTable gLine3 (0, 0)) (0, 2)
    (DTInv_mk gLine3 (0, 0) (by decide) (by decide))
  exact ⟨by decide, h.2.2.1 (by decide)⟩

theorem runInit_aux (s : PState) :
    ∀ (l : List Nat) (prs : List Rat) (st : PState),
    st.grid = s.grid → st.starts = s.starts →
    (∀ m ∈ l, st.dist_tables.getD m (mkDistTable st.grid (0, 0)) =
      s.dist_tables.getD m (mkDistTable s.grid (0, 0))) →
    l.Nodup →
    (l.foldl
      (fun (acc : List Rat × PState) i =>
        let dt := acc.2.dist_tables.getD i (mkDistTable acc.2.grid (0, 0))
        let q := dt.get (acc.2.starts.getD i (0, 0))
        (acc.1 ++ [if q.1 ≠ UNREACHED then (q.1 : Rat) / (acc.2.grid.size : Rat) else 0],
         { acc.2 with dist_tables := acc.2.dist_tables.set i q.2 }))
      (prs, st)).1 = prs ++ l.map (initPrio s)
  | [], prs, st => fun _ _ _ _ => by
    rw [List.foldl_nil, List.map_nil, List.append_nil]
  | i :: l, prs, st => fun hg hst hdt hnd => by
    have hdti : st.dist_tables.getD i (mkDistTable st.grid (0, 0)) =
        s.dist_tables.getD i (mkDistTable s.grid (0, 0)) :=
      hdt i (List.mem_cons_self i l)
    have hstart : st.starts.getD i (0, 0) = s.starts.getD i (0, 0) := by
      rw [hst]
    have hsizeE : st.grid.size = s.grid.size := by
      rw [hg]
    rw [List.foldl_cons, List.map_cons]
    show (List.foldl
      (fun (acc : List Rat × PState) i =>
        let dt := acc.2.dist_tables.getD i (mkDistTable acc.2.grid (0, 0))
        let q := dt.get (acc.2.starts.getD i (0, 0))
        (acc.1 ++ [if q.1 ≠ UNREACHED then (q.1 : Rat) / (acc.2.grid.size : Rat) else 0],
         { acc.2 with dist_tables := acc.2.dist_tables.set i q.2 }))
      (prs ++ [if ((st.dist_tables.getD i (mkDistTable st.grid (0, 0))).get
          (st.starts.getD i (0, 0))).1 ≠ UNREACHED then
          ((((st.dist_tables.getD i (mkDistTable st.grid (0, 0))).get
            (st.starts.getD i (0, 0))).1 : Rat) / (st.grid.size : Rat)) else 0],
        { st with dist_tables := st.dist_tables.set i (((st.dist_tables.getD i (mkDistTable st.grid (0, 0))).get (st.starts.getD i (0, 0))).2) }) l).1 =
      prs ++ (initPrio s i :: List.map (initPrio s) l)
    rw [hdti, hstart, hsizeE]
    have hval : (if ((s.dist_tables.getD i (mkDistTable s.grid (0, 0))).get
          (s.starts.getD i (0, 0))).1 ≠ UNREACHED then
        ((((s.dist_tables.getD i (mkDistTable s.grid (0, 0))).get
          (s.starts.getD i (0, 0))).1 : Rat) / (s.grid.size : Rat)) else 0) =
        initPrio s i := rfl
    rw [hval]
    have hnd2 := List.nodup_cons.mp hnd
    have hdt2 : ∀ m ∈ l,
        ({ st with dist_tables := st.dist_tables.set i (((s.dist_tables.getD i (mkDistTable s.grid (0, 0))).get (s.starts.getD i (0, 0))).2) } : PState).dist_tables.getD m
          (mkDistTable ({ st with dist_tables := st.dist_tables.set i (((s.dist_tables.getD i (mkDistTable s.grid (0, 0))).get (s.starts.getD i (0, 0))).2) } : PState).grid (0, 0)) =
        s.dist_tables.getD m (mkDistTable s.grid (0, 0)) := by
      intro m hm
      have hmi : i ≠ m := fun he => hnd2.1 (by rw [he]; exact hm)
      show (st.dist_tables.set i
          ((s.dist_tables.getD i (mkDistTable s.grid (0, 0))).get
            (s.starts.getD i (0, 0))).2).getD m (mkDistTable st.grid (0, 0)) =
        s.dist_tables.getD m (mkDistTable s.grid (0, 0))
      rw [getD_set_ne st.dist_tables i m _ _ hmi]
      exact hdt m (List.mem_cons_of_mem _ hm)
    have hIH := runInit_aux s l (prs ++ [initPrio s i])
      ({ st with dist_tables := st.dist_tables.set i (((s.dist_tables.getD i (mkDistTable s.grid (0, 0))).get (s.starts.getD i (0, 0))).2) })
      hg hst hdt2 hnd2.2
    rw [hIH, List.append_assoc]
    rfl

/-- Neighbors of an invalid cell: the empty list. -/
theorem get_neighbors_invalid (g : Grid) (c : Coord)
    (h : is_valid_coord g c = false) : get_neighbors g c = [] := by
  unfold get_neighbors
  rw [if_pos (fun hc => by rw [h] at hc; cases hc)]

theorem bfsLoop_nil (g : Grid) (target : Coord) (fuel : Nat) (table : Coord → Nat) :
    bfsLoop g target fuel [] table = some (UNREACHED, [], table) := by
  cases fuel <;> rfl

theorem get_invalid_goal (g : Grid) (goal target : Coord)
    (hgv : is_valid_coord g goal = false) :
    ((mkDistTable g goal).get target).1 = UNREACHED := by
  by_cases hv : is_valid_coord g target = true
  · have htg : target ≠ goal := by
      intro he
      rw [he, hgv] at hv
      cases hv
    have htab : (mkDistTable g goal).table target = UNREACHED := by
      show (if target = goal then 0 else UNREACHED) = UNREACHED
      rw [if_neg htg]
    have hne : goal ≠ target := fun he => htg he.symm
    have h0 : (mkDistTable g goal).get target =
        match bfsLoop g target
            (unreachedCount g (mkDistTable g goal).table + 1 + 1)
            [goal] (mkDistTable g goal).table with
        | some r => (r.1, { mkDistTable g goal with queue := r.2.1, table := r.2.2 })
        | none => (UNREACHED, mkDistTable g goal) := by
      show (if ¬ is_valid_coord g target then ((UNREACHED : Nat), mkDistTable g goal)
        else if (mkDistTable g goal).table target ≠ UNREACHED
          then ((mkDistTable g goal).table target, mkDistTable g goal)
        else match bfsLoop g target
            (unreachedCount g (mkDistTable g goal).table + 1 + 1)
            [goal] (mkDistTable g goal).table with
          | some r => (r.1, { mkDistTable g goal with queue := r.2.1, table := r.2.2 })
          | none => (UNREACHED, mkDistTable g goal)) = _
      rw [if_neg (not_not_intro hv), if_neg (not_not_intro htab)]
    have hloop : bfsLoop g target (unreachedCount g (mkDistTable g goal).table + 1 + 1)
        [goal] (mkDistTable g goal).table =
        some (UNREACHED, [], (mkDistTable g goal).table) := by
      have h1 : bfsLoop g target (unreachedCount g (mkDistTable g goal).table + 1 + 1)
          [goal] (mkDistTable g goal).table =
          bfsLoop g target (unreachedCount g (mkDistTable g goal).table + 1) []
            (mkDistTable g goal).table := by
        rw [show (bfsLoop g target (unreachedCount g (mkDistTable g goal).table + 1 + 1)
            [goal] (mkDistTable g goal).table) =
          (if goal = target then
            some ((mkDistTable g goal).table goal,
              [] ++ (relaxFold ((mkDistTable g goal).table goal) (get_neighbors g goal)
                (mkDistTable g goal).table).2,
              (relaxFold ((mkDistTable g goal).table goal) (get_neighbors g goal)
                (mkDistTable g goal).table).1)
          else bfsLoop g target (unreachedCount g (mkDistTable g goal).table + 1)
            ([] ++ (relaxFold ((mkDistTable g goal).table goal) (get_neighbors g goal)
              (mkDistTable g goal).table).2)
            (relaxFold ((mkDistTable g goal).table goal) (get_neighbors g goal)
              (mkDistTable g goal).table).1) from rfl, if_neg hne]
        rw [get_neighbors_invalid g goal hgv]
        rfl
      rw [h1]
      exact bfsLoop_nil g target _ _
    rw [h0, hloop]
  · have h1 : (mkDistTable g goal).get target = (UNREACHED, mkDistTable g goal) := by
      show (if ¬ is_valid_coord g target then ((UNREACHED : Nat), mkDistTable g goal)
        else if (mkDistTable g goal).table target ≠ UNREACHED
          then ((mkDistTable g goal).table target, mkDistTable g goal)
        else match bfsLoop g target
            (unreachedCount g (mkDistTable g goal).table + 1 + 1)
            [goal] (mkDistTable g goal).table with
          | some r => (r.1, { mkDistTable g goal with queue := r.2.1, table := r.2.2 })
          | none => (UNREACHED, mkDistTable g goal)) = _
      rw [if_pos hv]
    rw [h1]

/-- Claim C10: for a planner state whose distance tables are the constructed
ones (`mkDistTable` per goal, as `PIBT.__init__` builds them) on a grid below
the `UNREACHED` sentinel, `PIBT.run` initializes agent `i`'s priority to
`d / (H*W)` where `d` is the oracle's distance from `starts[i]` to
`goals[i]` — an exact shortest-path length whenever it is not `UNREACHED` —
and to 0 when that distance is `UNREACHED` (in particular whenever the goal
cell itself is untraversable); consequently every initial priority lies in
`[0, 1)`. -/
theorem claim_C10 (s : PState)
    (hsz : s.grid.H * s.grid.W < UNREACHED)
    (htab : ∀ m, m < s.N → s.dist_tables.getD m (mkDistTable s.grid (0, 0)) =
      mkDistTable s.grid (s.goals.getD m (0, 0)))
    (i : Nat) (hi : i < s.N) :
    (runInitPriorities s).1.getD i 0 = initPrio s i ∧
    (((s.dist_tables.getD i (mkDistTable s.grid (0, 0))).get
        (s.starts.getD i (0, 0))).1 ≠ UNREACHED →
      initPrio s i = ((((s.dist_tables.getD i (mkDistTable s.grid (0, 0))).get
        (s.starts.getD i (0, 0))).1 : Rat) / (s.grid.size : Rat)) ∧
      IsShortestFrom s.grid (s.goals.getD i (0, 0)) (s.starts.getD i (0, 0))
        ((s.dist_tables.getD i (mkDistTable s.grid (0, 0))).get
          (s.starts.getD i (0, 0))).1) ∧
    (((s.dist_tables.getD i (mkDistTable s.grid (0, 0))).get
        (s.starts.getD i (0, 0))).1 = UNREACHED → initPrio s i = 0) ∧
    0 ≤ initPrio s i ∧ initPrio s i < 1 := by
  have hti := htab i hi
  have hite : initPrio s i =
      if ((s.dist_tables.getD i (mkDistTable s.grid (0, 0))).get
          (s.starts.getD i (0, 0))).1 ≠ UNREACHED then
        ((((s.dist_tables.getD i (mkDistTable s.grid (0, 0))).get
          (s.starts.getD i (0, 0))).1 : Rat) / (s.grid.size : Rat))
      else 0 := rfl
  have h1 : (runInitPriorities s).1 = [] ++ (List.range s.N).map (initPrio s) :=
    runInit_aux s (List.range s.N) [] s rfl rfl (fun _ _ => rfl) (List.nodup_range s.N)
  rw [List.nil_append] at h1
  have hc1 : (runInitPriorities s).1.getD i 0 = initPrio s i := by
    rw [h1]
    exact getD_map_range (initPrio s) 0 s.N i hi
  by_cases hgv : is_valid_coord s.grid (s.goals.getD i (0, 0)) = true
  · have hInv : DTInv (s.dist_tables.getD i (mkDistTable s.grid (0, 0))) := by
      rw [hti]
      exact DTInv_mk s.grid (s.goals.getD i (0, 0)) hsz hgv
    obtain ⟨hD, hinvalid, hgoal0, hshort, hqueue⟩ :=
      DistTable_get_spec (s.dist_tables.getD i (mkDistTable s.grid (0, 0)))
        (s.starts.getD i (0, 0)) hInv
    have hgrid : (s.dist_tables.getD i (mkDistTable s.grid (0, 0))).grid = s.grid := by
      rw [hti]
      rfl
    have hgoal : (s.dist_tables.getD i (mkDistTable s.grid (0, 0))).goal =
        s.goals.getD i (0, 0) := by
      rw [hti]
      rfl
    refine ⟨hc1, ?_, ?_, ?_⟩
    · intro hne
      constructor
      · rw [hite, if_pos hne]
      · have hres := (hshort hne).1
        rw [hgrid, hgoal] at hres
        exact hres
    · intro hUN
      rw [hite, if_neg (not_not_intro hUN)]
    · by_cases hne : ((s.dist_tables.getD i (mkDistTable s.grid (0, 0))).get
          (s.starts.getD i (0, 0))).1 ≠ UNREACHED
      · rw [hite, if_pos hne]
        have hlt := (hshort hne).2
        rw [hgrid] at hlt
        have hlt2 : ((s.dist_tables.getD i (mkDistTable s.grid (0, 0))).get
            (s.starts.getD i (0, 0))).1 < s.grid.size := hlt
        have hpos : 0 < s.grid.size := by omega
        constructor
        · exact div_nonneg (Nat.cast_nonneg _) (Nat.cast_nonneg _)
        · rw [div_lt_one (by exact_mod_cast hpos)]
          exact_mod_cast hlt2
      · rw [hite, if_neg hne]
        exact ⟨le_refl 0, zero_lt_one⟩
  · have hgvF : is_valid_coord s.grid (s.goals.getD i (0, 0)) = false := by
      cases hcase : is_valid_coord s.grid (s.goals.getD i (0, 0))
      · rfl
      · exact absurd hcase hgv
    have hU : ((s.dist_tables.getD i (mkDistTable s.grid (0, 0))).get
        (s.starts.getD i (0, 0))).1 = UNREACHED := by
      rw [hti]
      exact get_invalid_goal s.grid (s.goals.getD i (0, 0)) (s.starts.getD i (0, 0)) hgvF
    have hz : initPrio s i = 0 := by
      rw [hite, if_neg (not_not_intro hU)]
    refine ⟨hc1, ?_, fun _ => hz, ?_⟩
    · intro hne
      exact absurd hU hne
    · rw [hz]
      exact ⟨le_refl 0, zero_lt_one⟩

/-- Witness for `claim_C10`: the 2-agent corridor instance `sD`, agent 0. -/
theorem claim_C10_witness :
    (runInitPriorities sD).1.getD 0 0 = initPrio sD 0 ∧
    0 ≤ initPrio sD 0 ∧ initPrio sD 0 < 1 ∧
    IsShortestFrom sD.grid (sD.goals.getD 0 (0, 0)) (sD.starts.getD 0 (0, 0))
      ((sD.dist_tables.getD 0 (mkDistTable sD.grid (0, 0))).get
        (sD.starts.getD 0 (0, 0))).1 := by
  have h := claim_C10 sD (by decide)
    (fun m hm => by
      have hm2 : m = 0 ∨ m = 1 := by
        have hN : sD.N = 2 := rfl
        omega
      rcases hm2 with rfl | rfl
      · rfl
      · rfl)
    0 (by decide)
  exact ⟨h.1, h.2.2.2.1, h.2.2.2.2, (h.2.1 (by decide)).2⟩

/-! ### Dispatcher: priority aging and job-state invariants -/

theorem foldl_pres {α β γ : Type} (f : β → γ) (body : β → α → β)
    (hbody : ∀ st i, f (body st i) = f st) :
    ∀ (l : List α) (st : β), f (l.foldl body st) = f st
  | [], _ => rfl
  | i :: l, st => by
    rw [List.foldl_cons, foldl_pres f body hbody l (body st i), hbody st i]

theorem step_goals (oracle : ShuffleOracle) (s : PState) (Q_from : List Coord)
    (priorities : List Rat) :
    (step oracle s Q_from priorities).2.goals = s.goals := by
  have h := (stepMid_core oracle s Q_from priorities).2.2.2.2.2.2.2.2.1
  calc (step oracle s Q_from priorities).2.goals
      = (stepMain oracle (stepSetup s Q_from priorities)).goals := rfl
  _ = s.goals := h

theorem step_N (oracle : ShuffleOracle) (s : PState) (Q_from : List Coord)
    (priorities : List Rat) :
    (step oracle s Q_from priorities).2.N = s.N := by
  have h := (stepMid_core oracle s Q_from priorities).1
  calc (step oracle s Q_from priorities).2.N
      = (stepMain oracle (stepSetup s Q_from priorities)).N := rfl
  _ = s.N := h

theorem tickPrioBody_len (cfg goals : List Coord) (pr : List Rat) (i : Nat) :
    (tickPrioBody cfg goals pr i).length = pr.length := by
  unfold tickPrioBody
  by_cases hc : cfg.getD i (0, 0) ≠ goals.getD i (0, 0)
  · rw [if_pos hc, List.length_set]
  · rw [if_neg hc, List.length_set]

theorem tickPrioBody_ne (cfg goals : List Coord) (pr : List Rat) (i j : Nat)
    (h : i ≠ j) : (tickPrioBody cfg goals pr i).getD j 0 = pr.getD j 0 := by
  unfold tickPrioBody
  by_cases hc : cfg.getD i (0, 0) ≠ goals.getD i (0, 0)
  · rw [if_pos hc, getD_set_ne _ i j _ _ h]
  · rw [if_neg hc, getD_set_ne _ i j _ _ h]

theorem tickPrioBody_self (cfg goals : List Coord) (pr : List Rat) (i : Nat)
    (h : i < pr.length) :
    (tickPrioBody cfg goals pr i).getD i 0 =
      if cfg.getD i (0, 0) ≠ goals.getD i (0, 0) then pr.getD i 0 + 1
      else pr.getD i 0 - (⌊pr.getD i 0⌋ : Rat) := by
  unfold tickPrioBody
  by_cases hc : cfg.getD i (0, 0) ≠ goals.getD i (0, 0)
  · rw [if_pos hc, if_pos hc, getD_set_self _ i _ _ h]
  · rw [if_neg hc, if_neg hc, getD_set_self _ i _ _ h]

theorem tickAux (cfg goals : List Coord) :
    ∀ (m k : Nat) (pr : List Rat),
    ((List.range' k m).foldl (tickPrioBody cfg goals) pr).length = pr.length ∧
    (∀ i, i < k →
      ((List.range' k m).foldl (tickPrioBody cfg goals) pr).getD i 0 = pr.getD i 0) ∧
    (∀ i, k ≤ i → i < k + m → i < pr.length →
      ((List.range' k m).foldl (tickPrioBody cfg goals) pr).getD i 0 =
        if cfg.getD i (0, 0) ≠ goals.getD i (0, 0) then pr.getD i 0 + 1
        else pr.getD i 0 - (⌊pr.getD i 0⌋ : Rat))
  | 0, k, pr => ⟨rfl, fun _ _ => rfl, fun _ h1 h2 _ => absurd h2 (by omega)⟩
  | m + 1, k, pr => by
    rw [List.range'_succ]
    simp only [List.foldl_cons]
    obtain ⟨ih1, ih2, ih3⟩ := tickAux cfg goals m (k + 1) (tickPrioBody cfg goals pr k)
    refine ⟨?_, ?_, ?_⟩
    · rw [ih1, tickPrioBody_len]
    · intro i hik
      rw [ih2 i (by omega), tickPrioBody_ne cfg goals pr k i (by omega)]
    · intro i hki hikm hilen
      by_cases hik : i = k
      · rw [ih2 i (by omega), hik, tickPrioBody_self cfg goals pr k (by omega)]
      · rw [ih3 i (by omega) (by omega) (by rw [tickPrioBody_len]; exact hilen),
          tickPrioBody_ne cfg goals pr k i (by omega)]

theorem tickPriorities_char (cfg goals : List Coord) (pr : List Rat) (n i : Nat)
    (hin : i < n) (hilen : i < pr.length) :
    (tickPriorities cfg goals pr n).getD i 0 =
      if cfg.getD i (0, 0) ≠ goals.getD i (0, 0) then pr.getD i 0 + 1
      else pr.getD i 0 - (⌊pr.getD i 0⌋ : Rat) := by
  unfold tickPriorities
  rw [List.range_eq_range']
  exact (tickAux cfg goals n 0 pr).2.2 i (Nat.zero_le i) (by omega) hilen

theorem runPrioBody_len (Q goals : List Coord) (acc : List Rat × Bool) (i : Nat) :
    (runPrioBody Q goals acc i).1.length = acc.1.length := by
  unfold runPrioBody
  by_cases hc : Q.getD i (0, 0) ≠ goals.getD i (0, 0)
  · rw [if_pos hc]
    exact List.length_set _ _ _
  · rw [if_neg hc]
    exact List.length_set _ _ _

theorem runPrioBody_ne (Q goals : List Coord) (acc : List Rat × Bool) (i j : Nat)
    (h : i ≠ j) : (runPrioBody Q goals acc i).1.getD j 0 = acc.1.getD j 0 := by
  unfold runPrioBody
  by_cases hc : Q.getD i (0, 0) ≠ goals.getD i (0, 0)
  · rw [if_pos hc]
    exact getD_set_ne _ i j _ _ h
  · rw [if_neg hc]
    exact getD_set_ne _ i j _ _ h

theorem runPrioBody_self (Q goals : List Coord) (acc : List Rat × Bool) (i : Nat)
    (h : i < acc.1.length) :
    (runPrioBody Q goals acc i).1.getD i 0 =
      if Q.getD i (0, 0) ≠ goals.getD i (0, 0) then acc.1.getD i 0 + 1
      else acc.1.getD i 0 - (⌊acc.1.getD i 0⌋ : Rat) := by
  unfold runPrioBody
  by_cases hc : Q.getD i (0, 0) ≠ goals.getD i (0, 0)
  · rw [if_pos hc, if_pos hc]
    exact getD_set_self _ i _ _ h
  · rw [if_neg hc, if_neg hc]
    exact getD_set_self _ i _ _ h

theorem runAux (Q goals : List Coord) :
    ∀ (m k : Nat) (acc : List Rat × Bool),
    ((List.range' k m).foldl (runPrioBody Q goals) acc).1.length = acc.1.length ∧
    (∀ i, i < k →
      ((List.range' k m).foldl (runPrioBody Q goals) acc).1.getD i 0 = acc.1.getD i 0) ∧
    (∀ i, k ≤ i → i < k + m → i < acc.1.length →
      ((List.range' k m).foldl (runPrioBody Q goals) acc).1.getD i 0 =
        if Q.getD i (0, 0) ≠ goals.getD i (0, 0) then acc.1.getD i 0 + 1
        else acc.1.getD i 0 - (⌊acc.1.getD i 0⌋ : Rat))
  | 0, k, acc => ⟨rfl, fun _ _ => rfl, fun _ h1 h2 _ => absurd h2 (by omega)⟩
  | m + 1, k, acc => by
    rw [List.range'_succ]
    simp only [List.foldl_cons]
    obtain ⟨ih1, ih2, ih3⟩ := runAux Q goals m (k + 1) (runPrioBody Q goals acc k)
    refine ⟨?_, ?_, ?_⟩
    · rw [ih1, runPrioBody_len]
    · intro i hik
      rw [ih2 i (by omega), runPrioBody_ne Q goals acc k i (by omega)]
    · intro i hki hikm hilen
      by_cases hik : i = k
      · rw [ih2 i (by omega), hik, runPrioBody_self Q goals acc k (by omega)]
      · rw [ih3 i (by omega) (by omega) (by rw [runPrioBody_len]; exact hilen),
          runPrioBody_ne Q goals acc k i (by omega)]

theorem runPriorityUpdate_char (Q goals : List Coord) (priorities : List Rat)
    (N i : Nat) (hin : i < N) (hilen : i < priorities.length) :
    (runPriorityUpdate Q goals priorities N).1.getD i 0 =
      if Q.getD i (0, 0) ≠ goals.getD i (0, 0) then priorities.getD i 0 + 1
      else priorities.getD i 0 - (⌊priorities.getD i 0⌋ : Rat) := by
  unfold runPriorityUpdate
  rw [List.range_eq_range']
  exact (runAux Q goals N 0 (priorities, true)).2.2 i (Nat.zero_le i) (by omega) hilen

theorem arrivalsBody_eq_none (st : MAPDState) (i : Nat)
    (h : (st.agents.getD i { agent_id := i }).current_task = none) :
    arrivalsBody st i = st := by
  unfold arrivalsBody
  rw [h]

theorem arrivalsBody_eq_some (st : MAPDState) (i : Nat) (task : Task)
    (h : (st.agents.getD i { agent_id := i }).current_task = some task) :
    arrivalsBody st i =
      if (st.agents.getD i { agent_id := i }).state = AgentState.MOVING_TO_PICKUP ∧
          st.current_config.getD (st.agents.getD i { agent_id := i }).agent_id (0, 0) =
            task.pickup then
        { st with
          agents := st.agents.set i
            { st.agents.getD i { agent_id := i } with
              state := AgentState.MOVING_TO_DELIVERY,
              current_task := some { task with picked_up_at := some st.timestep } },
          pibt := update_goal st.pibt (st.agents.getD i { agent_id := i }).agent_id
            task.delivery }
      else if (st.agents.getD i { agent_id := i }).state = AgentState.MOVING_TO_DELIVERY ∧
          st.current_config.getD (st.agents.getD i { agent_id := i }).agent_id (0, 0) =
            task.delivery then
        { st with
          agents := st.agents.set i
            { st.agents.getD i { agent_id := i } with
              state := AgentState.IDLE, current_task := none },
          active_tasks := st.active_tasks.filter (fun t => t.task_id ≠ task.task_id),
          completed_tasks := st.completed_tasks ++
            [{ task with delivered_at := some st.timestep }],
          pibt := update_goal st.pibt (st.agents.getD i { agent_id := i }).agent_id
            (st.current_config.getD (st.agents.getD i { agent_id := i }).agent_id (0, 0)) }
      else st := by
  unfold arrivalsBody
  rw [h]

theorem arrivalsBody_frame (st : MAPDState) (i : Nat) :
    (arrivalsBody st i).current_config = st.current_config ∧
    (arrivalsBody st i).priorities = st.priorities ∧
    (arrivalsBody st i).agents.length = st.agents.length ∧
    (arrivalsBody st i).pibt.goals.length = st.pibt.goals.length ∧
    (arrivalsBody st i).pibt.N = st.pibt.N ∧
    (arrivalsBody st i).grid = st.grid ∧
    (arrivalsBody st i).timestep = st.timestep := by
  cases hct : (st.agents.getD i { agent_id := i }).current_task with
  | none =>
    rw [arrivalsBody_eq_none st i hct]
    exact ⟨rfl, rfl, rfl, rfl, rfl, rfl, rfl⟩
  | some task =>
    rw [arrivalsBody_eq_some st i task hct]
    by_cases h1 : (st.agents.getD i { agent_id := i }).state =
          AgentState.MOVING_TO_PICKUP ∧
        st.current_config.getD (st.agents.getD i { agent_id := i }).agent_id (0, 0) =
          task.pickup
    · rw [if_pos h1]
      refine ⟨rfl, rfl, List.length_set _ _ _, ?_, rfl, rfl, rfl⟩
      exact List.length_set _ _ _
    · rw [if_neg h1]
      by_cases h2 : (st.agents.getD i { agent_id := i }).state =
            AgentState.MOVING_TO_DELIVERY ∧
          st.current_config.getD (st.agents.getD i { agent_id := i }).agent_id (0, 0) =
            task.delivery
      · rw [if_pos h2]
        refine ⟨rfl, rfl, List.length_set _ _ _, ?_, rfl, rfl, rfl⟩
        exact List.length_set _ _ _
      · rw [if_neg h2]
        exact ⟨rfl, rfl, rfl, rfl, rfl, rfl, rfl⟩

theorem arrivals_frame (s : MAPDState) :
    (_check_arrivals s).current_config = s.current_config ∧
    (_check_arrivals s).priorities = s.priorities ∧
    (_check_arrivals s).agents.length = s.agents.length ∧
    (_check_arrivals s).pibt.goals.length = s.pibt.goals.length ∧
    (_check_arrivals s).pibt.N = s.pibt.N ∧
    (_check_arrivals s).grid = s.grid ∧
    (_check_arrivals s).timestep = s.timestep := by
  refine ⟨?_, ?_, ?_, ?_, ?_, ?_, ?_⟩
  · exact foldl_pres (fun st => st.current_config) arrivalsBody
      (fun st i => (arrivalsBody_frame st i).1) _ _
  · exact foldl_pres (fun st => st.priorities) arrivalsBody
      (fun st i => (arrivalsBody_frame st i).2.1) _ _
  · exact foldl_pres (fun st => st.agents.length) arrivalsBody
      (fun st i => (arrivalsBody_frame st i).2.2.1) _ _
  · exact foldl_pres (fun st => st.pibt.goals.length) arrivalsBody
      (fun st i => (arrivalsBody_frame st i).2.2.2.1) _ _
  · exact foldl_pres (fun st => st.pibt.N) arrivalsBody
      (fun st i => (arrivalsBody_frame st i).2.2.2.2.1) _ _
  · exact foldl_pres (fun st => st.grid) arrivalsBody
      (fun st i => (arrivalsBody_frame st i).2.2.2.2.2.1) _ _
  · exact foldl_pres (fun st => st.timestep) arrivalsBody
      (fun st i => (arrivalsBody_frame st i).2.2.2.2.2.2) _ _

theorem generate_frame (pd idr : Nat → Nat) (s : MAPDState) :
    (_generate_tasks pd idr s).current_config = s.current_config ∧
    (_generate_tasks pd idr s).priorities = s.priorities ∧
    (_generate_tasks pd idr s).agents = s.agents ∧
    (_generate_tasks pd idr s).pibt = s.pibt ∧
    (_generate_tasks pd idr s).grid = s.grid ∧
    (_generate_tasks pd idr s).active_tasks = s.active_tasks ∧
    (_generate_tasks pd idr s).completed_tasks = s.completed_tasks := by
  refine ⟨?_, ?_, ?_, ?_, ?_, ?_, ?_⟩
  · exact foldl_pres (fun (st : MAPDState) => st.current_config) (genBody idr)
      (fun _ _ => rfl) _ _
  · exact foldl_pres (fun (st : MAPDState) => st.priorities) (genBody idr)
      (fun _ _ => rfl) _ _
  · exact foldl_pres (fun (st : MAPDState) => st.agents) (genBody idr)
      (fun _ _ => rfl) _ _
  · exact foldl_pres (fun (st : MAPDState) => st.pibt) (genBody idr)
      (fun _ _ => rfl) _ _
  · exact foldl_pres (fun (st : MAPDState) => st.grid) (genBody idr)
      (fun _ _ => rfl) _ _
  · exact foldl_pres (fun (st : MAPDState) => st.active_tasks) (genBody idr)
      (fun _ _ => rfl) _ _
  · exact foldl_pres (fun (st : MAPDState) => st.completed_tasks) (genBody idr)
      (fun _ _ => rfl) _ _

theorem assignGo_cons (task : Task) (rest : List Task) (idle : List Nat)
    (st : MAPDState) (acc : List Nat) :
    assignGo (task :: rest) idle st acc =
      if idle.isEmpty then (st, acc)
      else
        match (assignM st idle task).1 with
        | none => (assignSt1 st idle task, acc)
        | some best =>
          if (assignQ st idle task best).1 = UNREACHED then
            assignGo rest idle (assignSt2 st idle task best) acc
          else
            assignGo rest (idle.filter (fun a => a ≠ best.1))
              (assignSt3 st idle task best) (acc ++ [task.task_id]) := rfl

theorem assignGo_frame :
    ∀ (tasks : List Task) (idle : List Nat) (st : MAPDState) (acc : List Nat),
    (assignGo tasks idle st acc).1.current_config = st.current_config ∧
    (assignGo tasks idle st acc).1.priorities = st.priorities ∧
    (assignGo tasks idle st acc).1.agents.length = st.agents.length ∧
    (assignGo tasks idle st acc).1.pibt.goals.length = st.pibt.goals.length ∧
    (assignGo tasks idle st acc).1.pibt.N = st.pibt.N ∧
    (assignGo tasks idle st acc).1.grid = st.grid ∧
    (assignGo tasks idle st acc).1.timestep = st.timestep
  | [], idle, st, acc => ⟨rfl, rfl, rfl, rfl, rfl, rfl, rfl⟩
  | task :: rest, idle, st, acc => by
    rw [assignGo_cons]
    by_cases he : idle.isEmpty = true
    · rw [if_pos he]
      exact ⟨rfl, rfl, rfl, rfl, rfl, rfl, rfl⟩
    · rw [if_neg he]
      cases hm : (assignM st idle task).1 with
      | none => exact ⟨rfl, rfl, rfl, rfl, rfl, rfl, rfl⟩
      | some best =>
        have hfr : (if (assignQ st idle task best).1 = UNREACHED then
              assignGo rest idle (assignSt2 st idle task best) acc
            else assignGo rest (idle.filter (fun a => a ≠ best.1))
              (assignSt3 st idle task best) (acc ++ [task.task_id])).1.current_config =
              st.current_config ∧
            (if (assignQ st idle task best).1 = UNREACHED then
              assignGo rest idle (assignSt2 st idle task best) acc
            else assignGo rest (idle.filter (fun a => a ≠ best.1))
              (assignSt3 st idle task best)
              (acc ++ [task.task_id])).1.priorities = st.priorities ∧
            (if (assignQ st idle task best).1 = UNREACHED then
              assignGo rest idle (assignSt2 st idle task best) acc
            else assignGo rest (idle.filter (fun a => a ≠ best.1))
              (assignSt3 st idle task best)
              (acc ++ [task.task_id])).1.agents.length = st.agents.length ∧
            (if (assignQ st idle task best).1 = UNREACHED then
              assignGo rest idle (assignSt2 st idle task best) acc
            else assignGo rest (idle.filter (fun a => a ≠ best.1))
              (assignSt3 st idle task best)
              (acc ++ [task.task_id])).1.pibt.goals.length = st.pibt.goals.length ∧
            (if (assignQ st idle task best).1 = UNREACHED then
              assignGo rest idle (assignSt2 st idle task best) acc
            else assignGo rest (idle.filter (fun a => a ≠ best.1))
              (assignSt3 st idle task best)
              (acc ++ [task.task_id])).1.pibt.N = st.pibt.N ∧
            (if (assignQ st idle task best).1 = UNREACHED then
              assignGo rest idle (assignSt2 st idle task best) acc
            else assignGo rest (idle.filter (fun a => a ≠ best.1))
              (assignSt3 st idle task best)
              (acc ++ [task.task_id])).1.grid = st.grid ∧
            (if (assignQ st idle task best).1 = UNREACHED then
              assignGo rest idle (assignSt2 st idle task best) acc
            else assignGo rest (idle.filter (fun a => a ≠ best.1))
              (assignSt3 st idle task best)
              (acc ++ [task.task_id])).1.timestep = st.timestep := by
          by_cases hq : (assignQ st idle task best).1 = UNREACHED
          · rw [if_pos hq]
            obtain ⟨f1, f2, f3, f4, f5, f6, f7⟩ :=
              assignGo_frame rest idle (assignSt2 st idle task best) acc
            exact ⟨f1.trans rfl, f2.trans rfl, f3.trans rfl, f4.trans rfl, f5.trans rfl,
              f6.trans rfl, f7.trans rfl⟩
          · rw [if_neg hq]
            obtain ⟨f1, f2, f3, f4, f5, f6, f7⟩ :=
              assignGo_frame rest (idle.filter (fun a => a ≠ best.1))
                (assignSt3 st idle task best) (acc ++ [task.task_id])
            have h3 : (assignSt3 st idle task best).agents.length = st.agents.length := by
              show ((assignSt2 st idle task best).agents.map _).length = st.agents.length
              rw [List.length_map]
              rfl
            have h4 : (assignSt3 st idle task best).pibt.goals.length =
                st.pibt.goals.length := by
              show ((assignSt2 st idle task best).pibt.goals.set best.1
                task.pickup).length = st.pibt.goals.length
              rw [List.length_set]
              rfl
            exact ⟨f1.trans rfl, f2.trans rfl, f3.trans h3, f4.trans h4, f5.trans rfl,
              f6.trans rfl, f7.trans rfl⟩
        exact ⟨hfr.1, hfr.2.1, hfr.2.2.1, hfr.2.2.2.1, hfr.2.2.2.2.1, hfr.2.2.2.2.2.1,
          hfr.2.2.2.2.2.2⟩

theorem assign_frame (s : MAPDState) :
    (_assign_tasks s).current_config = s.current_config ∧
    (_assign_tasks s).priorities = s.priorities ∧
    (_assign_tasks s).agents.length = s.agents.length ∧
    (_assign_tasks s).pibt.goals.length = s.pibt.goals.length ∧
    (_assign_tasks s).pibt.N = s.pibt.N ∧
    (_assign_tasks s).grid = s.grid ∧
    (_assign_tasks s).timestep = s.timestep := by
  obtain ⟨f1, f2, f3, f4, f5, f6, f7⟩ := assignGo_frame s.pending_tasks
    ((s.agents.filter (fun a => a.state = AgentState.IDLE)).map (fun a => a.agent_id))
    s []
  exact ⟨f1, f2, f3, f4, f5, f6, f7⟩

/-- Claim C6: on every tick of `MAPDSimulation` an agent away from its
planner goal has its priority incremented by exactly 1 and an agent at its
goal has its fractional part kept (`p - ⌊p⌋`), the goals being the planner
goals in force at the priority update (which the planner step preserves
into the returned state); and every iteration of `PIBT.run` applies the
same motion rule through `runPriorityUpdate`. -/
theorem claim_C6 (poissonDraw intDraw : Nat → Nat) (oracle : ShuffleOracle)
    (s : MAPDState) (i : Nat) (hi : i < s.agents.length)
    (hlen : i < s.priorities.length) :
    ((tick poissonDraw intDraw oracle s).2.priorities.getD i 0 =
      if s.current_config.getD i (0, 0) ≠
          (tick poissonDraw intDraw oracle s).2.pibt.goals.getD i (0, 0) then
        s.priorities.getD i 0 + 1
      else s.priorities.getD i 0 - (⌊s.priorities.getD i 0⌋ : Rat)) ∧
    (∀ (Q goals : List Coord) (priorities : List Rat) (N : Nat) (j : Nat),
      j < N → j < priorities.length →
      (runPriorityUpdate Q goals priorities N).1.getD j 0 =
        if Q.getD j (0, 0) ≠ goals.getD j (0, 0) then priorities.getD j 0 + 1
        else priorities.getD j 0 - (⌊priorities.getD j 0⌋ : Rat)) := by
  have hkey1 : (tick poissonDraw intDraw oracle s).2.priorities =
      tickPriorities
        (_assign_tasks (_check_arrivals (_generate_tasks poissonDraw intDraw
          { s with timestep := s.timestep + 1 }))).current_config
        (_assign_tasks (_check_arrivals (_generate_tasks poissonDraw intDraw
          { s with timestep := s.timestep + 1 }))).pibt.goals
        (_assign_tasks (_check_arrivals (_generate_tasks poissonDraw intDraw
          { s with timestep := s.timestep + 1 }))).priorities
        (_assign_tasks (_check_arrivals (_generate_tasks poissonDraw intDraw
          { s with timestep := s.timestep + 1 }))).agents.length := rfl
  obtain ⟨g1, g2, g3, g4, g5, g6, g7⟩ := generate_frame poissonDraw intDraw
    { s with timestep := s.timestep + 1 }
  obtain ⟨a1, a2, a3, a4, a5, a6, a7⟩ := arrivals_frame
    (_generate_tasks poissonDraw intDraw { s with timestep := s.timestep + 1 })
  obtain ⟨b1, b2, b3, b4, b5, b6, b7⟩ := assign_frame
    (_check_arrivals (_generate_tasks poissonDraw intDraw
      { s with timestep := s.timestep + 1 }))
  have hcfg : (_assign_tasks (_check_arrivals (_generate_tasks poissonDraw intDraw
      { s with timestep := s.timestep + 1 }))).current_config = s.current_config :=
    b1.trans (a1.trans (g1.trans rfl))
  have hpri : (_assign_tasks (_check_arrivals (_generate_tasks poissonDraw intDraw
      { s with timestep := s.timestep + 1 }))).priorities = s.priorities :=
    b2.trans (a2.trans (g2.trans rfl))
  have hlen4 : (_assign_tasks (_check_arrivals (_generate_tasks poissonDraw intDraw
      { s with timestep := s.timestep + 1 }))).agents.length = s.agents.length :=
    b3.trans (a3.trans ((congrArg List.length g3).trans rfl))
  have hgoals : (tick poissonDraw intDraw oracle s).2.pibt.goals =
      (_assign_tasks (_check_arrivals (_generate_tasks poissonDraw intDraw
        { s with timestep := s.timestep + 1 }))).pibt.goals :=
    step_goals oracle _ _ _
  constructor
  · have hchar := tickPriorities_char
      (_assign_tasks (_check_arrivals (_generate_tasks poissonDraw intDraw
        { s with timestep := s.timestep + 1 }))).current_config
      (_assign_tasks (_check_arrivals (_generate_tasks poissonDraw intDraw
        { s with timestep := s.timestep + 1 }))).pibt.goals
      (_assign_tasks (_check_arrivals (_generate_tasks poissonDraw intDraw
        { s with timestep := s.timestep + 1 }))).priorities
      (_assign_tasks (_check_arrivals (_generate_tasks poissonDraw intDraw
        { s with timestep := s.timestep + 1 }))).agents.length i
      (by rw [hlen4]; exact hi) (by rw [hpri]; exact hlen)
    rw [hkey1, hchar, hcfg, hpri, hgoals]
  · intro Q goals priorities N j hjN hjlen
    exact runPriorityUpdate_char Q goals priorities N j hjN hjlen

/-- Witness for `claim_C6` at the concrete one-agent simulation `mapdWit`
and a concrete `runPriorityUpdate` instance. -/
theorem claim_C6_witness :
    ((tick (fun _ => 0) (fun _ => 0) idShuffle mapdWit).2.priorities.getD 0 0 =
      if mapdWit.current_config.getD 0 (0, 0) ≠
          (tick (fun _ => 0) (fun _ => 0) idShuffle mapdWit).2.pibt.goals.getD 0 (0, 0)
        then mapdWit.priorities.getD 0 0 + 1
      else mapdWit.priorities.getD 0 0 - (⌊mapdWit.priorities.getD 0 0⌋ : Rat)) ∧
    ((runPriorityUpdate [(0, 0)] [(0, 1)] [0] 1).1.getD 0 0 =
      if ([(0, 0)] : List Coord).getD 0 (0, 0) ≠ ([(0, 1)] : List Coord).getD 0 (0, 0)
        then ([0] : List Rat).getD 0 0 + 1
      else ([0] : List Rat).getD 0 0 - (⌊([0] : List Rat).getD 0 0⌋ : Rat)) := by
  have h := claim_C6 (fun _ => 0) (fun _ => 0) idShuffle mapdWit 0 (by decide) (by decide)
  exact ⟨h.1, h.2 [(0, 0)] [(0, 1)] [0] 1 0 (by decide) (by decide)⟩

theorem simInv_congr (s s' : MAPDState) (h1 : s'.agents = s.agents)
    (h2 : s'.pibt.goals = s.pibt.goals) (h3 : s'.pibt.N = s.pibt.N)
    (hI : SimInv s) : SimInv s' := by
  unfold SimInv
  rw [h1, h2, h3]
  exact hI

theorem getD_map {α β : Type} (f : α → β) :
    ∀ (l : List α) (j : Nat) (d : β) (d2 : α), j < l.length →
      (l.map f).getD j d = f (l.getD j d2)
  | [], _, _, _, h => absurd h (by simp)
  | _ :: _, 0, _, _, _ => rfl
  | _ :: l, j + 1, d, d2, h => getD_map f l j d d2 (by simpa using h)

theorem simInvOn_update (agents : List AgentInfo) (goals : List Coord) (N : Nat)
    (hI : SimInvOn agents goals N) (i : Nat) (hilt : i < agents.length)
    (a' : AgentInfo) (g' : Coord) (haid : a'.agent_id = i)
    (hok : (a'.state = AgentState.IDLE ↔ a'.current_task = none) ∧
      (∀ tk, a'.current_task = some tk →
        (a'.state = AgentState.MOVING_TO_PICKUP → g' = tk.pickup) ∧
        (a'.state = AgentState.MOVING_TO_DELIVERY → g' = tk.delivery))) :
    SimInvOn (agents.set i a') (goals.set i g') N := by
  obtain ⟨hlen, hglen, hids, hinv⟩ := hI
  have hglt : i < goals.length := by omega
  refine ⟨?_, ?_, ?_, ?_⟩
  · rw [List.length_set]
    exact hlen
  · rw [List.length_set]
    exact hglen
  · intro j hj
    rw [List.length_set] at hj
    by_cases hji : j = i
    · rw [hji, getD_set_self agents i a' { agent_id := i } hilt]
      exact haid
    · rw [getD_set_ne agents i j a' { agent_id := j } (fun he => hji he.symm)]
      exact hids j hj
  · intro j hj
    rw [List.length_set] at hj
    by_cases hji : j = i
    · rw [hji, getD_set_self agents i a' { agent_id := i } hilt,
        getD_set_self goals i g' (0, 0) hglt]
      exact hok
    · rw [getD_set_ne agents i j a' { agent_id := j } (fun he => hji he.symm),
        getD_set_ne goals i j g' (0, 0) (fun he => hji he.symm)]
      exact hinv j hj

theorem simInvOn_assign (agents : List AgentInfo) (goals : List Coord) (N : Nat)
    (hI : SimInvOn agents goals N) (b : Nat) (hb : b < agents.length) (task : Task) :
    SimInvOn
      (agents.map (fun a =>
        if a.agent_id = b then
          { a with state := AgentState.MOVING_TO_PICKUP,
                   current_task := some { task with assigned_to := some b } }
        else a))
      (goals.set b task.pickup) N := by
  obtain ⟨hlen, hglen, hids, hinv⟩ := hI
  have hblt : b < goals.length := by omega
  refine ⟨?_, ?_, ?_, ?_⟩
  · rw [List.length_map]
    exact hlen
  · rw [List.length_set]
    exact hglen
  · intro j hj
    rw [List.length_map] at hj
    rw [getD_map _ agents j _ { agent_id := j } hj]
    by_cases hjb : (agents.getD j { agent_id := j }).agent_id = b
    · rw [if_pos hjb]
      exact hids j hj
    · rw [if_neg hjb]
      exact hids j hj
  · intro j hj
    rw [List.length_map] at hj
    have hidj := hids j hj
    rw [getD_map _ agents j _ { agent_id := j } hj]
    by_cases hjb : j = b
    · rw [if_pos (by rw [hidj]; exact hjb), hjb,
        getD_set_self goals b task.pickup (0, 0) hblt]
      constructor
      · constructor
        · intro hst
          exact AgentState.noConfusion hst
        · intro hc
          exact Option.noConfusion hc
      · intro tk htk
        have htk2 : { task with assigned_to := some b } = tk := by
          injection htk
        refine ⟨fun _ => ?_, fun hst => ?_⟩
        · rw [← htk2]
        · exact AgentState.noConfusion hst
    · rw [if_neg (by rw [hidj]; exact hjb),
        getD_set_ne goals b j task.pickup (0, 0) (fun he => hjb he.symm)]
      exact hinv j hj

theorem arrivalsBody_simInv (st : MAPDState) (i : Nat) (hI : SimInv st) :
    SimInv (arrivalsBody st i) := by
  cases hct : (st.agents.getD i { agent_id := i }).current_task with
  | none =>
    rw [arrivalsBody_eq_none st i hct]
    exact hI
  | some task =>
    have hilt : i < st.agents.length := by
      by_contra hge
      rw [getD_oob st.agents i { agent_id := i } (by omega)] at hct
      exact Option.noConfusion hct
    have haid : (st.agents.getD i { agent_id := i }).agent_id = i := hI.2.2.1 i hilt
    rw [arrivalsBody_eq_some st i task hct]
    by_cases h1 : (st.agents.getD i { agent_id := i }).state =
          AgentState.MOVING_TO_PICKUP ∧
        st.current_config.getD (st.agents.getD i { agent_id := i }).agent_id (0, 0) =
          task.pickup
    · rw [if_pos h1]
      show SimInvOn
        (st.agents.set i
          { st.agents.getD i { agent_id := i } with
            state := AgentState.MOVING_TO_DELIVERY,
            current_task := some { task with picked_up_at := some st.timestep } })
        (st.pibt.goals.set (st.agents.getD i { agent_id := i }).agent_id task.delivery)
        st.pibt.N
      rw [haid]
      refine simInvOn_update st.agents st.pibt.goals st.pibt.N hI i hilt _ _ ?_ ?_
      · exact haid
      · refine ⟨⟨fun hst => ?_, fun hc => ?_⟩, fun tk htk => ?_⟩
        · exact AgentState.noConfusion hst
        · exact Option.noConfusion hc
        · have htk2 : { task with picked_up_at := some st.timestep } = tk := by
            injection htk
          refine ⟨fun hst => ?_, fun _ => ?_⟩
          · exact AgentState.noConfusion hst
          · rw [← htk2]
    · rw [if_neg h1]
      by_cases h2 : (st.agents.getD i { agent_id := i }).state =
            AgentState.MOVING_TO_DELIVERY ∧
          st.current_config.getD (st.agents.getD i { agent_id := i }).agent_id (0, 0) =
            task.delivery
      · rw [if_pos h2]
        show SimInvOn
          (st.agents.set i
            { st.agents.getD i { agent_id := i } with
              state := AgentState.IDLE, current_task := none })
          (st.pibt.goals.set (st.agents.getD i { agent_id := i }).agent_id
            (st.current_config.getD (st.agents.getD i { agent_id := i }).agent_id (0, 0)))
          st.pibt.N
        rw [haid]
        refine simInvOn_update st.agents st.pibt.goals st.pibt.N hI i hilt _ _ ?_ ?_
        · exact haid
        · refine ⟨⟨fun _ => rfl, fun _ => rfl⟩, fun tk htk => ?_⟩
          exact Option.noConfusion htk
      · rw [if_neg h2]
        exact hI

theorem arrivals_foldl_simInv :
    ∀ (l : List Nat) (st : MAPDState), SimInv st → SimInv (l.foldl arrivalsBody st)
  | [], _ => fun h => h
  | i :: l, st => fun h => by
    rw [List.foldl_cons]
    exact arrivals_foldl_simInv l (arrivalsBody st i) (arrivalsBody_simInv st i h)

theorem arrivals_simInv (s : MAPDState) (h : SimInv s) : SimInv (_check_arrivals s) :=
  arrivals_foldl_simInv (List.range s.agents.length) s h

theorem minByDist_mem (cfg : List Coord) :
    ∀ (l : List Nat) (dt : DistTable) (b : Nat × Nat),
    (minByDist cfg l dt).1 = some b → b.1 ∈ l
  | [], _, _, h => Option.noConfusion h
  | a :: rest, dt, b, h => by
    unfold minByDist at h
    cases hr : (minByDist cfg rest ((dt.get (cfg.getD a (0, 0))).2)).1 with
    | none =>
      rw [hr] at h
      have h2 : some (a, (dt.get (cfg.getD a (0, 0))).1) = some b := h
      have h3 : (a, (dt.get (cfg.getD a (0, 0))).1) = b := by
        injection h2
      rw [← h3]
      exact List.mem_cons_self a rest
    | some c =>
      rw [hr] at h
      by_cases hlt : c.2 < (dt.get (cfg.getD a (0, 0))).1
      · have h2 : (if c.2 < (dt.get (cfg.getD a (0, 0))).1 then
            (some c, (minByDist cfg rest ((dt.get (cfg.getD a (0, 0))).2)).2)
          else (some (a, (dt.get (cfg.getD a (0, 0))).1),
            (minByDist cfg rest ((dt.get (cfg.getD a (0, 0))).2)).2)).1 = some b := h
        rw [if_pos hlt] at h2
        have h3 : c = b := by
          injection h2
        rw [← h3]
        exact List.mem_cons_of_mem a (minByDist_mem cfg rest _ c hr)
      · have h2 : (if c.2 < (dt.get (cfg.getD a (0, 0))).1 then
            (some c, (minByDist cfg rest ((dt.get (cfg.getD a (0, 0))).2)).2)
          else (some (a, (dt.get (cfg.getD a (0, 0))).1),
            (minByDist cfg rest ((dt.get (cfg.getD a (0, 0))).2)).2)).1 = some b := h
        rw [if_neg hlt] at h2
        have h3 : (a, (dt.get (cfg.getD a (0, 0))).1) = b := by
          injection h2
        rw [← h3]
        exact List.mem_cons_self a rest

theorem assignGo_simInv :
    ∀ (tasks : List Task) (idle : List Nat) (st : MAPDState) (acc : List Nat),
    SimInv st → (∀ x ∈ idle, x < st.agents.length) →
    SimInv (assignGo tasks idle st acc).1
  | [], _, _, _ => fun h _ => h
  | task :: rest, idle, st, acc => fun hI hid => by
    rw [assignGo_cons]
    by_cases he : idle.isEmpty = true
    · rw [if_pos he]
      exact hI
    · rw [if_neg he]
      cases hm : (assignM st idle task).1 with
      | none => exact hI
      | some best =>
        have hbest : best.1 ∈ idle :=
          minByDist_mem st.current_config idle (assignPdt st task) best hm
        have hblt : best.1 < st.agents.length := hid best.1 hbest
        by_cases hq : (assignQ st idle task best).1 = UNREACHED
        · show SimInv (if (assignQ st idle task best).1 = UNREACHED then
              assignGo rest idle (assignSt2 st idle task best) acc
            else assignGo rest (idle.filter (fun a => a ≠ best.1))
              (assignSt3 st idle task best) (acc ++ [task.task_id])).1
          rw [if_pos hq]
          exact assignGo_simInv rest idle (assignSt2 st idle task best) acc hI hid
        · show SimInv (if (assignQ st idle task best).1 = UNREACHED then
              assignGo rest idle (assignSt2 st idle task best) acc
            else assignGo rest (idle.filter (fun a => a ≠ best.1))
              (assignSt3 st idle task best) (acc ++ [task.task_id])).1
          rw [if_neg hq]
          have hI3 : SimInv (assignSt3 st idle task best) :=
            simInvOn_assign st.agents st.pibt.goals st.pibt.N hI best.1 hblt task
          have hlen3 : (assignSt3 st idle task best).agents.length = st.agents.length := by
            show ((assignSt2 st idle task best).agents.map (fun a =>
              if a.agent_id = best.1 then
                { a with state := AgentState.MOVING_TO_PICKUP,
                         current_task := some { task with assigned_to := some best.1 } }
              else a)).length = st.agents.length
            rw [List.length_map]
            rfl
          have hid3 : ∀ x ∈ idle.filter (fun a => a ≠ best.1),
              x < (assignSt3 st idle task best).agents.length := by
            intro x hx
            rw [hlen3]
            exact hid x (List.mem_of_mem_filter hx)
          exact assignGo_simInv rest (idle.filter (fun a => a ≠ best.1))
            (assignSt3 st idle task best) (acc ++ [task.task_id]) hI3 hid3

theorem assign_simInv (s : MAPDState) (hI : SimInv s) : SimInv (_assign_tasks s) := by
  have hid : ∀ x ∈ (s.agents.filter (fun a => a.state = AgentState.IDLE)).map
      (fun a => a.agent_id), x < s.agents.length := by
    intro x hx
    rw [List.mem_map] at hx
    obtain ⟨a, ha, hax⟩ := hx
    have ha2 := List.mem_of_mem_filter ha
    obtain ⟨n, hn, hna⟩ := List.getElem_of_mem ha2
    have hgetD : s.agents.getD n { agent_id := n } = a := by
      rw [List.getD_eq_getElem?_getD, List.getElem?_eq_getElem hn]
      exact hna
    have hids := hI.2.2.1 n hn
    rw [hgetD] at hids
    rw [← hax, hids]
    exact hn
  exact assignGo_simInv s.pending_tasks
    ((s.agents.filter (fun a => a.state = AgentState.IDLE)).map (fun a => a.agent_id))
    s [] hI hid

theorem tick_simInv (poissonDraw intDraw : Nat → Nat) (oracle : ShuffleOracle)
    (s : MAPDState) (hI : SimInv s) : SimInv (tick poissonDraw intDraw oracle s).2 := by
  have h1 : SimInv { s with timestep := s.timestep + 1 } := hI
  obtain ⟨g1, g2, g3, g4, g5, g6, g7⟩ := generate_frame poissonDraw intDraw
    { s with timestep := s.timestep + 1 }
  have h2 : SimInv (_generate_tasks poissonDraw intDraw
      { s with timestep := s.timestep + 1 }) := by
    refine simInv_congr _ _ g3 ?_ ?_ h1
    · rw [g4]
    · rw [g4]
  have h3 : SimInv (_check_arrivals (_generate_tasks poissonDraw intDraw
      { s with timestep := s.timestep + 1 })) := arrivals_simInv _ h2
  have h4 : SimInv (_assign_tasks (_check_arrivals (_generate_tasks poissonDraw intDraw
      { s with timestep := s.timestep + 1 }))) := assign_simInv _ h3
  have e1 : (tick poissonDraw intDraw oracle s).2.agents =
      (_assign_tasks (_check_arrivals (_generate_tasks poissonDraw intDraw
        { s with timestep := s.timestep + 1 }))).agents := rfl
  have e2 : (tick poissonDraw intDraw oracle s).2.pibt.goals =
      (_assign_tasks (_check_arrivals (_generate_tasks poissonDraw intDraw
        { s with timestep := s.timestep + 1 }))).pibt.goals := step_goals oracle _ _ _
  have e3 : (tick poissonDraw intDraw oracle s).2.pibt.N =
      (_assign_tasks (_check_arrivals (_generate_tasks poissonDraw intDraw
        { s with timestep := s.timestep + 1 }))).pibt.N := step_N oracle _ _ _
  exact simInv_congr _ _ e1 e2 e3 h4

theorem simInv_mk (g : Grid) (num_agents : Nat) (pickups deliveries : List Coord)
    (choiceDraw orientDraw : Nat → Nat) (s0 : MAPDState)
    (h : mkMAPD g num_agents pickups deliveries choiceDraw orientDraw = Except.ok s0) :
    SimInv s0 := by
  unfold mkMAPD at h
  by_cases hlt : (availableCells g pickups deliveries).length < num_agents
  · rw [if_pos hlt] at h
    exact Except.noConfusion h
  · rw [if_neg hlt] at h
    injection h with h2
    rw [← h2]
    refine ⟨?_, ?_, ?_, ?_⟩
    · show ((List.range num_agents).map
          (fun i => ({ agent_id := i } : AgentInfo))).length =
        ((List.range num_agents).map (fun i => (availableCells g pickups
          deliveries).getD (choiceDraw i % (availableCells g pickups
            deliveries).length) (0, 0))).length
      rw [List.length_map, List.length_map]
    · rfl
    · intro j hj
      have hj2 : j < num_agents := by
        have hjj : j < ((List.range num_agents).map
            (fun i => ({ agent_id := i } : AgentInfo))).length := hj
        rw [List.length_map, List.length_range] at hjj
        exact hjj
      have hg := getD_map_range (fun i => ({ agent_id := i } : AgentInfo))
        { agent_id := j } num_agents j hj2
      exact congrArg (fun a => a.agent_id) hg
    · intro j hj
      have hj2 : j < num_agents := by
        have hjj : j < ((List.range num_agents).map
            (fun i => ({ agent_id := i } : AgentInfo))).length := hj
        rw [List.length_map, List.length_range] at hjj
        exact hjj
      have hg := getD_map_range (fun i => ({ agent_id := i } : AgentInfo))
        { agent_id := j } num_agents j hj2
      constructor
      · exact ⟨fun _ => congrArg (fun a => a.current_task) hg,
          fun _ => congrArg (fun a => a.state) hg⟩
      · intro tk htk
        have hct : (((List.range num_agents).map
            (fun i => ({ agent_id := i } : AgentInfo))).getD j
              { agent_id := j }).current_task = none :=
          congrArg (fun a => a.current_task) hg
        rw [hct] at htk
        exact Option.noConfusion htk

theorem tickN_simInv (poissonDraw intDraw : Nat → Nat) (oracle : ShuffleOracle) :
    ∀ (n : Nat) (s : MAPDState), SimInv s →
      SimInv (tickN poissonDraw intDraw oracle n s)
  | 0, _, h => h
  | n + 1, s, h => tickN_simInv poissonDraw intDraw oracle n
      (tick poissonDraw intDraw oracle s).2 (tick_simInv poissonDraw intDraw oracle s h)

/-- Claim C7: in every state of the dispatcher reachable from a successful
construction by any number of ticks, each agent is IDLE exactly when it has
no current task, an agent moving to pickup has the planner goal equal to its
task's pickup cell, and an agent moving to delivery has the planner goal
equal to its task's delivery cell (with the bookkeeping that carries the
invariant: per-index agent records and goal list in step with the fleet). -/
theorem claim_C7 (g : Grid) (num_agents : Nat) (pickups deliveries : List Coord)
    (choiceDraw orientDraw poissonDraw intDraw : Nat → Nat) (oracle : ShuffleOracle)
    (s0 : MAPDState)
    (h : mkMAPD g num_agents pickups deliveries choiceDraw orientDraw = Except.ok s0)
    (n : Nat) : SimInv (tickN poissonDraw intDraw oracle n s0) :=
  tickN_simInv poissonDraw intDraw oracle n s0
    (simInv_mk g num_agents pickups deliveries choiceDraw orientDraw s0 h)

/-- Witness for `claim_C7`: one tick of the concrete one-agent simulation
constructed on the 2×2 grid. -/
theorem claim_C7_witness :
    SimInv (tickN (fun _ => 0) (fun _ => 0) idShuffle 1 mapdWit) :=
  claim_C7 gSquare 1 [(0, 0)] [(0, 1)] (fun _ => 0) (fun _ => 0) (fun _ => 0)
    (fun _ => 0) idShuffle mapdWit rfl 1

end PyPIBT
